import Mathlib

/-!
# WuKongIM: conversation engine

A shallow embedding of `internal/server/conversation.go` and of the handlers of
`internal/server/api_conversation.go`.  Go pointers to conversation records are
modelled by values: a record that the Go code mutates in place while it sits in
a cache is written back to that cache by the model.  Locks, channels and
goroutines are left out: every operation below is one sequential call.
-/

namespace WuKongIM

/-! ## Machine integers -/

/-- The wrap in two-complement form of an integer into the range of a Go `int` / `int64`. -/
def wrapInt64 (x : Int) : Int := (x + 2 ^ 63) % 2 ^ 64 - 2 ^ 63

/-- Subtraction of two `uint32` values, as Go computes it (modulo `2^32`). -/
def subUint32 (a b : Nat) : Nat := (a % 2 ^ 32 + 2 ^ 32 - b % 2 ^ 32) % 2 ^ 32

/-! ## Data model -/

/-- The record `wkstore.Conversation`, with the fields the server reads and writes.
`ChannelType` is a `uint8`, `LastMsgSeq` and `OffsetMsgSeq` are `uint32`,
`UnreadCount` is an `int`, the other numbers are `int64`. -/
structure Conversation where
  UID : String
  ChannelID : String
  ChannelType : Nat
  UnreadCount : Int
  Timestamp : Int
  LastMsgSeq : Nat
  LastClientMsgNo : String
  LastMsgID : Int
  Version : Int
  OffsetMsgSeq : Nat
  deriving DecidableEq, Repr, Inhabited

/-- The fields of `Message` used by the conversation engine. -/
structure Message where
  ChannelID : String
  ChannelType : Nat
  FromUID : String
  MessageSeq : Nat
  MessageID : Int
  ClientMsgNo : String
  Timestamp : Int
  RedDot : Bool
  deriving DecidableEq, Repr, Inhabited

/-- The constant `wkproto.ChannelTypePerson`. -/
def ChannelTypePerson : Nat := 1

/-- The struct `wkproto.Channel`: an element of the `larges` list. -/
structure Channel where
  ChannelID : String
  ChannelType : Nat
  deriving DecidableEq, Repr, Inhabited

/-! ## The LRU cache of `hashicorp/golang-lru`

`items` lists the entries from the most recently used to the oldest. -/

structure LRUCache where
  size : Nat
  items : List (String × Conversation)
  deriving DecidableEq, Repr, Inhabited

namespace LRUCache

/-- The entries other than the one stored under `key`. -/
def without (items : List (String × Conversation)) (key : String) :
    List (String × Conversation) :=
  items.filter (fun e => e.1 != key)

/-- The method `Len`. -/
def Len (c : LRUCache) : Nat := c.items.length

/-- The method `Keys`: the keys from the oldest to the newest. -/
def Keys (c : LRUCache) : List String := (c.items.map (fun e => e.1)).reverse

/-- The method `Get`: the value under `key`, which becomes the most recently used. -/
def Get (c : LRUCache) (key : String) : Option Conversation × LRUCache :=
  match c.items.lookup key with
  | some v => (some v, { c with items := (key, v) :: without c.items key })
  | none => (none, c)

/-- The method `Add`: an existing key is updated and moved to the front; a new key
is pushed to the front and the oldest entry is evicted when the size is exceeded. -/
def Add (c : LRUCache) (key : String) (v : Conversation) : LRUCache :=
  match c.items.lookup key with
  | some _ => { c with items := (key, v) :: without c.items key }
  | none =>
    if ((key, v) :: c.items).length > c.size then
      { c with items := ((key, v) :: c.items).dropLast }
    else
      { c with items := (key, v) :: c.items }

/-- The method `Remove`. -/
def Remove (c : LRUCache) (key : String) : LRUCache :=
  { c with items := without c.items key }

end LRUCache

/-! ## The message store -/

/-- Modelled from the spec: the conversation table of the message store
(`wkstore`, whose code is not among the sources), with the four calls of the
spec's collaborator contract.  A row is a record together with the uid it was
written for.  `readErr` says that reads return an error, `writeErr` lists the
uids whose `AddOrUpdateConversations` returns an error. -/
structure Store where
  conversations : List (String × Conversation)
  readErr : Bool
  writeErr : List String
  deriving DecidableEq, Repr, Inhabited

namespace Store

/-- Modelled from the spec: the key of a row, one record per `(uid, channelId,
channelType)`: does the row belong to `uid` and to the channel? -/
def rowMatches (uid channelID : String) (channelType : Nat)
    (row : String × Conversation) : Bool :=
  row.1 == uid && row.2.ChannelID == channelID && row.2.ChannelType == channelType

/-- Modelled from the spec: `getConversation`, the record of one channel of one user. -/
def GetConversation (s : Store) (uid channelID : String) (channelType : Nat) :
    Except String (Option Conversation) :=
  if s.readErr then .error "store read failed"
  else .ok ((s.conversations.find? (rowMatches uid channelID channelType)).map (fun e => e.2))

/-- Modelled from the spec: `getConversations`, all records of one user. -/
def GetConversations (s : Store) (uid : String) : Except String (List Conversation) :=
  if s.readErr then .error "store read failed"
  else .ok ((s.conversations.filter (fun e => e.1 == uid)).map (fun e => e.2))

/-- Modelled from the spec: one write of `addOrUpdateConversations`, which overwrites
the row of `(uid, c.ChannelID, c.ChannelType)` or appends one. -/
def upsert (rows : List (String × Conversation)) (uid : String) (c : Conversation) :
    List (String × Conversation) :=
  if rows.any (rowMatches uid c.ChannelID c.ChannelType) then
    rows.map (fun e => if rowMatches uid c.ChannelID c.ChannelType e then (uid, c) else e)
  else rows ++ [(uid, c)]

/-- Modelled from the spec: `addOrUpdateConversations`, which overwrites per
`(uid, channel)` with the records of the list. -/
def AddOrUpdateConversations (s : Store) (uid : String) (cs : List Conversation) :
    Except String Store :=
  if uid ∈ s.writeErr then .error "store write failed"
  else .ok { s with conversations := cs.foldl (fun rows c => upsert rows uid c) s.conversations }

/-- Modelled from the spec: `deleteConversation`. -/
def DeleteConversation (s : Store) (uid channelID : String) (channelType : Nat) :
    Except String Store :=
  if uid ∈ s.writeErr then .error "store write failed"
  else .ok { s with
    conversations := s.conversations.filter (fun e => !rowMatches uid channelID channelType e) }

end Store

/-! ## The conversation manager -/

/-- The state of `ConversationManager` together with what it reads from its
server: the store and the options `Conversation.UserMaxCount` and
`Conversation.CacheExpire` (in seconds).  `HashCrc32` stands for
`wkutil.HashCrc32`, which is not among the sources.  A bucket is `none` while its
Go map is nil.  `needSaveConversationMap` lists the keys of the Go map, whose
only stored value is `true`. -/
structure ConversationManager where
  store : Store
  UserMaxCount : Nat
  CacheExpire : Int
  HashCrc32 : String → Nat
  bucketNum : Nat
  userConversationMapBuckets : List (Option (List (String × LRUCache)))
  needSaveConversationMap : List String

/-- The function `NewConversationManager`: ten nil buckets and an empty dirty set. -/
def NewConversationManager (store : Store) (UserMaxCount : Nat) (CacheExpire : Int)
    (HashCrc32 : String → Nat) : ConversationManager :=
  { store := store
    UserMaxCount := UserMaxCount
    CacheExpire := CacheExpire
    HashCrc32 := HashCrc32
    bucketNum := 10
    userConversationMapBuckets := List.replicate 10 none
    needSaveConversationMap := [] }

/-- The method `getChannelKey`: `fmt.Sprintf("%s-%d", channelID, channelType)`. -/
def getChannelKey (channelID : String) (channelType : Nat) : String :=
  channelID ++ "-" ++ String.mk (Nat.toDigits 10 channelType)

/-- The method `newLRUCache`. -/
def newLRUCache (cm : ConversationManager) : LRUCache :=
  { size := cm.UserMaxCount, items := [] }

/-- The method `getLockIndex`: `HashCrc32(uid) % uint32(bucketNum)`. -/
def getLockIndex (cm : ConversationManager) (uid : String) : Nat :=
  (cm.HashCrc32 uid % 2 ^ 32) % cm.bucketNum

/-- The Go map of the bucket at `pos`, empty when the bucket is nil. -/
def bucketMap (cm : ConversationManager) (pos : Nat) : List (String × LRUCache) :=
  (cm.userConversationMapBuckets.getD pos none).getD []

/-- Write `cache` as the cache of `uid` in its bucket: the effect, on the state, of
a mutation of the `*lru.Cache` that the bucket map holds for `uid`. -/
def putUserCache (cm : ConversationManager) (uid : String) (cache : LRUCache) :
    ConversationManager :=
  let pos := getLockIndex cm uid
  { cm with
    userConversationMapBuckets :=
      cm.userConversationMapBuckets.set pos
        (some ((uid, cache) :: (bucketMap cm pos).filter (fun e => e.1 != uid))) }

/-- The method `getUserConversationCacheNoLock`: the cache of `uid`; a nil bucket
map is created and a user without a cache is given a new, empty one. -/
def getUserConversationCacheNoLock (cm : ConversationManager) (uid : String) :
    LRUCache × ConversationManager :=
  let pos := getLockIndex cm uid
  let userConversationMap := bucketMap cm pos
  match userConversationMap.lookup uid with
  | some cache =>
    (cache, { cm with
      userConversationMapBuckets :=
        cm.userConversationMapBuckets.set pos (some userConversationMap) })
  | none =>
    let cache := newLRUCache cm
    (cache, { cm with
      userConversationMapBuckets :=
        cm.userConversationMapBuckets.set pos (some ((uid, cache) :: userConversationMap)) })

/-- The method `getConversationFromCache`. -/
def getConversationFromCache (cm : ConversationManager) (uid channelID : String)
    (channelType : Nat) : Option Conversation × ConversationManager :=
  let (cache, cm1) := getUserConversationCacheNoLock cm uid
  let channelKey := getChannelKey channelID channelType
  let (conversation, cache1) := cache.Get channelKey
  (conversation, putUserCache cm1 uid cache1)

/-- The method `setConversationCache`. -/
def setConversationCache (cm : ConversationManager) (uid : String)
    (conversation : Conversation) : ConversationManager :=
  let (cache, cm1) := getUserConversationCacheNoLock cm uid
  let channelKey := getChannelKey conversation.ChannelID conversation.ChannelType
  putUserCache cm1 uid (cache.Add channelKey conversation)

/-- The method `deleteConversationCache`. -/
def deleteConversationCache (cm : ConversationManager) (uid channelID : String)
    (channelType : Nat) : ConversationManager :=
  let (cache, cm1) := getUserConversationCacheNoLock cm uid
  let channelKey := getChannelKey channelID channelType
  putUserCache cm1 uid (cache.Remove channelKey)

/-- The loop of `getConversationsFromCache`: `Get` every key in turn and collect
the values in that order. -/
def collectConversations : LRUCache → List String → List Conversation × LRUCache
  | cache, [] => ([], cache)
  | cache, key :: keys =>
    match cache.Get key with
    | (some conversation, cache1) =>
      ((conversation :: (collectConversations cache1 keys).1),
        (collectConversations cache1 keys).2)
    | (none, cache1) => collectConversations cache1 keys

/-- The method `getConversationsFromCache`: the cached records of `uid`, from the
oldest to the newest. -/
def getConversationsFromCache (cm : ConversationManager) (uid : String) :
    List Conversation × ConversationManager :=
  let (cache, cm1) := getUserConversationCacheNoLock cm uid
  let (conversations, cache1) := collectConversations cache cache.Keys
  (conversations, putUserCache cm1 uid cache1)

/-- The method `setNeedSave` (the signal on `needSaveChan` is left out). -/
def setNeedSave (cm : ConversationManager) (uid : String) : ConversationManager :=
  if uid ∈ cm.needSaveConversationMap then cm
  else { cm with needSaveConversationMap := cm.needSaveConversationMap ++ [uid] }

/-- The method `AddOrUpdateConversation`. -/
def AddOrUpdateConversation (cm : ConversationManager) (uid : String)
    (conversation : Conversation) : ConversationManager :=
  setNeedSave (setConversationCache cm uid conversation) uid

/-- The effective channel id of `calConversation`: the sender, for a personal
channel whose id is the subscriber. -/
def effectiveChannelID (message : Message) (subscriber : String) : String :=
  if message.ChannelType == ChannelTypePerson && message.ChannelID == subscriber then
    message.FromUID
  else message.ChannelID

/-- The record that `calConversation` builds when it finds none. -/
def newConversation (message : Message) (subscriber : String) (now : Int) : Conversation :=
  { UID := subscriber
    ChannelID := effectiveChannelID message subscriber
    ChannelType := message.ChannelType
    UnreadCount := if message.RedDot && message.FromUID != subscriber then 1 else 0
    Timestamp := message.Timestamp
    LastMsgSeq := message.MessageSeq
    LastClientMsgNo := message.ClientMsgNo
    LastMsgID := message.MessageID
    Version := now
    OffsetMsgSeq := 0 }

/-- The `else` branch of `calConversation`: the record after the message, and the
flag `modify`. -/
def updateConversation (conversation : Conversation) (message : Message)
    (subscriber : String) (now : Int) : Conversation × Bool :=
  let modify := false
  let (conversation, modify) :=
    if message.RedDot && message.FromUID != subscriber then
      ({ conversation with UnreadCount := wrapInt64 (conversation.UnreadCount + 1) }, true)
    else (conversation, modify)
  let (conversation, modify) :=
    if conversation.LastMsgSeq < message.MessageSeq then
      ({ conversation with
          Timestamp := message.Timestamp
          LastClientMsgNo := message.ClientMsgNo
          LastMsgSeq := message.MessageSeq
          LastMsgID := message.MessageID }, true)
    else (conversation, modify)
  if modify then ({ conversation with Version := now }, true) else (conversation, false)

/-- The method `calConversation`; `now` is the reading `time.Now().UnixNano() / 1e6`
of the clock.  An error of the store is logged and the record counts as absent. -/
def calConversation (cm : ConversationManager) (message : Message) (subscriber : String)
    (now : Int) : ConversationManager :=
  let channelID := effectiveChannelID message subscriber
  let (cached, cm1) := getConversationFromCache cm subscriber channelID message.ChannelType
  let conversation :=
    match cached with
    | some c => some c
    | none =>
      match cm1.store.GetConversation subscriber channelID message.ChannelType with
      | .ok c => c
      | .error _ => none
  match conversation with
  | none => AddOrUpdateConversation cm1 subscriber (newConversation message subscriber now)
  | some conversation =>
    let (conversation1, modify) := updateConversation conversation message subscriber now
    if modify then AddOrUpdateConversation cm1 subscriber conversation1 else cm1

/-! ## Views of the state used by the statements -/

/-- The cache of `uid` as the bucket map holds it; a user without a cache has the
empty cache that the next access creates. -/
def cacheOf (cm : ConversationManager) (uid : String) : LRUCache :=
  ((bucketMap cm (getLockIndex cm uid)).lookup uid).getD (newLRUCache cm)

/-- The cached record of `uid` for a channel, read without touching the recency
order (the `Peek` of the LRU library). -/
def peekConversation (cm : ConversationManager) (uid channelID : String)
    (channelType : Nat) : Option Conversation :=
  (cacheOf cm uid).items.lookup (getChannelKey channelID channelType)

/-- The bucket array has `bucketNum` entries and `bucketNum` is positive. -/
def BucketsOK (cm : ConversationManager) : Prop :=
  0 < cm.bucketNum ∧ cm.userConversationMapBuckets.length = cm.bucketNum

/-- The fields that the cache operations never write. -/
def SameEnv (cm cm' : ConversationManager) : Prop :=
  cm'.store = cm.store ∧ cm'.UserMaxCount = cm.UserMaxCount ∧ cm'.CacheExpire = cm.CacheExpire ∧
    cm'.HashCrc32 = cm.HashCrc32 ∧ cm'.bucketNum = cm.bucketNum

/-- What an operation that rewrites the cache of one user to `c` does to the
state, `d` being the dirty set it leaves. -/
structure Touches (cm : ConversationManager) (uid : String) (c : LRUCache) (d : List String)
    (cm' : ConversationManager) : Prop where
  ok : BucketsOK cm'
  env : SameEnv cm cm'
  dirty : cm'.needSaveConversationMap = d
  self : cacheOf cm' uid = c
  other : ∀ uid', uid' ≠ uid → cacheOf cm' uid' = cacheOf cm uid'

/-- The dirty set after `setNeedSave`. -/
def markDirty (d : List String) (uid : String) : List String :=
  if uid ∈ d then d else d ++ [uid]

/-- The record of a channel as `calConversation` looks it up: the cached one, else
the one of the store, an error of the store counting as no record. -/
def lookupRecord (cm : ConversationManager) (uid channelID : String) (channelType : Nat) :
    Option Conversation :=
  match peekConversation cm uid channelID channelType with
  | some c => some c
  | none =>
    match cm.store.GetConversation uid channelID channelType with
    | .ok c => c
    | .error _ => none

/-- The record that `calConversation` works on. -/
def foundConversation (cm : ConversationManager) (message : Message) (subscriber : String) :
    Option Conversation :=
  lookupRecord cm subscriber (effectiveChannelID message subscriber) message.ChannelType

/-- The record that `calConversation` puts into the cache, if it puts one. -/
def calStored (cm : ConversationManager) (message : Message) (subscriber : String)
    (now : Int) : Option Conversation :=
  match foundConversation cm message subscriber with
  | none => some (newConversation message subscriber now)
  | some r =>
    if (updateConversation r message subscriber now).2 then
      some (updateConversation r message subscriber now).1
    else none

/-- The cache of the subscriber after `calConversation`. -/
def calCache (cm : ConversationManager) (message : Message) (subscriber : String)
    (now : Int) : LRUCache :=
  let c1 := ((cacheOf cm subscriber).Get
    (getChannelKey (effectiveChannelID message subscriber) message.ChannelType)).2
  match calStored cm message subscriber now with
  | some r => c1.Add (getChannelKey r.ChannelID r.ChannelType) r
  | none => c1

/-- The number that a list of decimal digit characters stands for, starting from `acc`. -/
def decodeDigits (acc : Nat) (l : List Char) : Nat :=
  l.foldl (fun a c => 10 * a + (c.toNat - 48)) acc

/-- The key under which a record belongs. -/
def keyOf (r : Conversation) : String := getChannelKey r.ChannelID r.ChannelType

/-- The calculator applied to one subscriber for a sequence of messages, each with
the reading of the clock at its turn. -/
def calConversations (cm : ConversationManager) (subscriber : String)
    (events : List (Message × Int)) : ConversationManager :=
  events.foldl (fun cm e => calConversation cm e.1 subscriber e.2) cm

/-- Does the message raise the unread count of `subscriber`? -/
def countsUnread (subscriber : String) (message : Message) : Bool :=
  message.RedDot && message.FromUID != subscriber

/-- The cached records of `uid` sit under the key of their own channel. -/
def KeysOK (cm : ConversationManager) (uid : String) : Prop :=
  ∀ channelID channelType r, peekConversation cm uid channelID channelType = some r →
    r.ChannelID = channelID ∧ r.ChannelType = channelType

/-- A well-formed cache: a positive size, one entry per key, every record under
the key of its own channel. -/
structure LRUCache.WF (c : LRUCache) : Prop where
  size : 0 < c.size
  nodup : (c.items.map (fun e => e.1)).Nodup
  keys : ∀ e ∈ c.items, e.1 = keyOf e.2

/-- A well-formed manager. -/
structure WF (cm : ConversationManager) : Prop where
  buckets : BucketsOK cm
  maxCount : 0 < cm.UserMaxCount
  caches : ∀ uid, (cacheOf cm uid).WF

/-- The record after a sequence of messages, as `updateConversation` computes it. -/
def updateAll (r : Conversation) (s : String) (evs : List (Message × Int)) : Conversation :=
  evs.foldl (fun r e => (updateConversation r e.1 s e.2).1) r

/-- Sample data: the manager at start, with an empty store. -/
def sampleManager : ConversationManager :=
  NewConversationManager { conversations := [], readErr := false, writeErr := [] } 3 0
    (fun s => s.length)

/-- Sample data: a red-dot message of user `a` to the group `g`, with sequence 5. -/
def sampleMessage5 : Message :=
  { ChannelID := "g", ChannelType := 2, FromUID := "a", MessageSeq := 5, MessageID := 105,
    ClientMsgNo := "n5", Timestamp := 1000, RedDot := true }

/-- Sample data: an older red-dot message of user `a` to the group `g`, with sequence 3. -/
def sampleMessage3 : Message :=
  { ChannelID := "g", ChannelType := 2, FromUID := "a", MessageSeq := 3, MessageID := 103,
    ClientMsgNo := "n3", Timestamp := 900, RedDot := true }

/-- Sample data: a personal message of user `f` whose channel id is the receiver `s`. -/
def samplePersonal : Message :=
  { ChannelID := "s", ChannelType := 1, FromUID := "f", MessageSeq := 7, MessageID := 107,
    ClientMsgNo := "n7", Timestamp := 1100, RedDot := true }

/-! ## Reading and setting conversations -/

/-- The record stored under `key` replaced by `v`: what a write through the pointer
that the cache holds under `key` does to the cache. -/
def LRUCache.update (c : LRUCache) (key : String) (v : Conversation) : LRUCache :=
  { c with items := c.items.map (fun e => if e.1 == key then (e.1, v) else e) }

/-- A write through the pointer to the record that the cache of `uid` holds under
`key`. -/
def writeCached (cm : ConversationManager) (uid key : String) (v : Conversation) :
    ConversationManager :=
  putUserCache cm uid ((cacheOf cm uid).update key v)

/-- The two assignments of `SetConversationUnread`. -/
def setUnreadFields (conversation : Conversation) (unread : Int) (messageSeq : Nat) :
    Conversation :=
  if messageSeq > 0 then
    { conversation with UnreadCount := unread, OffsetMsgSeq := messageSeq }
  else { conversation with UnreadCount := unread }

/-- The method `SetConversationUnread`: the cached record is changed in place; a
record found only in the store is changed and put into the cache. -/
def SetConversationUnread (cm : ConversationManager) (uid channelID : String)
    (channelType : Nat) (unread : Int) (messageSeq : Nat) :
    Except String Unit × ConversationManager :=
  let (cached, cm1) := getConversationFromCache cm uid channelID channelType
  match cached with
  | some conversation =>
    let cm2 := writeCached cm1 uid (getChannelKey channelID channelType)
      (setUnreadFields conversation unread messageSeq)
    (.ok (), setNeedSave cm2 uid)
  | none =>
    match cm1.store.GetConversation uid channelID channelType with
    | .error err => (.error err, cm1)
    | .ok none => (.ok (), cm1)
    | .ok (some conversation) =>
      (.ok (), setNeedSave
        (setConversationCache cm1 uid (setUnreadFields conversation unread messageSeq)) uid)

/-- The method `GetConversation`: the first cached record of the channel, else the
record of the store (none when the store returns an error). -/
def GetConversation (cm : ConversationManager) (uid channelID : String) (channelType : Nat) :
    Option Conversation × ConversationManager :=
  let (conversations, cm1) := getConversationsFromCache cm uid
  match conversations.find? (fun c => c.ChannelID == channelID && c.ChannelType == channelType) with
  | some conversation => (some conversation, cm1)
  | none =>
    match cm1.store.GetConversation uid channelID channelType with
    | .ok conversation => (conversation, cm1)
    | .error _ => (none, cm1)

/-- The method `channelInLarges`. -/
def channelInLarges (channelID : String) (channelType : Nat) (larges : List Channel) : Bool :=
  if larges.length == 0 then false
  else larges.any (fun large => large.ChannelID == channelID && large.ChannelType == channelType)

/-- One turn of the merge loop of `GetConversations`: the cached record replaces the
entry at the index of the first store record of its channel, or is appended.  The
Boolean of an entry says whether it is the cached object (`true`) or a copy read
from the store (`false`). -/
def mergeStep (oldConversations : List Conversation) (newConversations : List (Bool × Conversation))
    (updateConversation : Conversation) : List (Bool × Conversation) :=
  match oldConversations.findIdx? (fun conversation =>
      conversation.ChannelID == updateConversation.ChannelID &&
        conversation.ChannelType == updateConversation.ChannelType) with
  | some existIndex => newConversations.set existIndex (true, updateConversation)
  | none => newConversations ++ [(true, updateConversation)]

/-- The merged list of `GetConversations`, before the filter. -/
def mergeConversations (oldConversations updateConversations : List Conversation) :
    List (Bool × Conversation) :=
  updateConversations.foldl (mergeStep oldConversations)
    (oldConversations.map (fun c => (false, c)))

/-- The test of the filter loop of `GetConversations`. -/
def keepConversation (version : Int) (larges : List Channel) (conversation : Conversation) :
    Bool :=
  decide (version ≤ 0) || decide (conversation.Version > version) ||
    channelInLarges conversation.ChannelID conversation.ChannelType larges

/-- The order of `conversationSlice`: `sort.Sort` by descending `Timestamp`.  The sort of Go
is not stable; the order among equal timestamps is here the one of an
insertion sort. -/
def sortConversations (l : List (Bool × Conversation)) : List (Bool × Conversation) :=
  l.insertionSort (fun a b => a.2.Timestamp ≥ b.2.Timestamp)

/-- The method `GetConversations`, each returned pointer with the mark of
`mergeStep`.  An error of the store gives the nil slice, here the empty list.  The
records are values, so the nil test of the filter loop has no counterpart. -/
def GetConversationsTagged (cm : ConversationManager) (uid : String) (version : Int)
    (larges : List Channel) : List (Bool × Conversation) × ConversationManager :=
  match cm.store.GetConversations uid with
  | .error _ => ([], cm)
  | .ok oldConversations =>
    let (updateConversations, cm1) := getConversationsFromCache cm uid
    let newConversations := mergeConversations oldConversations updateConversations
    (sortConversations (newConversations.filter (fun c => keepConversation version larges c.2)),
      cm1)

/-- The method `GetConversations`. -/
def GetConversations (cm : ConversationManager) (uid : String) (version : Int)
    (larges : List Channel) : List Conversation × ConversationManager :=
  ((GetConversationsTagged cm uid version larges).1.map (fun c => c.2),
    (GetConversationsTagged cm uid version larges).2)

/-! ## Flushing -/

/-- The expiry test `Timestamp/1000 + CacheExpire.Seconds() < time.Now().Unix()`. -/
def isExpired (cm : ConversationManager) (conversation : Conversation) (now : Int) : Bool :=
  decide (wrapInt64 (Int.tdiv conversation.Timestamp 1000 + cm.CacheExpire) < now)

/-- The loop at the end of `flushUserConversations`, which removes the expired
records of the flushed list from the cache. -/
def removeExpired (cm : ConversationManager) (uid : String) (now : Int)
    (conversations : List Conversation) : ConversationManager :=
  conversations.foldl
    (fun cm conversation =>
      if isExpired cm conversation now then
        deleteConversationCache cm uid conversation.ChannelID conversation.ChannelType
      else cm)
    cm

/-- The method `flushUserConversations`; `now` is the reading `time.Now().Unix()`,
taken as the same for every record of the call. -/
def flushUserConversations (cm : ConversationManager) (uid : String) (now : Int) :
    ConversationManager :=
  let (conversations, cm1) := getConversationsFromCache cm uid
  if conversations.length == 0 then cm1
  else
    match cm1.store.AddOrUpdateConversations uid conversations with
    | .error _ => cm1
    | .ok store1 =>
      removeExpired
        { cm1 with
          store := store1
          needSaveConversationMap := cm1.needSaveConversationMap.filter (fun u => u != uid) }
        uid now conversations

/-- The method `FlushConversations`: the dirty uids are snapshot and flushed one
after the other (Go ranges over its map in an unspecified order; the model takes
the order of the list). -/
def FlushConversations (cm : ConversationManager) (now : Int) : ConversationManager :=
  cm.needSaveConversationMap.foldl (fun cm uid => flushUserConversations cm uid now) cm

/-! ## The handlers of the conversation API -/

/-- The request of `clearConversationUnread`. -/
structure clearConversationUnreadReq where
  UID : String
  ChannelID : String
  ChannelType : Nat
  MessageSeq : Nat
  deriving DecidableEq, Repr, Inhabited

/-- Modelled from the spec: the validation `Check` of the request, whose code is not
among the sources: a missing uid or an empty channel id or type is an error. -/
def clearConversationUnreadReq.Check (req : clearConversationUnreadReq) : Except String Unit :=
  if req.UID == "" then .error "uid cannot be empty"
  else if req.ChannelID == "" || req.ChannelType == 0 then
    .error "channel_id or channel_type cannot be empty"
  else .ok ()

/-- The handler `clearConversationUnread`, from the bound request on. -/
def clearConversationUnread (cm : ConversationManager) (req : clearConversationUnreadReq) :
    Except String Unit × ConversationManager :=
  match req.Check with
  | .error err => (.error err, cm)
  | .ok _ =>
    let (conversation, cm1) := GetConversation cm req.UID req.ChannelID req.ChannelType
    if conversation.isNone && req.MessageSeq > 0 then
      (.ok (), AddOrUpdateConversation cm1 req.UID
        { UID := req.UID, ChannelID := req.ChannelID, ChannelType := req.ChannelType,
          UnreadCount := 0, Timestamp := 0, LastMsgSeq := 0, LastClientMsgNo := "",
          LastMsgID := 0, Version := 0, OffsetMsgSeq := req.MessageSeq })
    else
      SetConversationUnread cm1 req.UID req.ChannelID req.ChannelType 0 req.MessageSeq

/-- The request of `setConversationUnread`. -/
structure setConversationUnreadReq where
  UID : String
  ChannelID : String
  ChannelType : Nat
  Unread : Int
  MessageSeq : Nat
  deriving DecidableEq, Repr, Inhabited

/-- The handler `setConversationUnread`, from the bound request on. -/
def setConversationUnread (cm : ConversationManager) (req : setConversationUnreadReq) :
    Except String Unit × ConversationManager :=
  if req.UID == "" then (.error "UID cannot be empty", cm)
  else if req.ChannelID == "" || req.ChannelType == 0 then
    (.error "channel_id or channel_type cannot be empty", cm)
  else
    let (conversation, cm1) := GetConversation cm req.UID req.ChannelID req.ChannelType
    if conversation.isNone && req.MessageSeq > 0 && req.Unread == 0 then
      (.ok (), AddOrUpdateConversation cm1 req.UID
        { UID := req.UID, ChannelID := req.ChannelID, ChannelType := req.ChannelType,
          UnreadCount := 0, Timestamp := 0, LastMsgSeq := 0, LastClientMsgNo := "",
          LastMsgID := 0, Version := 0, OffsetMsgSeq := req.MessageSeq })
    else
      SetConversationUnread cm1 req.UID req.ChannelID req.ChannelType req.Unread req.MessageSeq

/-- The request of `syncUserConversation`. -/
structure syncUserConversationReq where
  UID : String
  Version : Int
  LastMsgSeqs : String
  MsgCount : Int
  Larges : List Channel
  deriving DecidableEq, Repr, Inhabited

/-- The variables of the loop over `req.Larges`: the slice `conversations` (whose
pointers are also the first entries of `newConversations`), the records appended to
`newConversations`, and the manager. -/
structure syncState where
  conversations : List (Bool × Conversation)
  appended : List Conversation
  cm : ConversationManager

/-- The assignments to `existConversation` for a large channel; `int` is taken to
have 64 bits, so that the conversion of the `uint32` difference keeps its value. -/
def largeChannelUpdate (existConversation : Conversation) (lastMessage : Message) :
    Conversation :=
  { existConversation with
    Timestamp := lastMessage.Timestamp
    LastMsgSeq := lastMessage.MessageSeq
    LastClientMsgNo := lastMessage.ClientMsgNo
    LastMsgID := lastMessage.MessageID
    UnreadCount := (subUint32 lastMessage.MessageSeq existConversation.OffsetMsgSeq : Nat) }

/-- The body of the loop over `req.Larges`, once the last message is loaded. -/
def syncLargeChannel (uid : String) (st : syncState) (largeChannel : Channel)
    (lastMessages : List Message) : syncState :=
  let existIndex := st.conversations.findIdx? (fun cs =>
    cs.2.ChannelID == largeChannel.ChannelID && cs.2.ChannelType == largeChannel.ChannelType)
  match existIndex, lastMessages.getLast? with
  | some idx, some lastMessage =>
    match st.conversations[idx]? with
    | some (cached, existConversation) =>
      let updated := largeChannelUpdate existConversation lastMessage
      { st with
        conversations := st.conversations.set idx (cached, updated)
        cm := if cached then writeCached st.cm uid (keyOf existConversation) updated else st.cm }
    | none => st
  | none, some lastMessage =>
    { st with
      appended := st.appended ++
        [{ UID := uid, ChannelID := largeChannel.ChannelID, ChannelType := largeChannel.ChannelType,
           UnreadCount := 0, Timestamp := lastMessage.Timestamp,
           LastMsgSeq := lastMessage.MessageSeq, LastClientMsgNo := lastMessage.ClientMsgNo,
           LastMsgID := lastMessage.MessageID, Version := 0, OffsetMsgSeq := 0 }] }
  | _, none => st

/-- The loop over `req.Larges`; `LoadLastMsgs` stands for the call of the message
store, which is not among the sources.  An error of the store ends the handler. -/
def syncLargeChannels (LoadLastMsgs : String → Nat → Nat → Except String (List Message))
    (uid : String) : syncState → List Channel → Except String Unit × syncState
  | st, [] => (.ok (), st)
  | st, largeChannel :: rest =>
    match LoadLastMsgs largeChannel.ChannelID largeChannel.ChannelType 1 with
    | .error _ => (.error "查询大群最后一条消息失败！", st)
    | .ok lastMessages =>
      syncLargeChannels LoadLastMsgs uid (syncLargeChannel uid st largeChannel lastMessages) rest

/-- The handler `syncUserConversation`, from the bound request on: the records of
`newConversations`, from which the response is built, and the manager. -/
def syncUserConversation (cm : ConversationManager)
    (LoadLastMsgs : String → Nat → Nat → Except String (List Message))
    (req : syncUserConversationReq) : Except String (List Conversation) × ConversationManager :=
  let (conversations, cm1) := GetConversationsTagged cm req.UID req.Version req.Larges
  match syncLargeChannels LoadLastMsgs req.UID
      { conversations := conversations, appended := [], cm := cm1 } req.Larges with
  | (.error err, st) => (.error err, st.cm)
  | (.ok _, st) => (.ok (st.conversations.map (fun c => c.2) ++ st.appended), st.cm)

/-- The cache of `uid` after `SetConversationUnread`. -/
def setUnreadCache (cm : ConversationManager) (uid channelID : String) (channelType : Nat)
    (unread : Int) (messageSeq : Nat) : LRUCache :=
  let c1 := ((cacheOf cm uid).Get (getChannelKey channelID channelType)).2
  match peekConversation cm uid channelID channelType with
  | some r => c1.update (getChannelKey channelID channelType) (setUnreadFields r unread messageSeq)
  | none =>
    match cm.store.GetConversation uid channelID channelType with
    | .ok (some r) =>
      c1.Add (keyOf (setUnreadFields r unread messageSeq)) (setUnreadFields r unread messageSeq)
    | _ => c1

/-- Sample data: the manager after the message with sequence 5 was handled for `b`. -/
def sampleCached : ConversationManager := calConversation sampleManager sampleMessage5 "b" 10

/-- Sample data: the manager after the message with sequence 5 was handled for `b`
and the cache was flushed to the store. -/
def sampleFlushed : ConversationManager := FlushConversations sampleCached 0

/-- The channel of a record. -/
def chan (r : Conversation) : String × Nat := (r.ChannelID, r.ChannelType)

/-- The merge of the spec in closed form: every store record with a cached record of
the same channel is replaced by it at its place, and the cached records of the other
channels follow. -/
def mergedSpec (old cached : List Conversation) : List (Bool × Conversation) :=
  old.map (fun o =>
      match cached.find? (fun u => decide (chan u = chan o)) with
      | some u => (true, u)
      | none => (false, o)) ++
    (cached.filter (fun u => decide (chan u ∉ old.map chan))).map (fun u => (true, u))

/-- Sample data: a message of user `a` to the group `h`. -/
def sampleMessageH : Message :=
  { ChannelID := "h", ChannelType := 2, FromUID := "a", MessageSeq := 1, MessageID := 201,
    ClientMsgNo := "h1", Timestamp := 1200, RedDot := true }

/-- Sample data: after the flush, `b` got a second message in `g` and one in `h`. -/
def sampleMerged : ConversationManager :=
  calConversation (calConversation sampleFlushed sampleMessage3 "b" 12) sampleMessageH "b" 13

/-- The key that `Add` under `key` evicts: none when `key` is cached or the cache has
room, else the key of the oldest entry. -/
def LRUCache.evictedBy (c : LRUCache) (key : String) : Option String :=
  match c.items.lookup key with
  | some _ => none
  | none =>
    if c.items.length + 1 > c.size then
      match c.items.getLast? with
      | some e => some e.1
      | none => some key
    else none

/-- The rows after `addOrUpdateConversations uid l`. -/
def upsertAll (rows : List (String × Conversation)) (uid : String) (l : List Conversation) :
    List (String × Conversation) :=
  l.foldl (fun rows c => Store.upsert rows uid c) rows

/-- A well-formed cache all of whose records satisfy `P`. -/
def LRUCache.Good (P : Conversation → Prop) (c : LRUCache) : Prop :=
  c.WF ∧ ∀ e ∈ c.items, P e.2

/-- A well-formed manager all of whose cached records satisfy `P`. -/
def GoodCM (P : Conversation → Prop) (cm : ConversationManager) : Prop :=
  WF cm ∧ ∀ uid, ∀ e ∈ (cacheOf cm uid).items, P e.2

/-- An operation on the conversation engine: a call of `calConversation`, a request
to one of the two unread handlers, or a request to the sync handler together with
the answers of the message store. -/
inductive ConvOp where
  | cal (message : Message) (subscriber : String) (now : Int)
  | clearUnread (req : clearConversationUnreadReq)
  | setUnread (req : setConversationUnreadReq)
  | sync (LoadLastMsgs : String → Nat → Nat → Except String (List Message))
      (req : syncUserConversationReq)

/-- The manager after one operation. -/
def applyOp (cm : ConversationManager) : ConvOp → ConversationManager
  | .cal message subscriber now => calConversation cm message subscriber now
  | .clearUnread req => (clearConversationUnread cm req).2
  | .setUnread req => (setConversationUnread cm req).2
  | .sync LoadLastMsgs req => (syncUserConversation cm LoadLastMsgs req).2

/-- The manager after a sequence of operations. -/
def applyOps (cm : ConversationManager) (ops : List ConvOp) : ConversationManager :=
  ops.foldl applyOp cm

/-- The unread count lies between 0 and `hi`. -/
def unreadWithin (hi : Int) (r : Conversation) : Prop :=
  0 ≤ r.UnreadCount ∧ r.UnreadCount ≤ hi

/-- Sample data: a request to `setUnread` with a negative unread value. -/
def sampleNegativeReq : setConversationUnreadReq :=
  { UID := "b", ChannelID := "g", ChannelType := 2, Unread := -1, MessageSeq := 0 }

/-- Sample data: a request to `setUnread` with a positive unread value. -/
def sampleSetReq : setConversationUnreadReq :=
  { UID := "b", ChannelID := "g", ChannelType := 2, Unread := 7, MessageSeq := 0 }

/-- Sample data: a request to `clearUnread`. -/
def sampleClearReq : clearConversationUnreadReq :=
  { UID := "b", ChannelID := "g", ChannelType := 2, MessageSeq := 5 }

/-! ## Deleting conversations -/

/-- The method `DeleteConversation`: for every uid the record leaves the cache and
the store; an error of the store is logged. -/
def DeleteConversation (cm : ConversationManager) (uids : List String) (channelID : String)
    (channelType : Nat) : ConversationManager :=
  uids.foldl
    (fun cm uid =>
      let cm1 := deleteConversationCache cm uid channelID channelType
      match cm1.store.DeleteConversation uid channelID channelType with
      | .ok store1 => { cm1 with store := store1 }
      | .error _ => cm1)
    cm

/-- Sample data: `b` got a message in the group `g` and then deleted that
conversation, so that `b` is dirty and has no cached record. -/
def sampleDeleted : ConversationManager := DeleteConversation sampleCached ["b"] "g" 2

/-- Sample data: the manager of `sampleMerged` over a store whose writes fail for `b`. -/
def sampleFailing : ConversationManager :=
  { sampleMerged with store := { sampleMerged.store with writeErr := ["b"] } }

/-! ## The expiry sweeper -/

/-- The loop of `clearExpireConversations` over the keys of one cache: `Get` every
key and remove the record when it is expired. -/
def clearExpireKeys (cm : ConversationManager) (now : Int) : LRUCache → List String → LRUCache
  | cache, [] => cache
  | cache, key :: keys =>
    match cache.Get key with
    | (some conversation, cache1) =>
      if isExpired cm conversation now then clearExpireKeys cm now (cache1.Remove key) keys
      else clearExpireKeys cm now cache1 keys
    | (none, cache1) => clearExpireKeys cm now cache1 keys

/-- The method `clearExpireConversations`; `now` is the reading `time.Now().Unix()`,
in seconds, taken as the same for every record.  In every bucket map every cache loses
its expired records, and a user whose cache is then empty leaves the map. -/
def clearExpireConversations (cm : ConversationManager) (now : Int) : ConversationManager :=
  { cm with
    userConversationMapBuckets :=
      cm.userConversationMapBuckets.map (fun bucket =>
        bucket.map (fun userConversationMap =>
          (userConversationMap.map
            (fun e => (e.1, clearExpireKeys cm now e.2 e.2.Keys))).filter
              (fun e => e.2.Len != 0))) }

/-- The users of all bucket maps: the index of the bucket, the uid and the cache. -/
def bucketUsers (cm : ConversationManager) : List (Nat × String × LRUCache) :=
  cm.userConversationMapBuckets.enum.flatMap
    (fun b => (b.2.getD []).map (fun e => (b.1, e.1, e.2)))

/-- Sample data: a message whose timestamp is 1000100 ms. -/
def sampleMessageMs : Message :=
  { ChannelID := "g", ChannelType := 2, FromUID := "a", MessageSeq := 5, MessageID := 105,
    ClientMsgNo := "n5", Timestamp := 1000100, RedDot := true }

/-- Sample data: `b` has a cached record with timestamp 1000100 ms and one with
timestamp 900 ms; `CacheExpire` is 0. -/
def sampleSweep : ConversationManager :=
  calConversation
    (calConversation sampleManager sampleMessageMs "b" 10)
    { sampleMessage3 with ChannelID := "h" } "b" 11

/-- Modelled from the spec: the struct `channelRecentMessageReq`, one entry of the
`channels` list of a `/conversation/syncMessages` request. -/
structure channelRecentMessageReq where
  ChannelID : String
  ChannelType : Nat
  LastMsgSeq : Nat
  deriving DecidableEq, Repr, Inhabited

/-- Modelled from the spec: the struct `channelRecentMessage`, one entry of the response;
the conversion of a message to a `MessageResp` is left out. -/
structure channelRecentMessage where
  ChannelID : String
  ChannelType : Nat
  Messages : List Message
  deriving DecidableEq, Repr, Inhabited

/-- One call of `store.LoadLastMsgsWithEnd`, with its four arguments. -/
structure LoadCall where
  channelID : String
  channelType : Nat
  endSeq : Nat
  limit : Int
  deriving DecidableEq, Repr, Inhabited

/-- The collaborators of `getRecentMessages` whose code lies outside the handler: the
message store, the function `GetFakeChannelIDWith` and the order of
`sort.Sort(sort.Reverse(messageResps))`. -/
structure RecentEnv where
  LoadLastMsgsWithEnd : String → Nat → Nat → Int → Except String (List Message)
  GetFakeChannelIDWith : String → String → String
  sortReverse : List Message → List Message

/-- The loop of `getRecentMessages` over the channels; beside the result it returns the
calls of `LoadLastMsgsWithEnd` it made, in order. -/
def getRecentMessagesLoop (env : RecentEnv) (uid : String) (msgCount : Int) :
    List channelRecentMessageReq → List channelRecentMessage → List LoadCall →
      Except String (List channelRecentMessage) × List LoadCall
  | [], channelRecentMessages, calls => (.ok channelRecentMessages, calls)
  | channel :: rest, channelRecentMessages, calls =>
    let fakeChannelID :=
      if channel.ChannelType = ChannelTypePerson then
        env.GetFakeChannelIDWith uid channel.ChannelID
      else channel.ChannelID
    let calls1 := calls ++
      [{ channelID := fakeChannelID, channelType := channel.ChannelType,
         endSeq := channel.LastMsgSeq, limit := msgCount }]
    match env.LoadLastMsgsWithEnd fakeChannelID channel.ChannelType channel.LastMsgSeq
        msgCount with
    | .error err => (.error err, calls1)
    | .ok recentMessages =>
      getRecentMessagesLoop env uid msgCount rest
        (channelRecentMessages ++
          [{ ChannelID := channel.ChannelID, ChannelType := channel.ChannelType,
             Messages := env.sortReverse recentMessages }])
        calls1

/-- The method `getRecentMessages`. -/
def getRecentMessages (env : RecentEnv) (uid : String) (msgCount : Int)
    (channels : List channelRecentMessageReq) :
    Except String (List channelRecentMessage) × List LoadCall :=
  if channels.length > 0 then getRecentMessagesLoop env uid msgCount channels [] []
  else (.ok [], [])

/-- The bound request of `syncRecentMessages`. -/
structure syncRecentMessagesReq where
  UID : String
  Channels : List channelRecentMessageReq
  MsgCount : Int
  deriving DecidableEq, Repr, Inhabited

/-- The handler `syncRecentMessages`, from the bound request on.  The local `msgCount`
takes the default 15, and the call of `getRecentMessages` is given `req.MsgCount`. -/
def syncRecentMessages (env : RecentEnv) (req : syncRecentMessagesReq) :
    Except String (List channelRecentMessage) × List LoadCall :=
  let msgCount := if req.MsgCount ≤ 0 then 15 else req.MsgCount
  let _unused := msgCount
  match getRecentMessages env req.UID req.MsgCount req.Channels with
  | (.error _, calls) => (.error "获取最近消息失败！", calls)
  | (.ok channelRecentMessages, calls) => (.ok channelRecentMessages, calls)

/-- Sample data: a message store without messages. -/
def sampleRecentEnv : RecentEnv :=
  { LoadLastMsgsWithEnd := fun _ _ _ _ => .ok []
    GetFakeChannelIDWith := fun a b => a ++ "@" ++ b
    sortReverse := fun l => l }

/-- Sample data: a request for the recent messages of group "g" without a count. -/
def sampleRecentReq : syncRecentMessagesReq :=
  { UID := "b", Channels := [{ ChannelID := "g", ChannelType := 2, LastMsgSeq := 0 }],
    MsgCount := 0 }

/-- The test of the inner loop of `syncUserConversation`: is the record one of the
large channel? -/
def isLargeChannel (largeChannel : Channel) (cs : Bool × Conversation) : Bool :=
  cs.2.ChannelID == largeChannel.ChannelID && cs.2.ChannelType == largeChannel.ChannelType

/-- Sample data: the manager after `clearUnread` of user "b" for group "g" up to sequence 5. -/
def sampleOffset : ConversationManager := (clearConversationUnread sampleManager sampleClearReq).2

/-- Sample data: a sync request of user "b" that names group "g" as a large channel. -/
def sampleLargeReq : syncUserConversationReq :=
  { UID := "b", Version := 0, LastMsgSeqs := "", MsgCount := 0,
    Larges := [{ ChannelID := "g", ChannelType := 2 }] }

/-- Sample data: a message store whose last message of every channel has sequence 3. -/
def sampleLoadLast3 : String → Nat → Nat → Except String (List Message) :=
  fun _ _ _ => .ok [sampleMessage3]

/-- Sample data: a message store whose last message of every channel has sequence 5. -/
def sampleLoadLast5 : String → Nat → Nat → Except String (List Message) :=
  fun _ _ _ => .ok [sampleMessage5]

/-- Sample data: the manager after `clearUnread` of user "b" for group "g" up to sequence 3. -/
def sampleOffset3 : ConversationManager :=
  (clearConversationUnread sampleManager { sampleClearReq with MessageSeq := 3 }).2

/-- The first record of the large channel sits at index `i` and has offset `off`. -/
def LargeAt (ch : Channel) (i off : Nat) (cur : List (Bool × Conversation)) : Prop :=
  cur.findIdx? (isLargeChannel ch) = some i ∧
    ∃ t r, cur[i]? = some (t, r) ∧ r.OffsetMsgSeq = off

/-- The record at index `i` has the unread count `v`. -/
def UnreadAt (i : Nat) (v : Int) (cur : List (Bool × Conversation)) : Prop :=
  ∃ t r, cur[i]? = some (t, r) ∧ r.UnreadCount = v

/-! ## The cluster manager: slot allocation -/

set_option linter.dupNamespace false

/-- The message `pb.Peer`, with the fields that the cluster manager reads and writes;
ids are `uint64`. -/
structure Peer where
  PeerID : Nat
  GrpcServerAddr : String
  ApiServerAddr : String
  Role : Nat
  deriving DecidableEq, Repr, Inhabited

/-- The message `pb.Slot`: a slot id (`uint32`), its leader and the peers that hold a
replica. -/
structure Slot where
  Slot : Nat
  Leader : Nat
  Peers : List Nat
  deriving DecidableEq, Repr, Inhabited

/-- The message `pb.Cluster`: the cluster record; `SlotCount` and `ReplicaCount` are
`uint32`. -/
structure Cluster where
  Leader : Nat
  SlotCount : Nat
  ReplicaCount : Nat
  Peers : List Peer
  Slots : List Slot
  deriving DecidableEq, Repr, Inhabited

/-- The message `pb.AllocateSlot`: a slot id with the peers chosen for it. -/
structure AllocateSlot where
  Slot : Nat
  Peers : List Nat
  deriving DecidableEq, Repr, Inhabited

/-- The message `pb.SlotLeaderRelation`. -/
structure SlotLeaderRelation where
  Slot : Nat
  Leader : Nat
  NeedUpdate : Bool
  deriving DecidableEq, Repr, Inhabited

/-- The struct `SlotAction`; the only action type is `SlotActionStart`, which is 0. -/
structure SlotAction where
  SlotID : Nat
  Action : Nat
  deriving DecidableEq, Repr, Inhabited

/-- The struct `ClusterReady`; a nil pointer or nil slice is `none`. -/
structure ClusterReady where
  AllocateSlotSet : Option (List AllocateSlot)
  SlotActions : Option (List SlotAction)
  UpdatePeer : Option Peer
  SlotLeaderRelationSet : Option (List SlotLeaderRelation)
  deriving DecidableEq, Repr, Inhabited

/-- The variable `EmptyClusterReady`. -/
def EmptyClusterReady : ClusterReady :=
  { AllocateSlotSet := none, SlotActions := none, UpdatePeer := none,
    SlotLeaderRelationSet := none }

/-- The function `IsEmptyClusterReady`. -/
def IsEmptyClusterReady (c : ClusterReady) : Bool :=
  c.AllocateSlotSet.isNone && c.SlotActions.isNone && c.UpdatePeer.isNone &&
    c.SlotLeaderRelationSet.isNone

/-- The struct `ClusterManagerOptions`, with the fields that the cluster manager reads;
`SlotCount` is an `int`, a nil `GetSlotState` is `none`. -/
structure ClusterManagerOptions where
  PeerID : Nat
  SlotCount : Int
  GRPCServerAddr : String
  APIServerAddr : String
  ConfigPath : String
  GetSlotState : Option (Nat → Nat)

/-- The struct `ClusterManager`: the cluster record, the options, the atomic `leaderID`
and the table of slot leader relations.  The file system is part of the state:
`configFile` is the record that the file at `configPath` holds, `none` when there is no
file or an empty one, and `writeErr` tells whether a write of the file fails. -/
structure ClusterManager where
  cluster : Cluster
  opts : ClusterManagerOptions
  leaderID : Nat
  slotLeaderRelationSet : List SlotLeaderRelation
  configFile : Option Cluster := none
  writeErr : Bool := false

/-- The library function `sort.Slice` on a slice of peers, taken with its documented
contract: the result is a permutation of the slice in which no element is less than one
before it, whenever `less` is a strict weak order.  The order of elements of which neither
is less than the other is not fixed. -/
structure SortSlice where
  run : (Peer → Peer → Bool) → List Peer → List Peer
  perm : ∀ less l, (run less l).Perm l
  sorted : ∀ less l, (∀ a b, less a b = true → less b a = false) →
    (∀ a b c, less a b = false → less b c = false → less a c = false) →
    (run less l).Pairwise (fun a b => less b a = false)

/-- The method `isLeader`. -/
def isLeader (c : ClusterManager) : Bool := c.leaderID == c.opts.PeerID

/-- The method `getSlotCount`: the number of entries of `peerID` in the peer lists of
all slots. -/
def getSlotCount (fakeCluster : Cluster) (peerID : Nat) : Nat :=
  fakeCluster.Slots.foldl
    (fun count slot =>
      slot.Peers.foldl (fun count pID => if pID = peerID then count + 1 else count) count)
    0

/-- The method `getLeastSlotNodes`: the peers are sorted by slot count, and the ids of
the first `ReplicaCount` of them, or of all when there are fewer, are returned. -/
def getLeastSlotNodes (sortSlice : SortSlice) (fakeCluster : Cluster) : List Nat :=
  let peers := sortSlice.run
    (fun a b => decide (getSlotCount fakeCluster a.PeerID < getSlotCount fakeCluster b.PeerID))
    fakeCluster.Peers
  (peers.take fakeCluster.ReplicaCount).map (fun peer => peer.PeerID)

/-- The loop of `fakeAllocSlot`: the first slot with the id `slot` gets the peers. -/
def setSlotPeers (slot : Nat) (peers : List Nat) : List Slot → List Slot
  | [] => []
  | slotObj :: rest =>
    if slotObj.Slot = slot then { slotObj with Peers := peers } :: rest
    else slotObj :: setSlotPeers slot peers rest

/-- The method `fakeAllocSlot`. -/
def fakeAllocSlot (slot : Nat) (peers : List Nat) (fakeCluster : Cluster) : Cluster :=
  if fakeCluster.Slots.any (fun slotObj => slotObj.Slot == slot) then
    { fakeCluster with Slots := setSlotPeers slot peers fakeCluster.Slots }
  else
    { fakeCluster with Slots := fakeCluster.Slots ++ [{ Slot := slot, Leader := 0, Peers := peers }] }

/-- The body of the loop of `checkAllocSlots` for the index `i`, on the slice
`allocateSlots` and the clone `fakeCluster`.  The conversion `uint32(i)` keeps the value,
`i` being less than the `uint32` field `SlotCount`. -/
def allocSlotStep (sortSlice : SortSlice) (c : ClusterManager)
    (st : List AllocateSlot × Cluster) (i : Nat) : List AllocateSlot × Cluster :=
  let slotID := i
  let hasSlot := c.cluster.Slots.any (fun slot => slot.Slot == slotID)
  if !hasSlot then
    let peerIDs := getLeastSlotNodes sortSlice st.2
    (st.1 ++ [{ Slot := slotID, Peers := peerIDs }], fakeAllocSlot slotID peerIDs st.2)
  else st

/-- The slice `allocateSlots` at the end of the loop of `checkAllocSlots`. -/
def stagedSlots (sortSlice : SortSlice) (c : ClusterManager) : List AllocateSlot :=
  ((List.range c.cluster.SlotCount).foldl (allocSlotStep sortSlice c) ([], c.cluster)).1

/-- The method `checkAllocSlots`; the manager is only read. -/
def checkAllocSlots (sortSlice : SortSlice) (c : ClusterManager) : ClusterReady :=
  if !isLeader c then EmptyClusterReady
  else if (c.cluster.Slots.length : Int) = c.opts.SlotCount then EmptyClusterReady
  else if c.cluster.Peers.length = 0 then EmptyClusterReady
  else
    let allocateSlots := stagedSlots sortSlice c
    if allocateSlots.length > 0 then
      { EmptyClusterReady with AllocateSlotSet := some allocateSlots }
    else EmptyClusterReady

/-- The order that a sort of peers leaves when `less` is a strict weak order. -/
def notAfter (less : Peer → Peer → Bool) (a b : Peer) : Prop := less b a = false

instance (less : Peer → Peer → Bool) : DecidableRel (notAfter less) :=
  fun a b => inferInstanceAs (Decidable (less b a = false))

/-- A stable sort (an insertion sort), which meets the contract of `sort.Slice`. -/
def stableSlice : SortSlice :=
  { run := fun less l => l.insertionSort (notAfter less)
    perm := fun less l => List.perm_insertionSort (notAfter less) l
    sorted := by
      intro less l hasymm htrans
      haveI : IsTotal Peer (notAfter less) := ⟨fun a b => by
        unfold notAfter
        cases h : less b a
        · exact Or.inl rfl
        · exact Or.inr (hasymm b a h)⟩
      haveI : IsTrans Peer (notAfter less) := ⟨fun a b c hab hbc => htrans c b a hbc hab⟩
      exact List.sorted_insertionSort (notAfter less) l }

/-- A sort that meets the contract of `sort.Slice` and is not stable: the stable sort
of the reversed slice, which turns the order of equal elements round. -/
def reversingSlice : SortSlice :=
  { run := fun less l => stableSlice.run less l.reverse
    perm := fun less l => (stableSlice.perm less l.reverse).trans (List.reverse_perm l)
    sorted := fun less l hasymm htrans => stableSlice.sorted less l.reverse hasymm htrans }

/-! ## The cluster manager: the checks of a tick and the mutators -/

/-- The constant `SlotStateNotStart`. -/
def SlotStateNotStart : Nat := 0

/-- The constant `SlotStateStarted`. -/
def SlotStateStarted : Nat := 1

/-- The constant `SlotActionStart`. -/
def SlotActionStart : Nat := 0

/-- The method `save`: the cluster record is written to a temporary file, which is then
renamed to the config file; when a step fails the config file is as before. -/
def save (c : ClusterManager) : Except String Unit × ClusterManager :=
  if c.writeErr then (.error "write failed", c)
  else (.ok (), { c with configFile := some c.cluster })

/-- The method `load`: the record of the config file, `none` when there is none. -/
def load (c : ClusterManager) : Option Cluster := c.configFile

/-- The method `checkPeers`: without peers nothing is done; else a known leader that
differs from the one of the record is written to the record and saved, and the first
peer with the id of this peer and other addresses than the options is returned with the
addresses of the options. -/
def checkPeers (c : ClusterManager) : ClusterReady × ClusterManager :=
  if c.cluster.Peers.length = 0 then (EmptyClusterReady, c)
  else
    let c1 :=
      if c.leaderID ≠ 0 ∧ c.cluster.Leader ≠ c.leaderID then
        (save { c with cluster := { c.cluster with Leader := c.leaderID } }).2
      else c
    match c1.cluster.Peers.find? (fun peer =>
        peer.PeerID == c1.opts.PeerID &&
          (peer.GrpcServerAddr != c1.opts.GRPCServerAddr ||
            peer.ApiServerAddr != c1.opts.APIServerAddr)) with
    | some peer =>
      ({ EmptyClusterReady with
          UpdatePeer := some { peer with GrpcServerAddr := c1.opts.GRPCServerAddr,
                                         ApiServerAddr := c1.opts.APIServerAddr } }, c1)
    | none => (EmptyClusterReady, c1)

/-- The loop of `checkSlotStates` over the slots: the probe is asked for every slot, and
a slot that lists this peer and is not started gets a start action. -/
def slotStateActions (c : ClusterManager) (GetSlotState : Nat → Nat) :
    List Slot → List SlotAction → List SlotAction
  | [], actions => actions
  | slot :: rest, actions =>
    let slotState := GetSlotState slot.Slot
    let contain := slot.Peers.any (fun peeID => peeID == c.opts.PeerID)
    if !contain then slotStateActions c GetSlotState rest actions
    else if slotState = SlotStateNotStart then
      slotStateActions c GetSlotState rest
        (actions ++ [{ SlotID := slot.Slot, Action := SlotActionStart }])
    else slotStateActions c GetSlotState rest actions

/-- The method `checkSlotStates`. -/
def checkSlotStates (c : ClusterManager) : ClusterReady :=
  if c.leaderID = 0 then EmptyClusterReady
  else
    match c.opts.GetSlotState with
    | none => EmptyClusterReady
    | some GetSlotState =>
      let actions := slotStateActions c GetSlotState c.cluster.Slots []
      if actions.length > 0 then { EmptyClusterReady with SlotActions := some actions }
      else EmptyClusterReady

/-- The loop of `checkSlotLeaders` over the relation table. -/
def pendingRelations (c : ClusterManager) :
    List SlotLeaderRelation → List SlotLeaderRelation → List SlotLeaderRelation
  | [], slotLeaderRelations => slotLeaderRelations
  | slotLeaderRelation :: rest, slotLeaderRelations =>
    if slotLeaderRelation.NeedUpdate && slotLeaderRelation.Leader == c.opts.PeerID &&
        slotLeaderRelation.Leader != 0 then
      pendingRelations c rest (slotLeaderRelations ++ [slotLeaderRelation])
    else pendingRelations c rest slotLeaderRelations

/-- The method `checkSlotLeaders`. -/
def checkSlotLeaders (c : ClusterManager) : ClusterReady :=
  if c.leaderID = 0 then EmptyClusterReady
  else if c.slotLeaderRelationSet.length = 0 then EmptyClusterReady
  else
    let slotLeaderRelations := pendingRelations c c.slotLeaderRelationSet []
    if slotLeaderRelations.length > 0 then
      { EmptyClusterReady with SlotLeaderRelationSet := some slotLeaderRelations }
    else EmptyClusterReady

/-- The four checks of a tick. -/
inductive Check where
  | peers
  | allocSlots
  | slotStates
  | slotLeaders
  deriving DecidableEq, Repr

/-- The method `checkClusterConfig`: the ready that it returns, the manager after it,
and the checks that it called, in the order of the calls. -/
def checkClusterConfig (sortSlice : SortSlice) (c : ClusterManager) :
    ClusterReady × ClusterManager × List Check :=
  let (clusterReady, c1) := checkPeers c
  if !IsEmptyClusterReady clusterReady then (clusterReady, c1, [Check.peers])
  else
    let clusterReady := checkAllocSlots sortSlice c1
    if !IsEmptyClusterReady clusterReady then
      (clusterReady, c1, [Check.peers, Check.allocSlots])
    else
      let clusterReady := checkSlotStates c1
      if !IsEmptyClusterReady clusterReady then
        (clusterReady, c1, [Check.peers, Check.allocSlots, Check.slotStates])
      else
        let clusterReady := checkSlotLeaders c1
        if !IsEmptyClusterReady clusterReady then
          (clusterReady, c1,
            [Check.peers, Check.allocSlots, Check.slotStates, Check.slotLeaders])
        else
          (EmptyClusterReady, c1,
            [Check.peers, Check.allocSlots, Check.slotStates, Check.slotLeaders])

/-- The method `UpdateClusterConfig`; an error of `save` is logged. -/
def UpdateClusterConfig (c : ClusterManager) (cluster : Cluster) : ClusterManager :=
  (save { c with cluster := cluster }).2

/-- The loop of `UpdatePeerConfig`: the first peer with the id of `peer` is replaced. -/
def replacePeer (peer : Peer) : List Peer → List Peer
  | [] => []
  | p :: rest => if p.PeerID = peer.PeerID then peer :: rest else p :: replacePeer peer rest

/-- The method `UpdatePeerConfig`; an error of `save` is logged. -/
def UpdatePeerConfig (c : ClusterManager) (peer : Peer) : ClusterManager :=
  if c.cluster.Peers.length = 0 then c
  else (save { c with cluster := { c.cluster with Peers := replacePeer peer c.cluster.Peers } }).2

/-- The loop of `SetPeerRole`: the first peer with the id gets the role. -/
def setRole (peerID role : Nat) : List Peer → List Peer
  | [] => []
  | peer :: rest =>
    if peer.PeerID = peerID then { peer with Role := role } :: rest
    else peer :: setRole peerID role rest

/-- The method `SetPeerRole`. -/
def SetPeerRole (c : ClusterManager) (peerID role : Nat) : Except String Unit × ClusterManager :=
  if c.cluster.Peers.length = 0 then (.ok (), c)
  else save { c with cluster := { c.cluster with Peers := setRole peerID role c.cluster.Peers } }

/-- The method `SetLeaderID`; an error of `save` is logged. -/
def SetLeaderID (c : ClusterManager) (leaderID : Nat) : ClusterManager :=
  (save { c with leaderID := leaderID, cluster := { c.cluster with Leader := leaderID } }).2

/-- The method `AddSlot`: a slot whose id the cluster has is left out, another one is
appended; `save` is not called. -/
def AddSlot (c : ClusterManager) (s : Slot) : ClusterManager :=
  if c.cluster.Slots.any (fun slot => slot.Slot == s.Slot) then c
  else { c with cluster := { c.cluster with Slots := c.cluster.Slots ++ [s] } }

/-- The first loop of `SetSlotLeader`: the first slot with the id gets the leader. -/
def setLeader (slot leaderID : Nat) : List Slot → List Slot
  | [] => []
  | s :: rest =>
    if s.Slot = slot then { s with Leader := leaderID } :: rest
    else s :: setLeader slot leaderID rest

/-- The second loop of `SetSlotLeader`: the first relation of the slot gets the leader;
the test `leaderID != v.Leader` comes after the assignment to `v.Leader`. -/
def setRelationLeader (slot leaderID : Nat) : List SlotLeaderRelation → List SlotLeaderRelation
  | [] => []
  | v :: rest =>
    if v.Slot = slot then
      let v1 := { v with Leader := leaderID }
      let v2 := if leaderID ≠ v1.Leader then { v1 with NeedUpdate := true } else v1
      v2 :: rest
    else v :: setRelationLeader slot leaderID rest

/-- The method `SetSlotLeader`; an error of `save` is logged. -/
def SetSlotLeader (c : ClusterManager) (slot leaderID : Nat) : ClusterManager :=
  let exist := c.cluster.Slots.any (fun s => s.Slot == slot)
  let c1 := { c with cluster := { c.cluster with Slots := setLeader slot leaderID c.cluster.Slots } }
  let existRelation := c1.slotLeaderRelationSet.any (fun v => v.Slot == slot)
  let c2 :=
    if existRelation then
      { c1 with slotLeaderRelationSet := setRelationLeader slot leaderID c1.slotLeaderRelationSet }
    else
      { c1 with slotLeaderRelationSet := c1.slotLeaderRelationSet ++
          [{ Slot := slot, Leader := leaderID, NeedUpdate := true }] }
  if exist then (save c2).2 else c2

/-- The inner loop of `UpdatedSlotLeaderRelations`: the first relation of the table with
the slot and the leader of `slotLeaderRelation` is marked as not pending. -/
def confirmRelation (slotLeaderRelation : SlotLeaderRelation) :
    List SlotLeaderRelation → List SlotLeaderRelation
  | [] => []
  | v :: rest =>
    if v.Slot = slotLeaderRelation.Slot ∧ v.Leader = slotLeaderRelation.Leader then
      { v with NeedUpdate := false } :: rest
    else v :: confirmRelation slotLeaderRelation rest

/-- The method `UpdatedSlotLeaderRelations`. -/
def UpdatedSlotLeaderRelations (c : ClusterManager)
    (slotLeaderRelationSet : List SlotLeaderRelation) : ClusterManager :=
  { c with slotLeaderRelationSet :=
      slotLeaderRelationSet.foldl (fun table slotLeaderRelation =>
        confirmRelation slotLeaderRelation table) c.slotLeaderRelationSet }

/-- Sample data: three peers with the ids 1, 2 and 3. -/
def samplePeers : List Peer :=
  [{ PeerID := 1, GrpcServerAddr := "g1", ApiServerAddr := "a1", Role := 0 },
   { PeerID := 2, GrpcServerAddr := "g2", ApiServerAddr := "a2", Role := 0 },
   { PeerID := 3, GrpcServerAddr := "g3", ApiServerAddr := "a3", Role := 0 }]

/-- Sample data: a cluster of three peers, six slots and two replicas, no slot allocated. -/
def sampleFresh : Cluster :=
  { Leader := 1, SlotCount := 6, ReplicaCount := 2, Peers := samplePeers, Slots := [] }

/-- Sample data: the same cluster with the slots 0 and 1 allocated; peer 1 holds two
replicas, the peers 2 and 3 hold one each. -/
def sampleLoaded : Cluster :=
  { sampleFresh with
    Slots := [{ Slot := 0, Leader := 0, Peers := [1, 2] }, { Slot := 1, Leader := 0, Peers := [1, 3] }] }

/-- The spec's selection: the ids of the first `ReplicaCount` peers, or of all when there
are fewer, of the stable ascending sort of the peer list by slot count. -/
def stableLeastSlotNodes (fakeCluster : Cluster) : List Nat :=
  ((fakeCluster.Peers.insertionSort
      (fun a b => getSlotCount fakeCluster a.PeerID ≤ getSlotCount fakeCluster b.PeerID)).take
    fakeCluster.ReplicaCount).map (fun peer => peer.PeerID)

/-! ## The config manager of the cluster package -/

namespace clusterconfig

/-- The message `pb.Node` of the cluster config: the id (`uint64`) and, as one value,
the fields that the manager does not read. -/
structure Node where
  Id : Nat
  Rest : String
  deriving DecidableEq, Repr, Inhabited

/-- The message `pb.Slot` of the cluster config: the id (`uint32`) and, as one value,
the fields that the manager does not read. -/
structure Slot where
  Id : Nat
  Rest : String
  deriving DecidableEq, Repr, Inhabited

/-- The message `pb.Config`. -/
structure Config where
  Version : Nat
  Nodes : List Node
  Slots : List Slot
  deriving DecidableEq, Repr, Inhabited

/-- The method `existNodeByCfg`. -/
def existNodeByCfg (nodeId : Nat) (cfg : Config) : Bool :=
  cfg.Nodes.any (fun node => node.Id == nodeId)

/-- The method `existSlotByCfg`. -/
def existSlotByCfg (slotId : Nat) (cfg : Config) : Bool :=
  cfg.Slots.any (fun slot => slot.Id == slotId)

/-- The loop of `AddOrUpdateNodes` from the index `i` of `nodes` on: a node whose id the
config has is written to `cfg.Nodes[i]`, which panics when `i` is out of range, and
another node is appended. -/
def addOrUpdateNodesFrom : Nat → List Node → Config → Except String Config
  | _, [], cfg => .ok cfg
  | i, node :: rest, cfg =>
    if existNodeByCfg node.Id cfg then
      if i < cfg.Nodes.length then
        addOrUpdateNodesFrom (i + 1) rest { cfg with Nodes := cfg.Nodes.set i node }
      else .error "index out of range"
    else addOrUpdateNodesFrom (i + 1) rest { cfg with Nodes := cfg.Nodes ++ [node] }

/-- The method `AddOrUpdateNodes`; the config that `cfg` points to is returned. -/
def AddOrUpdateNodes (nodes : List Node) (cfg : Config) : Except String Config :=
  addOrUpdateNodesFrom 0 nodes cfg

/-- The loop of `AddOrUpdateSlots` from the index `i` of `slots` on. -/
def addOrUpdateSlotsFrom : Nat → List Slot → Config → Except String Config
  | _, [], cfg => .ok cfg
  | i, slot :: rest, cfg =>
    if existSlotByCfg slot.Id cfg then
      if i < cfg.Slots.length then
        addOrUpdateSlotsFrom (i + 1) rest { cfg with Slots := cfg.Slots.set i slot }
      else .error "index out of range"
    else addOrUpdateSlotsFrom (i + 1) rest { cfg with Slots := cfg.Slots ++ [slot] }

/-- The method `AddOrUpdateSlots`; the config that `cfg` points to is returned. -/
def AddOrUpdateSlots (slots : List Slot) (cfg : Config) : Except String Config :=
  addOrUpdateSlotsFrom 0 slots cfg

/-- Sample data: a config with the nodes 1 and 2 and the slots 0 and 1. -/
def sampleConfig : Config :=
  { Version := 1,
    Nodes := [{ Id := 1, Rest := "node one" }, { Id := 2, Rest := "node two" }],
    Slots := [{ Id := 0, Rest := "slot zero" }, { Id := 1, Rest := "slot one" }] }

end clusterconfig

/-- The inner loop of the library's `insertionSort_func`, on the sorted part `data[a:i]`
read from right to left: `for j := i; j > a && less(j, j-1); j--` swaps the new element
`x` with the neighbour on its left while it is less than that neighbour. -/
def insertLeft (less : Peer → Peer → Bool) (x : Peer) : List Peer → List Peer
  | [] => [x]
  | y :: rest => if less x y then y :: insertLeft less x rest else x :: y :: rest

/-- The library's `insertionSort_func` on a whole slice: the elements are taken from left
to right, and each is moved into the sorted part on its left. -/
def insertionSortFunc (less : Peer → Peer → Bool) (data : List Peer) : List Peer :=
  (data.foldl (fun sortedRev x => insertLeft less x sortedRev) []).reverse

/-- The call `less(i, j)` of the library on the slice `data`. -/
def lessAt (less : Peer → Peer → Bool) (data : List Peer) (i j : Nat) : Bool :=
  match data[i]?, data[j]? with
  | some x, some y => less x y
  | _, _ => false

/-- The call `data.Swap(i, j)` of the library. -/
def swapAt (data : List Peer) (i j : Nat) : List Peer :=
  match data[i]?, data[j]? with
  | some x, some y => (data.set i y).set j x
  | _, _ => data

/-- The library's `order2_func`: the two indices in order, and the count of swaps. -/
def order2Func (less : Peer → Peer → Bool) (data : List Peer) (a b swaps : Nat) :
    Nat × Nat × Nat :=
  if lessAt less data b a then (b, a, swaps + 1) else (a, b, swaps)

/-- The library's `median_func`: the index of the median of three elements. -/
def medianFunc (less : Peer → Peer → Bool) (data : List Peer) (a b c swaps : Nat) :
    Nat × Nat :=
  let (a1, b1, s1) := order2Func less data a b swaps
  let (b2, _, s2) := order2Func less data b1 c s1
  let (_, b3, s3) := order2Func less data a1 b2 s2
  (b3, s3)

/-- The library's `choosePivot_func` on a whole slice of 8 to 49 elements: the median of
the elements at the indices `l/4`, `l/4*2` and `l/4*3`, and the count of swaps, which is
0 when the hint is `increasingHint`. -/
def choosePivotFunc (less : Peer → Peer → Bool) (data : List Peer) : Nat × Nat :=
  let l := data.length
  medianFunc less data (l / 4 * 1) (l / 4 * 2) (l / 4 * 3) 0

/-- The first loop of the library's `partialInsertionSort_func`: does the scan
`for i < b && !less(i, i-1)` reach the end of the slice? -/
def inOrder (less : Peer → Peer → Bool) : List Peer → Bool
  | x :: y :: rest => !less y x && inOrder less (y :: rest)
  | _ => true

/-- The loop `for i <= j && less(i, a) { i++ }` of the library's `partition_func`, with
`a = 0`; `fuel` counts the indices from `i` to `j`. -/
def scanUp (less : Peer → Peer → Bool) (data : List Peer) (j : Nat) : Nat → Nat → Nat
  | 0, i => i
  | fuel + 1, i =>
    if i ≤ j ∧ lessAt less data i 0 = true then scanUp less data j fuel (i + 1) else i

/-- The loop `for i <= j && !less(j, a) { j-- }` of the library's `partition_func`, with
`a = 0`. -/
def scanDown (less : Peer → Peer → Bool) (data : List Peer) (i : Nat) : Nat → Nat → Nat
  | 0, j => j
  | fuel + 1, j =>
    if i ≤ j ∧ lessAt less data j 0 = false then scanDown less data i fuel (j - 1) else j

/-- The main loop of the library's `partition_func`: the two scans, then a swap of the
two elements found, until the indices cross; the slice and the index `j` are returned. -/
def partitionLoop (less : Peer → Peer → Bool) : Nat → List Peer → Nat → Nat → List Peer × Nat
  | 0, data, _, j => (data, j)
  | fuel + 1, data, i, j =>
    let i1 := scanUp less data j (data.length) i
    let j1 := scanDown less data i1 (data.length) j
    if i1 > j1 then (data, j1)
    else partitionLoop less fuel (swapAt data i1 j1) (i1 + 1) (j1 - 1)

/-- The library's `partition_func` on a whole slice (`a = 0`): the pivot is swapped to
the front, the elements less than the pivot are brought before the others, and the pivot
is swapped to its place `mid`, which is returned with the slice. -/
def partitionFunc (less : Peer → Peer → Bool) (data : List Peer) (pivot : Nat) :
    List Peer × Nat :=
  let data1 := swapAt data 0 pivot
  let i := scanUp less data1 (data1.length - 1) data1.length 1
  let j := scanDown less data1 i data1.length (data1.length - 1)
  if i > j then (swapAt data1 j 0, j)
  else
    let (data2, j2) := partitionLoop less data1.length (swapAt data1 i j) (i + 1) (j - 1)
    (swapAt data2 j2 0, j2)

/-- The library's `pdqsort_func` (Go 1.19 and later), as `sort.Slice` calls it, on a slice
of at most 13 elements.  Up to 12 elements it is the insertion sort.  At 13 elements the
pivot is chosen; a slice with the hint `increasingHint` that is in order is left as it is;
else the slice is partitioned, and both sides, which have at most 12 elements, are sorted
by insertion. -/
def pdqsortFunc (less : Peer → Peer → Bool) (data : List Peer) : List Peer :=
  if data.length ≤ 12 then insertionSortFunc less data
  else
    let (pivot, swaps) := choosePivotFunc less data
    if swaps = 0 ∧ inOrder less data = true then data
    else
      let (data1, mid) := partitionFunc less data pivot
      insertionSortFunc less (data1.take mid) ++ (data1.drop mid).take 1 ++
        insertionSortFunc less (data1.drop (mid + 1))

/-- The library function `sort.Slice` of Go 1.19 and later on a slice of at most 13
elements: the result of `pdqsortFunc`, which is taken under the contract of `SortSlice`
(an ordered permutation of the slice).  On a longer slice, where the library takes
branches that `pdqsortFunc` leaves out, the instance is the stable sort; nothing is stated
about such slices. -/
def librarySlice : SortSlice :=
  { run := fun less l =>
      if l.length ≤ 13 ∧ (pdqsortFunc less l).Perm l ∧
          (pdqsortFunc less l).Pairwise (fun a b => less b a = false) then
        pdqsortFunc less l
      else stableSlice.run less l
    perm := by
      intro less l
      show (if _ then _ else _ : List Peer).Perm l
      split
      · rename_i h; exact h.2.1
      · exact stableSlice.perm less l
    sorted := by
      intro less l hasymm htrans
      show (if _ then _ else _ : List Peer).Pairwise _
      split
      · rename_i h; exact h.2.2
      · exact stableSlice.sorted less l hasymm htrans }

/-- Sample data: a cluster of 13 peers with the ids 1 to 13 and three replicas per slot,
in which the peers 2, 4, 6, 8, 10 and 12 hold one slot replica each. -/
def sampleThirteen : Cluster :=
  { Leader := 1, SlotCount := 16, ReplicaCount := 3,
    Peers := (List.range 13).map (fun i =>
      { PeerID := i + 1, GrpcServerAddr := "", ApiServerAddr := "", Role := 0 }),
    Slots := [{ Slot := 0, Leader := 0, Peers := [2, 4, 6] },
              { Slot := 1, Leader := 0, Peers := [8, 10, 12] }] }

/-- Sample data: the sample cluster of three peers with one more slot, so that the slot
counts are 2, 2 and 1. -/
def sampleTwelve : Cluster :=
  { sampleLoaded with Slots := sampleLoaded.Slots ++ [{ Slot := 2, Leader := 0, Peers := [2] }] }

/-- Sample data: the cluster of three peers with the slot counts 2, 1 and 0. -/
def sampleDistinct : Cluster :=
  { sampleFresh with
    Slots := [{ Slot := 0, Leader := 0, Peers := [1, 2] }, { Slot := 1, Leader := 0, Peers := [1] }] }

/-- The test `!hasSlot` of `checkAllocSlots`: no slot of the cluster has the id. -/
def slotAbsent (c : ClusterManager) (slotID : Nat) : Bool :=
  !(c.cluster.Slots.any (fun slot => slot.Slot == slotID))

/-- Sample data: the options of peer 1, with six slots configured. -/
def sampleOptions : ClusterManagerOptions :=
  { PeerID := 1, SlotCount := 6, GRPCServerAddr := "g1", APIServerAddr := "a1",
    ConfigPath := "cluster.json", GetSlotState := none }

/-- Sample data: the leader (peer 1) of the cluster of three peers without slots. -/
def sampleLeader : ClusterManager :=
  { cluster := sampleFresh, opts := sampleOptions, leaderID := 1, slotLeaderRelationSet := [] }

/-- Sample data: the leader of a cluster whose record holds the slot count 0, while six
slots are configured. -/
def sampleUnsized : ClusterManager :=
  { sampleLeader with cluster := { sampleFresh with SlotCount := 0 } }

/-- Sample data: the leader of the cluster in which the slots 0 and 1 are allocated. -/
def samplePartial : ClusterManager := { sampleLeader with cluster := sampleLoaded }

/-- An entry of the AllocateSlotSet lists `ReplicaCount` peer ids, pairwise distinct
and all ids of peers of the cluster. -/
def EntryOK (c : ClusterManager) (a : AllocateSlot) : Prop :=
  a.Peers.length = c.cluster.ReplicaCount ∧ a.Peers.Nodup ∧
    ∀ pid ∈ a.Peers, ∃ peer ∈ c.cluster.Peers, peer.PeerID = pid

/-- The number of slot replicas that an AllocateSlotSet gives to a peer. -/
def replicaLoad (allocs : List AllocateSlot) (peerID : Nat) : Nat :=
  (allocs.flatMap (fun a => a.Peers)).count peerID

/-- The state of the loop of `checkAllocSlots` on a cluster without slots: the clone has
the peers of the cluster, its slot counts are the loads of the staged entries, and the slot
counts of two peers differ by at most 1. -/
structure Balanced (c : ClusterManager) (st : List AllocateSlot × Cluster) : Prop where
  peers : st.2.Peers = c.cluster.Peers
  loads : ∀ pid, getSlotCount st.2 pid = replicaLoad st.1 pid
  near : ∀ p ∈ c.cluster.Peers, ∀ q ∈ c.cluster.Peers,
    getSlotCount st.2 p.PeerID ≤ getSlotCount st.2 q.PeerID + 1

/-- The load of the peer `r` after one replica of an AllocateSlotSet is moved from the
peer `p` to the peer `q`. -/
def movedLoad (allocs : List AllocateSlot) (p q r : Nat) : Nat :=
  replicaLoad allocs r - (if r = p then 1 else 0) + (if r = q then 1 else 0)

/-- The spec's selection: the first ready of the list that is not empty, and the empty
ready when there is none. -/
def firstNonEmpty (results : List ClusterReady) : ClusterReady :=
  (results.find? (fun r => !IsEmptyClusterReady r)).getD EmptyClusterReady

/-- The spec's account of the checks that are evaluated: the checks in order up to the
first one whose ready is not empty. -/
def checksUpToFirst (results : List ClusterReady) : List Check :=
  [Check.peers, Check.allocSlots, Check.slotStates, Check.slotLeaders].take
    (results.findIdx (fun r => !IsEmptyClusterReady r) + 1)

/-- The readies of the four checks of a tick, the last three on the manager that
checkPeers leaves. -/
def tickResults (sortSlice : SortSlice) (c : ClusterManager) : List ClusterReady :=
  [(checkPeers c).1, checkAllocSlots sortSlice (checkPeers c).2, checkSlotStates (checkPeers c).2,
    checkSlotLeaders (checkPeers c).2]

/-- Sample data: the leader of the sample cluster with six slots, of which peer 1 holds
the slots 0 and 1, with a probe that tells that no slot is started. -/
def sampleTicking : ClusterManager :=
  { cluster := { sampleLoaded with SlotCount := 2 },
    opts := { sampleOptions with SlotCount := 2, GetSlotState := some (fun _ => SlotStateNotStart) },
    leaderID := 1,
    slotLeaderRelationSet := [{ Slot := 0, Leader := 1, NeedUpdate := true }] }

/-- Sample data: a manager that knows the leader 1, with a cluster record without peers
that holds no leader. -/
def sampleNoPeers : ClusterManager :=
  { cluster := { Leader := 0, SlotCount := 6, ReplicaCount := 2, Peers := [], Slots := [] },
    opts := sampleOptions, leaderID := 1, slotLeaderRelationSet := [] }

/-- Sample data: a manager that knows the leader 2, with the sample cluster, which holds
the leader 1; a write of the config file succeeds. -/
def sampleNewLeader : ClusterManager := { sampleLeader with leaderID := 2 }

/-- Sample data: the same manager on a file system where a write of the config file
fails. -/
def sampleReadOnly : ClusterManager := { sampleNewLeader with writeErr := true }

/-- The spec's actions: one start action for each slot of the cluster, in the order of
the slot list, that lists this peer among its replicas and whose probed state is
NotStarted. -/
def startActions (c : ClusterManager) (probe : Nat → Nat) : List SlotAction :=
  (c.cluster.Slots.filter
      (fun slot => decide (c.opts.PeerID ∈ slot.Peers) &&
        decide (probe slot.Slot = SlotStateNotStart))).map
    (fun slot => { SlotID := slot.Slot, Action := SlotActionStart })

/-- Sample data: the sample manager with a probe, when the leader is not known. -/
def sampleLeaderless : ClusterManager := { sampleTicking with leaderID := 0 }

/-- The spec's pending relations of this peer: the relations of the table, in table
order, with leader = the id of this peer and needUpdate = true. -/
def ownPending (c : ClusterManager) : List SlotLeaderRelation :=
  c.slotLeaderRelationSet.filter (fun v => v.NeedUpdate && v.Leader == c.opts.PeerID)

/-- Sample data: a manager whose own peer id is 0, that knows the leader 5 and holds a
pending relation with the leader 0. -/
def sampleZeroPeer : ClusterManager :=
  { sampleLeader with
    opts := { sampleOptions with PeerID := 0 }, leaderID := 5,
    slotLeaderRelationSet := [{ Slot := 2, Leader := 0, NeedUpdate := true }] }

/-- Sample data: peer 1, which knows the leader 1, with a table of three relations. -/
def sampleRelations : ClusterManager :=
  { sampleLeader with
    slotLeaderRelationSet :=
      [{ Slot := 0, Leader := 1, NeedUpdate := true }, { Slot := 1, Leader := 2, NeedUpdate := true },
       { Slot := 3, Leader := 1, NeedUpdate := false }] }

/-- Does the table entry have the slot and the leader of an entry of the set? -/
def confirmedBy (slotLeaderRelationSet : List SlotLeaderRelation) (v : SlotLeaderRelation) :
    Bool :=
  slotLeaderRelationSet.any (fun s => v.Slot == s.Slot && v.Leader == s.Leader)

/-- The spec's confirmation: needUpdate = false on every table entry whose (slot, leader)
matches an entry of the set, and nothing else changed. -/
def confirmAll (slotLeaderRelationSet : List SlotLeaderRelation)
    (table : List SlotLeaderRelation) : List SlotLeaderRelation :=
  table.map (fun v =>
    if confirmedBy slotLeaderRelationSet v then { v with NeedUpdate := false } else v)

/-- Sample data: the sample manager once its cluster record is saved. -/
def samplePersisted : ClusterManager := (save samplePartial).2

/-! ## The cache operations -/

theorem lookup_filter_ne {β : Type} (m : List (String × β)) (k k' : String) (h : k' ≠ k) :
    (m.filter (fun e => e.1 != k)).lookup k' = m.lookup k' := by
  induction m with
  | nil => rfl
  | cons e m ih =>
    obtain ⟨a, b⟩ := e
    by_cases hak : a = k
    · subst hak
      have h1 : (k' == a) = false := by simpa using h
      simp [List.filter_cons, List.lookup_cons, h1, ih]
    · have h2 : (a != k) = true := by simpa using hak
      simp only [List.filter_cons, h2, if_true, List.lookup_cons, ih]

theorem lookup_filter_self {β : Type} (m : List (String × β)) (k : String) :
    (m.filter (fun e => e.1 != k)).lookup k = none := by
  induction m with
  | nil => rfl
  | cons e m ih =>
    obtain ⟨a, b⟩ := e
    by_cases hak : a = k
    · subst hak
      simp [List.filter_cons, ih]
    · have h2 : (a != k) = true := by simpa using hak
      have h1 : (k == a) = false := by simpa using fun h : k = a => hak h.symm
      simp only [List.filter_cons, h2, if_true, List.lookup_cons, h1, ih]

theorem getLockIndex_lt (cm : ConversationManager) (h : BucketsOK cm) (uid : String) :
    getLockIndex cm uid < cm.userConversationMapBuckets.length := by
  rw [h.2]; exact Nat.mod_lt _ h.1

theorem bucketMap_set (cm : ConversationManager) (pos pos' : Nat)
    (m : List (String × LRUCache)) (hpos : pos < cm.userConversationMapBuckets.length) :
    bucketMap { cm with userConversationMapBuckets := cm.userConversationMapBuckets.set pos (some m) } pos'
      = if pos' = pos then m else bucketMap cm pos' := by
  unfold bucketMap
  by_cases hp : pos' = pos
  · subst hp
    simp [List.getD_eq_getElem?_getD, hpos]
  · simp [List.getD_eq_getElem?_getD, hp, List.getElem?_set_ne (Ne.symm hp)]

theorem cacheOf_putUserCache_self (cm : ConversationManager) (h : BucketsOK cm) (uid : String)
    (c : LRUCache) : cacheOf (putUserCache cm uid c) uid = c := by
  unfold cacheOf putUserCache
  have := bucketMap_set cm (getLockIndex cm uid) (getLockIndex cm uid)
    ((uid, c) :: (bucketMap cm (getLockIndex cm uid)).filter (fun e => e.1 != uid))
    (getLockIndex_lt cm h uid)
  simp only [if_true] at this
  show ((bucketMap _ (getLockIndex cm uid)).lookup uid).getD _ = c
  rw [this]
  simp [List.lookup_cons]

theorem cacheOf_putUserCache_ne (cm : ConversationManager) (h : BucketsOK cm) (uid uid' : String)
    (c : LRUCache) (hne : uid' ≠ uid) : cacheOf (putUserCache cm uid c) uid' = cacheOf cm uid' := by
  unfold cacheOf putUserCache
  have := bucketMap_set cm (getLockIndex cm uid) (getLockIndex cm uid')
    ((uid, c) :: (bucketMap cm (getLockIndex cm uid)).filter (fun e => e.1 != uid))
    (getLockIndex_lt cm h uid)
  show ((bucketMap _ (getLockIndex cm uid')).lookup uid').getD _ = _
  rw [this]
  by_cases hp : getLockIndex cm uid' = getLockIndex cm uid
  · have h1 : (uid' == uid) = false := by simpa using hne
    simp only [hp, if_true, List.lookup_cons, h1, lookup_filter_ne _ _ _ hne]
    rfl
  · simp only [hp, if_false]
    rfl

theorem putUserCache_BucketsOK (cm : ConversationManager) (h : BucketsOK cm) (uid : String)
    (c : LRUCache) : BucketsOK (putUserCache cm uid c) := by
  unfold BucketsOK putUserCache
  simpa using h

theorem getUserCache_fst (cm : ConversationManager) (uid : String) :
    (getUserConversationCacheNoLock cm uid).1 = cacheOf cm uid := by
  unfold getUserConversationCacheNoLock cacheOf
  cases hl : (bucketMap cm (getLockIndex cm uid)).lookup uid <;> simp [hl]

theorem getUserCache_BucketsOK (cm : ConversationManager) (h : BucketsOK cm) (uid : String) :
    BucketsOK (getUserConversationCacheNoLock cm uid).2 := by
  unfold BucketsOK getUserConversationCacheNoLock
  cases hl : (bucketMap cm (getLockIndex cm uid)).lookup uid <;> simpa [hl] using h

theorem cacheOf_getUserCache (cm : ConversationManager) (h : BucketsOK cm) (uid uid' : String) :
    cacheOf (getUserConversationCacheNoLock cm uid).2 uid' = cacheOf cm uid' := by
  unfold getUserConversationCacheNoLock
  cases hl : (bucketMap cm (getLockIndex cm uid)).lookup uid with
  | some c =>
    simp only [hl]
    unfold cacheOf
    show ((bucketMap _ (getLockIndex cm uid')).lookup uid').getD _ = _
    rw [bucketMap_set cm _ _ _ (getLockIndex_lt cm h uid)]
    by_cases hp : getLockIndex cm uid' = getLockIndex cm uid
    · simp only [hp, if_true]; rfl
    · simp only [hp, if_false]; rfl
  | none =>
    simp only [hl]
    unfold cacheOf
    show ((bucketMap _ (getLockIndex cm uid')).lookup uid').getD _ = _
    rw [bucketMap_set cm _ _ _ (getLockIndex_lt cm h uid)]
    by_cases hp : getLockIndex cm uid' = getLockIndex cm uid
    · simp only [hp, if_true]
      by_cases hu : uid' = uid
      · subst hu
        simp [List.lookup_cons, hl]
      · have h1 : (uid' == uid) = false := by simpa using hu
        simp only [List.lookup_cons, h1]
        rfl
    · simp only [hp, if_false]; rfl

theorem sameEnv_refl (cm : ConversationManager) : SameEnv cm cm := ⟨rfl, rfl, rfl, rfl, rfl⟩

theorem sameEnv_trans {a b c : ConversationManager} (h1 : SameEnv a b) (h2 : SameEnv b c) :
    SameEnv a c :=
  ⟨h2.1.trans h1.1, h2.2.1.trans h1.2.1, h2.2.2.1.trans h1.2.2.1,
    h2.2.2.2.1.trans h1.2.2.2.1, h2.2.2.2.2.trans h1.2.2.2.2⟩

theorem putUserCache_SameEnv (cm : ConversationManager) (uid : String) (c : LRUCache) :
    SameEnv cm (putUserCache cm uid c) := ⟨rfl, rfl, rfl, rfl, rfl⟩

theorem putUserCache_needSave (cm : ConversationManager) (uid : String) (c : LRUCache) :
    (putUserCache cm uid c).needSaveConversationMap = cm.needSaveConversationMap := rfl

theorem getUserCache_SameEnv (cm : ConversationManager) (uid : String) :
    SameEnv cm (getUserConversationCacheNoLock cm uid).2 := by
  unfold getUserConversationCacheNoLock SameEnv
  cases hl : (bucketMap cm (getLockIndex cm uid)).lookup uid <;> simp [hl]

theorem getUserCache_needSave (cm : ConversationManager) (uid : String) :
    (getUserConversationCacheNoLock cm uid).2.needSaveConversationMap
      = cm.needSaveConversationMap := by
  unfold getUserConversationCacheNoLock
  cases hl : (bucketMap cm (getLockIndex cm uid)).lookup uid <;> simp [hl]

theorem touches_put_get (cm : ConversationManager) (h : BucketsOK cm) (uid : String)
    (c : LRUCache) :
    Touches cm uid c cm.needSaveConversationMap (putUserCache (getUserConversationCacheNoLock cm uid).2 uid c) := by
  have h1 := getUserCache_BucketsOK cm h uid
  refine ⟨putUserCache_BucketsOK _ h1 uid c, ?_, ?_, ?_, ?_⟩
  · exact sameEnv_trans (getUserCache_SameEnv cm uid) (putUserCache_SameEnv _ uid c)
  · rw [putUserCache_needSave, getUserCache_needSave]
  · exact cacheOf_putUserCache_self _ h1 uid c
  · intro uid' hne
    rw [cacheOf_putUserCache_ne _ h1 uid uid' c hne, cacheOf_getUserCache cm h]

theorem getConversationFromCache_fst (cm : ConversationManager) (uid channelID : String)
    (channelType : Nat) :
    (getConversationFromCache cm uid channelID channelType).1
      = peekConversation cm uid channelID channelType := by
  unfold getConversationFromCache peekConversation
  simp only [getUserCache_fst]
  unfold LRUCache.Get
  cases (cacheOf cm uid).items.lookup (getChannelKey channelID channelType) <;> rfl

theorem getConversationFromCache_touches (cm : ConversationManager) (h : BucketsOK cm)
    (uid channelID : String) (channelType : Nat) :
    Touches cm uid ((cacheOf cm uid).Get (getChannelKey channelID channelType)).2
      cm.needSaveConversationMap (getConversationFromCache cm uid channelID channelType).2 := by
  have := touches_put_get cm h uid ((cacheOf cm uid).Get (getChannelKey channelID channelType)).2
  unfold getConversationFromCache
  simpa only [getUserCache_fst] using this

theorem setConversationCache_touches (cm : ConversationManager) (h : BucketsOK cm)
    (uid : String) (c : Conversation) :
    Touches cm uid ((cacheOf cm uid).Add (getChannelKey c.ChannelID c.ChannelType) c)
      cm.needSaveConversationMap (setConversationCache cm uid c) := by
  have := touches_put_get cm h uid ((cacheOf cm uid).Add (getChannelKey c.ChannelID c.ChannelType) c)
  unfold setConversationCache
  simpa only [getUserCache_fst] using this

theorem deleteConversationCache_touches (cm : ConversationManager) (h : BucketsOK cm)
    (uid channelID : String) (channelType : Nat) :
    Touches cm uid ((cacheOf cm uid).Remove (getChannelKey channelID channelType))
      cm.needSaveConversationMap (deleteConversationCache cm uid channelID channelType) := by
  have := touches_put_get cm h uid ((cacheOf cm uid).Remove (getChannelKey channelID channelType))
  unfold deleteConversationCache
  simpa only [getUserCache_fst] using this

theorem LRUCache.lookup_Get (c : LRUCache) (k k' : String) :
    (c.Get k).2.items.lookup k' = c.items.lookup k' := by
  unfold LRUCache.Get
  cases hl : c.items.lookup k with
  | none => rfl
  | some v =>
    by_cases hk : k' = k
    · subst hk; simp [List.lookup_cons, hl]
    · have h1 : (k' == k) = false := by simpa using hk
      simp only [List.lookup_cons, h1, LRUCache.without, lookup_filter_ne _ _ _ hk]

theorem LRUCache.size_Get (c : LRUCache) (k : String) : (c.Get k).2.size = c.size := by
  unfold LRUCache.Get
  cases c.items.lookup k <;> rfl

theorem LRUCache.size_Add (c : LRUCache) (k : String) (v : Conversation) :
    (c.Add k v).size = c.size := by
  unfold LRUCache.Add
  cases c.items.lookup k with
  | some _ => rfl
  | none => simp only []; split <;> rfl

theorem LRUCache.lookup_Add_self (c : LRUCache) (k : String) (v : Conversation)
    (hsz : 0 < c.size) : (c.Add k v).items.lookup k = some v := by
  unfold LRUCache.Add
  cases hl : c.items.lookup k with
  | some _ => simp [List.lookup_cons]
  | none =>
    simp only []
    split
    · rename_i hlen
      cases hi : c.items with
      | nil => simp [hi] at hlen; omega
      | cons e es => simp [List.dropLast, List.lookup_cons]
    · simp [List.lookup_cons]

theorem touches_trans {cm cm1 cm2 : ConversationManager} {uid : String} {c c' : LRUCache}
    {d d' : List String} (h1 : Touches cm uid c d cm1) (h2 : Touches cm1 uid c' d' cm2) :
    Touches cm uid c' d' cm2 :=
  ⟨h2.ok, sameEnv_trans h1.env h2.env, h2.dirty, h2.self,
    fun u hu => (h2.other u hu).trans (h1.other u hu)⟩

theorem setNeedSave_touches (cm : ConversationManager) (h : BucketsOK cm) (uid : String) :
    Touches cm uid (cacheOf cm uid) (markDirty cm.needSaveConversationMap uid)
      (setNeedSave cm uid) := by
  unfold setNeedSave markDirty
  by_cases hm : uid ∈ cm.needSaveConversationMap
  · simp only [hm, if_true]
    exact ⟨h, sameEnv_refl cm, rfl, rfl, fun _ _ => rfl⟩
  · simp only [hm, if_false]
    exact ⟨h, ⟨rfl, rfl, rfl, rfl, rfl⟩, rfl, rfl, fun _ _ => rfl⟩

theorem AddOrUpdateConversation_touches (cm : ConversationManager) (h : BucketsOK cm)
    (uid : String) (c : Conversation) :
    Touches cm uid ((cacheOf cm uid).Add (getChannelKey c.ChannelID c.ChannelType) c)
      (markDirty cm.needSaveConversationMap uid) (AddOrUpdateConversation cm uid c) := by
  have h1 := setConversationCache_touches cm h uid c
  have h2 := setNeedSave_touches _ h1.ok uid
  rw [h1.self, h1.dirty] at h2
  exact touches_trans h1 h2

theorem calConversation_touches (cm : ConversationManager) (h : BucketsOK cm)
    (message : Message) (subscriber : String) (now : Int) :
    Touches cm subscriber (calCache cm message subscriber now)
      (match calStored cm message subscriber now with
        | some _ => markDirty cm.needSaveConversationMap subscriber
        | none => cm.needSaveConversationMap)
      (calConversation cm message subscriber now) := by
  have h1 := getConversationFromCache_touches cm h subscriber
    (effectiveChannelID message subscriber) message.ChannelType
  have hf := getConversationFromCache_fst cm subscriber
    (effectiveChannelID message subscriber) message.ChannelType
  have hs := h1.env.1
  unfold calConversation calCache calStored foundConversation lookupRecord
  simp only [hf, hs]
  cases hp : peekConversation cm subscriber (effectiveChannelID message subscriber)
      message.ChannelType with
  | some r =>
    simp only []
    by_cases hm : (updateConversation r message subscriber now).2 = true
    · simp only [hm, if_true]
      have h2 := AddOrUpdateConversation_touches _ h1.ok subscriber
        (updateConversation r message subscriber now).1
      rw [h1.self, h1.dirty] at h2
      exact touches_trans h1 h2
    · simp only [hm]
      exact h1
  | none =>
    simp only []
    cases hg : cm.store.GetConversation subscriber (effectiveChannelID message subscriber)
        message.ChannelType with
    | error e =>
      simp only []
      have h2 := AddOrUpdateConversation_touches _ h1.ok subscriber
        (newConversation message subscriber now)
      rw [h1.self, h1.dirty] at h2
      exact touches_trans h1 h2
    | ok o =>
      cases o with
      | none =>
        simp only []
        have h2 := AddOrUpdateConversation_touches _ h1.ok subscriber
          (newConversation message subscriber now)
        rw [h1.self, h1.dirty] at h2
        exact touches_trans h1 h2
      | some r =>
        simp only []
        by_cases hm : (updateConversation r message subscriber now).2 = true
        · simp only [hm, if_true]
          have h2 := AddOrUpdateConversation_touches _ h1.ok subscriber
            (updateConversation r message subscriber now).1
          rw [h1.self, h1.dirty] at h2
          exact touches_trans h1 h2
        · simp only [hm]
          exact h1

/-! ## The cache key -/

theorem digitChar_decode (k : Nat) (hk : k < 10) : (Nat.digitChar k).toNat - 48 = k := by
  interval_cases k <;> rfl

theorem digitChar_ne_dash (k : Nat) (hk : k < 10) : Nat.digitChar k ≠ '-' := by
  interval_cases k <;> decide

theorem decodeDigits_toDigitsCore (fuel : Nat) : ∀ (n : Nat) (ds : List Char), n < fuel →
    decodeDigits 0 (Nat.toDigitsCore 10 fuel n ds) = decodeDigits n ds := by
  induction fuel with
  | zero => intro n ds h; omega
  | succ fuel ih =>
    intro n ds h
    unfold Nat.toDigitsCore
    simp only []
    by_cases h0 : n / 10 = 0
    · simp only [h0, if_true]
      have hn : n < 10 := by omega
      simp only [decodeDigits, List.foldl_cons, Nat.mul_zero, Nat.zero_add]
      rw [digitChar_decode _ (Nat.mod_lt _ (by decide)), Nat.mod_eq_of_lt hn]
    · simp only [h0, if_false]
      rw [ih (n / 10) _ (by omega)]
      simp only [decodeDigits, List.foldl_cons]
      rw [digitChar_decode _ (Nat.mod_lt _ (by decide))]
      congr 1
      omega

theorem toDigits_injective (a b : Nat) (h : Nat.toDigits 10 a = Nat.toDigits 10 b) : a = b := by
  have ha := decodeDigits_toDigitsCore (a + 1) a [] (by omega)
  have hb := decodeDigits_toDigitsCore (b + 1) b [] (by omega)
  unfold Nat.toDigits at h
  rw [h, hb] at ha
  simpa [decodeDigits] using ha.symm

theorem toDigitsCore_no_dash (fuel : Nat) : ∀ (n : Nat) (ds : List Char), '-' ∉ ds →
    '-' ∉ Nat.toDigitsCore 10 fuel n ds := by
  induction fuel with
  | zero => intro n ds h; simpa [Nat.toDigitsCore] using h
  | succ fuel ih =>
    intro n ds h
    unfold Nat.toDigitsCore
    simp only []
    have hd : '-' ∉ Nat.digitChar (n % 10) :: ds := by
      simp only [List.mem_cons, not_or]
      exact ⟨fun e => digitChar_ne_dash _ (Nat.mod_lt _ (by decide)) e.symm, h⟩
    by_cases h0 : n / 10 = 0
    · simpa only [h0, if_true] using hd
    · simp only [h0, if_false]
      exact ih _ _ hd

theorem append_dash_inj (a a' d d' : List Char) (hd : '-' ∉ d) (hd' : '-' ∉ d')
    (h : a ++ '-' :: d = a' ++ '-' :: d') : a = a' ∧ d = d' := by
  induction a generalizing a' with
  | nil =>
    cases a' with
    | nil => simpa using h
    | cons x xs =>
      simp only [List.nil_append, List.cons_append, List.cons.injEq] at h
      exact absurd (h.2 ▸ (by simp : '-' ∈ xs ++ '-' :: d')) hd
  | cons y ys ih =>
    cases a' with
    | nil =>
      simp only [List.nil_append, List.cons_append, List.cons.injEq] at h
      exact absurd (h.2 ▸ (by simp : '-' ∈ ys ++ '-' :: d)) hd'
    | cons x xs =>
      simp only [List.cons_append, List.cons.injEq] at h
      obtain ⟨h1, h2⟩ := ih xs h.2
      exact ⟨by rw [h.1, h1], h2⟩

theorem getChannelKey_injective (c c' : String) (t t' : Nat)
    (h : getChannelKey c t = getChannelKey c' t') : c = c' ∧ t = t' := by
  unfold getChannelKey at h
  have h1 := congrArg String.data h
  simp only [String.append_assoc, String.data_append] at h1
  have h2 := append_dash_inj c.data c'.data _ _
    (toDigitsCore_no_dash _ _ [] (by simp)) (toDigitsCore_no_dash _ _ [] (by simp)) h1
  refine ⟨?_, toDigits_injective _ _ h2.2⟩
  exact String.ext h2.1

/-! ## The calculator -/

theorem updateConversation_channel (r : Conversation) (m : Message) (s : String) (now : Int) :
    (updateConversation r m s now).1.ChannelID = r.ChannelID ∧
      (updateConversation r m s now).1.ChannelType = r.ChannelType ∧
      (updateConversation r m s now).1.UID = r.UID ∧
      (updateConversation r m s now).1.OffsetMsgSeq = r.OffsetMsgSeq := by
  unfold updateConversation
  by_cases h1 : (m.RedDot && m.FromUID != s) = true <;>
    by_cases h2 : r.LastMsgSeq < m.MessageSeq <;> simp [h1, h2]

theorem updateConversation_unmodified (r : Conversation) (m : Message) (s : String) (now : Int)
    (h : (updateConversation r m s now).2 = false) : (updateConversation r m s now).1 = r := by
  unfold updateConversation at h ⊢
  by_cases h1 : (m.RedDot && m.FromUID != s) = true <;>
    by_cases h2 : r.LastMsgSeq < m.MessageSeq <;> simp [h1, h2] at h ⊢

theorem updateConversation_LastMsgSeq (r : Conversation) (m : Message) (s : String) (now : Int) :
    (updateConversation r m s now).1.LastMsgSeq = max r.LastMsgSeq m.MessageSeq := by
  unfold updateConversation
  by_cases h1 : (m.RedDot && m.FromUID != s) = true <;>
    by_cases h2 : r.LastMsgSeq < m.MessageSeq <;> simp [h1, h2] <;> omega

theorem updateConversation_UnreadCount (r : Conversation) (m : Message) (s : String) (now : Int) :
    (updateConversation r m s now).1.UnreadCount
      = if countsUnread s m then wrapInt64 (r.UnreadCount + 1) else r.UnreadCount := by
  unfold updateConversation countsUnread
  by_cases h1 : (m.RedDot && m.FromUID != s) = true <;>
    by_cases h2 : r.LastMsgSeq < m.MessageSeq <;> simp [h1, h2]

theorem store_GetConversation_channel (st : Store) (uid channelID : String) (channelType : Nat)
    (r : Conversation) (h : st.GetConversation uid channelID channelType = .ok (some r)) :
    r.ChannelID = channelID ∧ r.ChannelType = channelType := by
  unfold Store.GetConversation at h
  by_cases he : st.readErr = true
  · simp [he] at h
  · simp only [he] at h
    cases hf : st.conversations.find? (Store.rowMatches uid channelID channelType) with
    | none => simp [hf] at h
    | some e =>
      have hm := List.find?_some hf
      simp [hf] at h
      subst h
      unfold Store.rowMatches at hm
      simp at hm
      exact ⟨hm.1.2, hm.2⟩

theorem foundConversation_channel (cm : ConversationManager) (m : Message) (s : String)
    (hk : KeysOK cm s) (r : Conversation) (h : foundConversation cm m s = some r) :
    r.ChannelID = effectiveChannelID m s ∧ r.ChannelType = m.ChannelType := by
  unfold foundConversation lookupRecord at h
  cases hp : peekConversation cm s (effectiveChannelID m s) m.ChannelType with
  | some c =>
    simp only [hp, Option.some.injEq] at h
    subst h
    exact hk _ _ _ hp
  | none =>
    simp only [hp] at h
    cases hg : cm.store.GetConversation s (effectiveChannelID m s) m.ChannelType with
    | error e => simp [hg] at h
    | ok o =>
      simp only [hg] at h
      subst h
      exact store_GetConversation_channel _ _ _ _ _ hg

theorem calStored_channel (cm : ConversationManager) (m : Message) (s : String) (now : Int)
    (hk : KeysOK cm s) (r : Conversation) (h : calStored cm m s now = some r) :
    r.ChannelID = effectiveChannelID m s ∧ r.ChannelType = m.ChannelType := by
  unfold calStored at h
  cases hf : foundConversation cm m s with
  | none =>
    simp only [hf, Option.some.injEq] at h
    subst h
    exact ⟨rfl, rfl⟩
  | some r0 =>
    simp only [hf] at h
    have hc := foundConversation_channel cm m s hk r0 hf
    have hu := updateConversation_channel r0 m s now
    by_cases hm : (updateConversation r0 m s now).2 = true
    · simp only [hm, if_true, Option.some.injEq] at h
      subst h
      exact ⟨hu.1.trans hc.1, hu.2.1.trans hc.2⟩
    · simp [hm] at h

/-- The cached record of the channel of the message after `calConversation`: the one it
stored, or the one that was there. -/
theorem peek_calConversation (cm : ConversationManager) (h : BucketsOK cm) (m : Message)
    (s : String) (now : Int) (hsz : 0 < (cacheOf cm s).size) (hk : KeysOK cm s) :
    peekConversation (calConversation cm m s now) s (effectiveChannelID m s) m.ChannelType
      = match calStored cm m s now with
        | some r => some r
        | none => peekConversation cm s (effectiveChannelID m s) m.ChannelType := by
  have ht := calConversation_touches cm h m s now
  unfold peekConversation
  rw [ht.self]
  unfold calCache
  cases hs : calStored cm m s now with
  | some r =>
    simp only []
    have hc := calStored_channel cm m s now hk r hs
    rw [hc.1, hc.2]
    apply LRUCache.lookup_Add_self
    rw [LRUCache.size_Get]
    exact hsz
  | none =>
    simp only []
    exact LRUCache.lookup_Get _ _ _

/-! ## Well-formed states -/

theorem lookup_some_mem {β : Type} (l : List (String × β)) (k : String) (v : β)
    (h : l.lookup k = some v) : (k, v) ∈ l := by
  induction l with
  | nil => simp at h
  | cons e l ih =>
    obtain ⟨a, b⟩ := e
    by_cases hk : k = a
    · subst hk
      simp [List.lookup_cons] at h
      simp [h]
    · have h1 : (k == a) = false := by simpa using hk
      simp only [List.lookup_cons, h1] at h
      exact List.mem_cons_of_mem _ (ih h)

theorem lookup_none_iff {β : Type} (l : List (String × β)) (k : String) :
    l.lookup k = none ↔ k ∉ l.map (fun e => e.1) := by
  induction l with
  | nil => simp
  | cons e l ih =>
    obtain ⟨a, b⟩ := e
    by_cases hk : k = a
    · subst hk
      simp [List.lookup_cons]
    · have h1 : (k == a) = false := by simpa using hk
      simp only [List.lookup_cons, h1, ih, List.map_cons, List.mem_cons, hk, false_or]

theorem lookup_of_mem_nodup {β : Type} (l : List (String × β)) (k : String) (v : β)
    (hn : (l.map (fun e => e.1)).Nodup) (h : (k, v) ∈ l) : l.lookup k = some v := by
  induction l with
  | nil => simp at h
  | cons e l ih =>
    obtain ⟨a, b⟩ := e
    simp only [List.map_cons, List.nodup_cons] at hn
    rcases List.mem_cons.1 h with h3 | h3
    · simp only [Prod.mk.injEq] at h3
      obtain ⟨rfl, rfl⟩ := h3
      simp [List.lookup_cons]
    · have hk : k ≠ a := by
        intro hka
        exact hn.1 (List.mem_map.2 ⟨(k, v), h3, hka⟩)
      have h1 : (k == a) = false := by simpa using hk
      simp only [List.lookup_cons, h1]
      exact ih hn.2 h3

theorem without_sublist (items : List (String × Conversation)) (k : String) :
    (LRUCache.without items k).Sublist items := List.filter_sublist _

theorem without_keys_nodup (items : List (String × Conversation)) (k : String)
    (h : (items.map (fun e => e.1)).Nodup) :
    ((LRUCache.without items k).map (fun e => e.1)).Nodup :=
  h.sublist ((without_sublist items k).map _)

theorem without_not_mem (items : List (String × Conversation)) (k : String) :
    k ∉ (LRUCache.without items k).map (fun e => e.1) := by
  unfold LRUCache.without
  simp [List.mem_filter]

theorem LRUCache.WF_front (c : LRUCache) (h : c.WF) (k : String) (v : Conversation)
    (hk : k = keyOf v) : LRUCache.WF { c with items := (k, v) :: without c.items k } := by
  refine ⟨h.size, ?_, ?_⟩
  · simp only [List.map_cons, List.nodup_cons]
    exact ⟨without_not_mem _ _, without_keys_nodup _ _ h.nodup⟩
  · intro e he
    rcases List.mem_cons.1 he with he | he
    · subst he; exact hk
    · exact h.keys e ((without_sublist _ _).subset he)

theorem LRUCache.Get_WF (c : LRUCache) (h : c.WF) (k : String) : (c.Get k).2.WF := by
  unfold LRUCache.Get
  cases hl : c.items.lookup k with
  | none => exact h
  | some v => exact LRUCache.WF_front c h k v (h.keys _ (lookup_some_mem _ _ _ hl))

theorem LRUCache.Add_WF (c : LRUCache) (h : c.WF) (k : String) (v : Conversation)
    (hk : k = keyOf v) : (c.Add k v).WF := by
  unfold LRUCache.Add
  cases hl : c.items.lookup k with
  | some _ => exact LRUCache.WF_front c h k v hk
  | none =>
    have hnew : LRUCache.WF { c with items := (k, v) :: c.items } := by
      refine ⟨h.size, ?_, ?_⟩
      · simp only [List.map_cons, List.nodup_cons]
        exact ⟨(lookup_none_iff _ _).1 hl, h.nodup⟩
      · intro e he
        rcases List.mem_cons.1 he with he | he
        · subst he; exact hk
        · exact h.keys e he
    simp only []
    split
    · refine ⟨h.size, ?_, ?_⟩
      · exact hnew.nodup.sublist ((List.dropLast_sublist _).map _)
      · intro e he
        exact hnew.keys e ((List.dropLast_sublist _).subset he)
    · exact hnew

theorem LRUCache.Remove_WF (c : LRUCache) (h : c.WF) (k : String) : (c.Remove k).WF :=
  ⟨h.size, without_keys_nodup _ _ h.nodup, fun e he => h.keys e ((without_sublist _ _).subset he)⟩

theorem WF.keysOK {cm : ConversationManager} (h : WF cm) (uid : String) : KeysOK cm uid := by
  intro channelID channelType r hp
  unfold peekConversation at hp
  have hm := lookup_some_mem _ _ _ hp
  have hk := (h.caches uid).keys _ hm
  have := getChannelKey_injective _ _ _ _ hk
  exact ⟨this.1.symm, this.2.symm⟩

theorem Touches.wf {cm cm' : ConversationManager} {uid : String} {c : LRUCache}
    {d : List String} (ht : Touches cm uid c d cm') (h : WF cm) (hc : c.WF) : WF cm' := by
  refine ⟨ht.ok, ?_, ?_⟩
  · rw [ht.env.2.1]; exact h.maxCount
  · intro u
    by_cases hu : u = uid
    · subst hu; rw [ht.self]; exact hc
    · rw [ht.other u hu]; exact h.caches u

theorem calCache_WF (cm : ConversationManager) (h : WF cm) (m : Message) (s : String)
    (now : Int) : (calCache cm m s now).WF := by
  unfold calCache
  have h1 := LRUCache.Get_WF _ (h.caches s) (getChannelKey (effectiveChannelID m s) m.ChannelType)
  cases calStored cm m s now with
  | none => exact h1
  | some r => exact LRUCache.Add_WF _ h1 _ _ rfl

theorem calConversation_WF (cm : ConversationManager) (h : WF cm) (m : Message) (s : String)
    (now : Int) : WF (calConversation cm m s now) :=
  (calConversation_touches cm h.buckets m s now).wf h (calCache_WF cm h m s now)

theorem NewConversationManager_cacheOf (store : Store) (n : Nat) (e : Int)
    (hash : String → Nat) (uid : String) :
    cacheOf (NewConversationManager store n e hash) uid = { size := n, items := [] } := by
  have hb : ∀ pos, (List.replicate 10 (none : Option (List (String × LRUCache)))).getD pos none
      = none := by
    intro pos
    simp only [List.getD_eq_getElem?_getD, List.getElem?_replicate]
    split <;> rfl
  unfold cacheOf bucketMap
  show (List.lookup uid (((List.replicate 10 none).getD _ none).getD [])).getD _ = _
  rw [hb]
  rfl

theorem NewConversationManager_WF (store : Store) (n : Nat) (e : Int) (hash : String → Nat)
    (hn : 0 < n) : WF (NewConversationManager store n e hash) := by
  refine ⟨by unfold BucketsOK NewConversationManager; simp, hn, ?_⟩
  intro uid
  rw [NewConversationManager_cacheOf]
  exact ⟨hn, by simp, by simp⟩

/-! ## Folding the update -/

theorem wrapInt64_of_range (x : Int) (h1 : -2 ^ 63 ≤ x) (h2 : x < 2 ^ 63) : wrapInt64 x = x := by
  unfold wrapInt64
  omega

theorem updateAll_LastMsgSeq_ge (s : String) (evs : List (Message × Int)) :
    ∀ r : Conversation, r.LastMsgSeq ≤ (updateAll r s evs).LastMsgSeq ∧
      (∀ e ∈ evs, e.1.MessageSeq ≤ (updateAll r s evs).LastMsgSeq) ∧
      ((updateAll r s evs).LastMsgSeq = r.LastMsgSeq ∨
        (updateAll r s evs).LastMsgSeq ∈ evs.map (fun e => e.1.MessageSeq)) := by
  induction evs with
  | nil => intro r; simp [updateAll]
  | cons e evs ih =>
    intro r
    have h := ih (updateConversation r e.1 s e.2).1
    have hu := updateConversation_LastMsgSeq r e.1 s e.2
    have hfold : updateAll r s (e :: evs) = updateAll (updateConversation r e.1 s e.2).1 s evs := rfl
    rw [hfold]
    rw [hu] at h
    refine ⟨by omega, ?_, ?_⟩
    · intro x hx
      rcases List.mem_cons.1 hx with hx | hx
      · subst hx; omega
      · exact h.2.1 x hx
    · rcases h.2.2 with h3 | h3
      · rcases Nat.le_total r.LastMsgSeq e.1.MessageSeq with h4 | h4
        · right
          rw [h3, max_eq_right h4]
          simp
        · left
          rw [h3, max_eq_left h4]
      · right
        exact List.mem_cons_of_mem _ h3

theorem updateAll_UnreadCount (s : String) (evs : List (Message × Int)) :
    ∀ r : Conversation, 0 ≤ r.UnreadCount → r.UnreadCount + evs.length < 2 ^ 63 →
      (updateAll r s evs).UnreadCount
        = r.UnreadCount + (evs.countP (fun e => countsUnread s e.1) : Nat) := by
  induction evs with
  | nil => intro r _ _; simp [updateAll]
  | cons e evs ih =>
    intro r h0 hlt
    have hfold : updateAll r s (e :: evs) = updateAll (updateConversation r e.1 s e.2).1 s evs := rfl
    have hu := updateConversation_UnreadCount r e.1 s e.2
    simp only [List.length_cons, Nat.cast_add, Nat.cast_one] at hlt
    rw [hfold]
    by_cases hc : countsUnread s e.1 = true
    · simp only [hc, if_true] at hu
      rw [wrapInt64_of_range _ (by omega) (by omega)] at hu
      rw [ih _ (by omega) (by omega), hu, List.countP_cons_of_pos _ _ (by simpa using hc)]
      push_cast
      omega
    · simp only [hc] at hu
      rw [ih _ (by simp at hu; omega) (by simp at hu; omega)]
      simp at hu
      rw [hu, List.countP_cons_of_neg _ _ (by simpa using hc)]

/-! ## Claims on calConversation -/

theorem calStored_of_cached (cm : ConversationManager) (m : Message) (s : String) (now : Int)
    (r : Conversation)
    (hp : peekConversation cm s (effectiveChannelID m s) m.ChannelType = some r) :
    (match calStored cm m s now with
      | some x => some x
      | none => peekConversation cm s (effectiveChannelID m s) m.ChannelType)
      = some (updateConversation r m s now).1 := by
  unfold calStored foundConversation lookupRecord
  simp only [hp]
  by_cases hm : (updateConversation r m s now).2 = true
  · simp only [hm, if_true]
  · have hm2 : (updateConversation r m s now).2 = false := by simpa using hm
    simp [hm2, updateConversation_unmodified r m s now hm2]

theorem calStored_of_absent (cm : ConversationManager) (m : Message) (s : String) (now : Int)
    (hp : peekConversation cm s (effectiveChannelID m s) m.ChannelType = none)
    (hs : cm.store.conversations.find?
      (Store.rowMatches s (effectiveChannelID m s) m.ChannelType) = none) :
    calStored cm m s now = some (newConversation m s now) := by
  unfold calStored foundConversation lookupRecord Store.GetConversation
  simp only [hp, hs]
  by_cases he : cm.store.readErr = true <;> simp [he]

theorem needSave_calConversation_new (cm : ConversationManager) (h : BucketsOK cm) (m : Message)
    (s : String) (now : Int) (r : Conversation) (hs : calStored cm m s now = some r) :
    s ∈ (calConversation cm m s now).needSaveConversationMap := by
  have ht := calConversation_touches cm h m s now
  rw [ht.dirty, hs]
  simp only [markDirty]
  split
  · assumption
  · simp

theorem peek_calConversations (s c : String) (t : Nat) (evs : List (Message × Int)) :
    ∀ (cm : ConversationManager) (r : Conversation), WF cm →
      peekConversation cm s c t = some r →
      (∀ e ∈ evs, effectiveChannelID e.1 s = c ∧ e.1.ChannelType = t) →
      peekConversation (calConversations cm s evs) s c t = some (updateAll r s evs) := by
  induction evs with
  | nil => intro cm r _ hp _; exact hp
  | cons e evs ih =>
    intro cm r hwf hp hch
    have he := hch e (List.mem_cons_self _ _)
    have hp1 : peekConversation cm s (effectiveChannelID e.1 s) e.1.ChannelType = some r := by
      rw [he.1, he.2]; exact hp
    have h1 := peek_calConversation cm hwf.buckets e.1 s e.2 (hwf.caches s).size (hwf.keysOK s)
    rw [calStored_of_cached cm e.1 s e.2 r hp1, he.1, he.2] at h1
    exact ih (calConversation cm e.1 s e.2) _ (calConversation_WF cm hwf e.1 s e.2) h1
      (fun x hx => hch x (List.mem_cons_of_mem _ hx))

theorem peek_calConversations_fresh (s c : String) (t : Nat) (e : Message × Int)
    (evs : List (Message × Int)) (cm : ConversationManager) (hwf : WF cm)
    (hp : peekConversation cm s c t = none)
    (hs : cm.store.conversations.find? (Store.rowMatches s c t) = none)
    (hch : ∀ x ∈ e :: evs, effectiveChannelID x.1 s = c ∧ x.1.ChannelType = t) :
    peekConversation (calConversations cm s (e :: evs)) s c t
      = some (updateAll (newConversation e.1 s e.2) s evs) := by
  have he := hch e (List.mem_cons_self _ _)
  have h1 := peek_calConversation cm hwf.buckets e.1 s e.2 (hwf.caches s).size (hwf.keysOK s)
  rw [calStored_of_absent cm e.1 s e.2 (by rw [he.1, he.2]; exact hp)
    (by rw [he.1, he.2]; exact hs), he.1, he.2] at h1
  exact peek_calConversations s c t evs _ _ (calConversation_WF cm hwf e.1 s e.2) h1
    (fun x hx => hch x (List.mem_cons_of_mem _ hx))

/-- C1. From an empty cache and an empty store, after a non-empty sequence of
messages of one effective channel `(c, t)` has gone through `calConversation` for
the subscriber `s`, in any order of their sequence numbers, the cached record of
`(s, c, t)` has as `LastMsgSeq` the maximum of the sequence numbers: it is one of
them and no one is greater. -/
theorem calConversations_lastMsgSeq_max (store : Store) (n : Nat) (expire : Int)
    (hash : String → Nat) (s c : String) (t : Nat) (evs : List (Message × Int))
    (hstore : store.conversations = []) (hn : 0 < n) (hne : evs ≠ [])
    (hch : ∀ e ∈ evs, effectiveChannelID e.1 s = c ∧ e.1.ChannelType = t) :
    ∃ r, peekConversation (calConversations (NewConversationManager store n expire hash) s evs)
          s c t = some r ∧
      r.LastMsgSeq ∈ evs.map (fun e => e.1.MessageSeq) ∧
      ∀ e ∈ evs, e.1.MessageSeq ≤ r.LastMsgSeq := by
  cases evs with
  | nil => exact absurd rfl hne
  | cons e evs =>
    have hwf := NewConversationManager_WF store n expire hash hn
    have hp : peekConversation (NewConversationManager store n expire hash) s c t = none := by
      unfold peekConversation
      rw [NewConversationManager_cacheOf]
      rfl
    have hs : (NewConversationManager store n expire hash).store.conversations.find?
        (Store.rowMatches s c t) = none := by
      show store.conversations.find? _ = none
      rw [hstore]; rfl
    refine ⟨_, peek_calConversations_fresh s c t e evs _ hwf hp hs hch, ?_, ?_⟩
    · have h := (updateAll_LastMsgSeq_ge s evs (newConversation e.1 s e.2)).2.2
      rcases h with h | h
      · rw [h]; simp [newConversation]
      · exact List.mem_cons_of_mem _ h
    · intro x hx
      have h := updateAll_LastMsgSeq_ge s evs (newConversation e.1 s e.2)
      rcases List.mem_cons.1 hx with hx | hx
      · subst hx; exact h.1
      · exact h.2.1 x hx

/-- C1 at three messages for `b` in the group `g`, with sequence numbers 3, 5, 3. -/
theorem calConversations_lastMsgSeq_max_witness :
    ∃ r, peekConversation (calConversations sampleManager "b"
          [(sampleMessage3, 10), (sampleMessage5, 11), (sampleMessage3, 12)]) "b" "g" 2 = some r ∧
      r.LastMsgSeq ∈ [3, 5, 3] ∧
      ∀ e ∈ [(sampleMessage3, (10 : Int)), (sampleMessage5, 11), (sampleMessage3, 12)],
        e.1.MessageSeq ≤ r.LastMsgSeq :=
  calConversations_lastMsgSeq_max { conversations := [], readErr := false, writeErr := [] } 3 0
    (fun s => s.length) "b" "g" 2 [(sampleMessage3, 10), (sampleMessage5, 11), (sampleMessage3, 12)]
    rfl (by decide) (by simp) (by decide)

/-! ## Unread count and new records -/

/-- C2. From an empty cache and an empty store and with no call that sets the
unread count, after a non-empty sequence of messages (fewer than `2^63`, the range
of the Go `int` counter) of one effective channel `(c, t)` has gone through
`calConversation` for the subscriber `s`, the cached record's `UnreadCount` is the
number of messages with `RedDot` and `FromUID ≠ s`, whatever the order of their
sequence numbers. -/
theorem calConversations_unreadCount (store : Store) (n : Nat) (expire : Int)
    (hash : String → Nat) (s c : String) (t : Nat) (evs : List (Message × Int))
    (hstore : store.conversations = []) (hn : 0 < n) (hne : evs ≠ [])
    (hlen : (evs.length : Int) < 2 ^ 63)
    (hch : ∀ e ∈ evs, effectiveChannelID e.1 s = c ∧ e.1.ChannelType = t) :
    ∃ r, peekConversation (calConversations (NewConversationManager store n expire hash) s evs)
          s c t = some r ∧
      r.UnreadCount = ((evs.countP (fun e => e.1.RedDot && e.1.FromUID != s) : Nat) : Int) := by
  cases evs with
  | nil => exact absurd rfl hne
  | cons e evs =>
    have hwf := NewConversationManager_WF store n expire hash hn
    have hp : peekConversation (NewConversationManager store n expire hash) s c t = none := by
      unfold peekConversation
      rw [NewConversationManager_cacheOf]
      rfl
    have hs : (NewConversationManager store n expire hash).store.conversations.find?
        (Store.rowMatches s c t) = none := by
      show store.conversations.find? _ = none
      rw [hstore]; rfl
    refine ⟨_, peek_calConversations_fresh s c t e evs _ hwf hp hs hch, ?_⟩
    simp only [List.length_cons, Nat.cast_add, Nat.cast_one] at hlen
    have hnew : (newConversation e.1 s e.2).UnreadCount
        = if (e.1.RedDot && e.1.FromUID != s) = true then 1 else 0 := rfl
    have h := updateAll_UnreadCount s evs (newConversation e.1 s e.2)
      (by rw [hnew]; split <;> decide) (by rw [hnew]; split <;> omega)
    rw [h, hnew]
    have hcp : (fun x : Message × Int => countsUnread s x.1)
        = (fun x : Message × Int => x.1.RedDot && x.1.FromUID != s) := rfl
    rw [hcp]
    by_cases hc : (e.1.RedDot && e.1.FromUID != s) = true
    · rw [List.countP_cons_of_pos (fun x : Message × Int => x.1.RedDot && x.1.FromUID != s) _ hc]
      simp only [hc, if_true]
      push_cast
      omega
    · rw [List.countP_cons_of_neg (fun x : Message × Int => x.1.RedDot && x.1.FromUID != s) _ hc]
      simp only [hc]
      simp

/-- C2 at the scenario of the spec: sequence 5, then sequence 3, both red-dot messages
of another user; the record ends with `LastMsgSeq = 5` and `UnreadCount = 2`. -/
theorem calConversations_unreadCount_witness :
    (∃ r, peekConversation (calConversations sampleManager "b"
          [(sampleMessage5, 10), (sampleMessage3, 11)]) "b" "g" 2 = some r ∧
      r.UnreadCount = (([(sampleMessage5, (10 : Int)), (sampleMessage3, 11)].countP
        (fun e => e.1.RedDot && e.1.FromUID != "b") : Nat) : Int)) ∧
    (peekConversation (calConversations sampleManager "b"
          [(sampleMessage5, 10), (sampleMessage3, 11)]) "b" "g" 2).map
        (fun r => (r.LastMsgSeq, r.UnreadCount)) = some (5, 2) :=
  ⟨calConversations_unreadCount { conversations := [], readErr := false, writeErr := [] } 3 0
    (fun s => s.length) "b" "g" 2 [(sampleMessage5, 10), (sampleMessage3, 11)]
    rfl (by decide) (by simp) (by decide) (by decide), by decide⟩

/-- C3. When `calConversation` handles a message for a subscriber whose record of
the effective channel is neither in the cache nor in the store, it caches a record
whose `UnreadCount` is 1 if `RedDot` holds and `FromUID ≠ subscriber` and 0
otherwise, whose last-message fields are those of the message and whose `Version`
is the clock value `now`, and the subscriber is in the dirty set. -/
theorem calConversation_new_record (cm : ConversationManager) (m : Message) (s : String)
    (now : Int) (hwf : WF cm)
    (hcache : peekConversation cm s (effectiveChannelID m s) m.ChannelType = none)
    (hstore : cm.store.conversations.find?
      (Store.rowMatches s (effectiveChannelID m s) m.ChannelType) = none) :
    ∃ r, peekConversation (calConversation cm m s now) s (effectiveChannelID m s) m.ChannelType
          = some r ∧
      r.UnreadCount = (if m.RedDot = true ∧ m.FromUID ≠ s then 1 else 0) ∧
      r.Timestamp = m.Timestamp ∧ r.LastMsgSeq = m.MessageSeq ∧
      r.LastClientMsgNo = m.ClientMsgNo ∧ r.LastMsgID = m.MessageID ∧ r.Version = now ∧
      s ∈ (calConversation cm m s now).needSaveConversationMap := by
  have hst := calStored_of_absent cm m s now hcache hstore
  have h1 := peek_calConversation cm hwf.buckets m s now (hwf.caches s).size (hwf.keysOK s)
  rw [hst] at h1
  refine ⟨_, h1, ?_, rfl, rfl, rfl, rfl, rfl,
    needSave_calConversation_new cm hwf.buckets m s now _ hst⟩
  simp only [newConversation]
  by_cases hr : m.RedDot = true <;> by_cases hf : m.FromUID = s <;> simp [hr, hf]

/-- C3 at the first two scenarios of the spec: a new conversation of `b`, and the
same message handled for its sender `a`. -/
theorem calConversation_new_record_witness :
    (∃ r, peekConversation (calConversation sampleManager sampleMessage5 "b" 10) "b"
          (effectiveChannelID sampleMessage5 "b") sampleMessage5.ChannelType = some r ∧
      r.UnreadCount = (if sampleMessage5.RedDot = true ∧ sampleMessage5.FromUID ≠ "b"
        then 1 else 0) ∧
      r.Timestamp = sampleMessage5.Timestamp ∧ r.LastMsgSeq = sampleMessage5.MessageSeq ∧
      r.LastClientMsgNo = sampleMessage5.ClientMsgNo ∧ r.LastMsgID = sampleMessage5.MessageID ∧
      r.Version = 10 ∧
      "b" ∈ (calConversation sampleManager sampleMessage5 "b" 10).needSaveConversationMap) ∧
    (peekConversation (calConversation sampleManager sampleMessage5 "b" 10) "b" "g" 2).map
        (fun r => (r.UnreadCount, r.LastMsgSeq, r.Timestamp)) = some (1, 5, 1000) ∧
    (peekConversation (calConversation sampleManager sampleMessage5 "a" 10) "a" "g" 2).map
        (fun r => r.UnreadCount) = some 0 :=
  ⟨calConversation_new_record sampleManager sampleMessage5 "b" 10
    (NewConversationManager_WF _ 3 0 _ (by decide)) (by decide) (by decide),
    by decide, by decide⟩

/-! ## The effective channel -/

theorem lookup_dropLast {β : Type} (k : String) (l : List (String × β)) :
    l.dropLast.lookup k = l.lookup k ∨ l.dropLast.lookup k = none := by
  induction l with
  | nil => left; rfl
  | cons e l ih =>
    cases l with
    | nil => right; rfl
    | cons e2 l2 =>
      obtain ⟨a, b⟩ := e
      by_cases hk : (k == a) = true
      · left; simp [List.dropLast, List.lookup_cons, hk]
      · have hk2 : (k == a) = false := by simpa using hk
        simp only [List.dropLast_cons₂, List.lookup_cons, hk2]
        simpa [List.lookup_cons] using ih

theorem LRUCache.lookup_Add_ne_or (c : LRUCache) (k k' : String) (v : Conversation)
    (hne : k' ≠ k) :
    (c.Add k v).items.lookup k' = c.items.lookup k' ∨ (c.Add k v).items.lookup k' = none := by
  have h1 : (k' == k) = false := by simpa using hne
  unfold LRUCache.Add
  cases hl : c.items.lookup k with
  | some _ =>
    left
    simp only [List.lookup_cons, h1, LRUCache.without, lookup_filter_ne _ _ _ hne]
  | none =>
    simp only []
    split
    · have := lookup_dropLast k' ((k, v) :: c.items)
      simpa only [List.lookup_cons, h1] using this
    · left
      simp only [List.lookup_cons, h1]

/-- C4. `calConversation` works on the record of the effective channel `e`: the
sender for a personal channel whose id is the subscriber, the channel id of the message
in every other case.  The record cached under `e` afterwards is the new record when
the lookup under `e` (cache, then store) finds none, the updated record when the
lookup finds one and the message modifies it, and the previously cached one
otherwise; a record cached under `e` names `e` as its channel; the cached record of
any other channel is the one from before, or is gone by eviction. -/
theorem calConversation_effective_channel (cm : ConversationManager) (m : Message)
    (s : String) (now : Int) (hwf : WF cm) :
    ∃ e, e = (if m.ChannelType = ChannelTypePerson ∧ m.ChannelID = s then m.FromUID
          else m.ChannelID) ∧
      peekConversation (calConversation cm m s now) s e m.ChannelType
        = (match lookupRecord cm s e m.ChannelType with
          | none => some (newConversation m s now)
          | some r =>
            if (updateConversation r m s now).2 then some (updateConversation r m s now).1
            else peekConversation cm s e m.ChannelType) ∧
      (∀ r, peekConversation (calConversation cm m s now) s e m.ChannelType = some r →
        r.ChannelID = e ∧ r.ChannelType = m.ChannelType) ∧
      (∀ c t, (c, t) ≠ (e, m.ChannelType) →
        peekConversation (calConversation cm m s now) s c t = peekConversation cm s c t ∨
        peekConversation (calConversation cm m s now) s c t = none) := by
  refine ⟨effectiveChannelID m s, ?_, ?_, ?_, ?_⟩
  · unfold effectiveChannelID
    by_cases h1 : m.ChannelType = ChannelTypePerson <;> by_cases h2 : m.ChannelID = s <;>
      simp [h1, h2]
  · rw [peek_calConversation cm hwf.buckets m s now (hwf.caches s).size (hwf.keysOK s)]
    unfold calStored foundConversation
    cases lookupRecord cm s (effectiveChannelID m s) m.ChannelType with
    | none => rfl
    | some r =>
      simp only []
      by_cases hm : (updateConversation r m s now).2 = true
      · simp only [hm, if_true]
      · simp only [hm]
        rfl
  · intro r hr
    exact (calConversation_WF cm hwf m s now).keysOK s _ _ r hr
  · intro c t hne
    have ht := calConversation_touches cm hwf.buckets m s now
    have hk : getChannelKey c t ≠ getChannelKey (effectiveChannelID m s) m.ChannelType := by
      intro hk
      have := getChannelKey_injective _ _ _ _ hk
      exact hne (by rw [this.1, this.2])
    unfold peekConversation
    rw [ht.self]
    unfold calCache
    cases hs : calStored cm m s now with
    | none =>
      left
      exact LRUCache.lookup_Get _ _ _
    | some r =>
      simp only []
      have hc := calStored_channel cm m s now (hwf.keysOK s) r hs
      rw [hc.1, hc.2]
      rcases LRUCache.lookup_Add_ne_or
        ((cacheOf cm s).Get (getChannelKey (effectiveChannelID m s) m.ChannelType)).2
        (getChannelKey (effectiveChannelID m s) m.ChannelType) (getChannelKey c t) r hk with h | h
      · left
        rw [h]
        exact LRUCache.lookup_Get _ _ _
      · right
        exact h

/-- C4 at a personal message of `f` to `s`, handled for `s`: the record is cached
under the channel id `f`, and nothing is cached under `s`. -/
theorem calConversation_effective_channel_witness :
    (∃ e, e = (if samplePersonal.ChannelType = ChannelTypePerson ∧ samplePersonal.ChannelID = "s"
          then samplePersonal.FromUID else samplePersonal.ChannelID) ∧
      peekConversation (calConversation sampleManager samplePersonal "s" 10) "s" e
          samplePersonal.ChannelType
        = (match lookupRecord sampleManager "s" e samplePersonal.ChannelType with
          | none => some (newConversation samplePersonal "s" 10)
          | some r =>
            if (updateConversation r samplePersonal "s" 10).2 then
              some (updateConversation r samplePersonal "s" 10).1
            else peekConversation sampleManager "s" e samplePersonal.ChannelType) ∧
      (∀ r, peekConversation (calConversation sampleManager samplePersonal "s" 10) "s" e
          samplePersonal.ChannelType = some r →
        r.ChannelID = e ∧ r.ChannelType = samplePersonal.ChannelType) ∧
      (∀ c t, (c, t) ≠ (e, samplePersonal.ChannelType) →
        peekConversation (calConversation sampleManager samplePersonal "s" 10) "s" c t
          = peekConversation sampleManager "s" c t ∨
        peekConversation (calConversation sampleManager samplePersonal "s" 10) "s" c t = none)) ∧
    (peekConversation (calConversation sampleManager samplePersonal "s" 10) "s" "f" 1).map
        (fun r => r.ChannelID) = some "f" ∧
    peekConversation (calConversation sampleManager samplePersonal "s" 10) "s" "s" 1 = none :=
  ⟨calConversation_effective_channel sampleManager samplePersonal "s" 10
    (NewConversationManager_WF _ 3 0 _ (by decide)), by decide, by decide⟩

/-! ## SetConversationUnread -/

theorem writeCached_touches (cm : ConversationManager) (h : BucketsOK cm) (uid key : String)
    (v : Conversation) :
    Touches cm uid ((cacheOf cm uid).update key v) cm.needSaveConversationMap
      (writeCached cm uid key v) :=
  ⟨putUserCache_BucketsOK cm h uid _, putUserCache_SameEnv cm uid _, rfl,
    cacheOf_putUserCache_self cm h uid _, fun u hu => cacheOf_putUserCache_ne cm h uid u _ hu⟩

theorem Touches.mark {cm cm1 : ConversationManager} {uid : String} {c : LRUCache}
    {d : List String} (h1 : Touches cm uid c d cm1) :
    Touches cm uid c (markDirty d uid) (setNeedSave cm1 uid) := by
  have h2 := setNeedSave_touches cm1 h1.ok uid
  rw [h1.self, h1.dirty] at h2
  exact touches_trans h1 h2

theorem SetConversationUnread_touches (cm : ConversationManager) (h : BucketsOK cm)
    (uid channelID : String) (channelType : Nat) (unread : Int) (messageSeq : Nat) :
    Touches cm uid (setUnreadCache cm uid channelID channelType unread messageSeq)
      (match lookupRecord cm uid channelID channelType with
        | some _ => markDirty cm.needSaveConversationMap uid
        | none => cm.needSaveConversationMap)
      (SetConversationUnread cm uid channelID channelType unread messageSeq).2 := by
  have h1 := getConversationFromCache_touches cm h uid channelID channelType
  have hf := getConversationFromCache_fst cm uid channelID channelType
  have hs := h1.env.1
  unfold SetConversationUnread setUnreadCache lookupRecord
  simp only [hf, hs]
  cases hp : peekConversation cm uid channelID channelType with
  | some r =>
    simp only []
    have h2 := writeCached_touches _ h1.ok uid (getChannelKey channelID channelType)
      (setUnreadFields r unread messageSeq)
    rw [h1.self, h1.dirty] at h2
    exact (touches_trans h1 h2).mark
  | none =>
    simp only []
    cases hg : cm.store.GetConversation uid channelID channelType with
    | error e => simpa only [] using h1
    | ok o =>
      cases o with
      | none => simpa only [] using h1
      | some r =>
        simp only []
        have h2 := setConversationCache_touches _ h1.ok uid (setUnreadFields r unread messageSeq)
        rw [h1.self, h1.dirty] at h2
        exact (touches_trans h1 h2).mark

theorem LRUCache.lookup_update_self (c : LRUCache) (k : String) (v : Conversation) :
    (c.update k v).items.lookup k = (c.items.lookup k).map (fun _ => v) := by
  unfold LRUCache.update
  simp only []
  induction c.items with
  | nil => rfl
  | cons e l ih =>
    obtain ⟨a, b⟩ := e
    by_cases hk : k = a
    · subst hk; simp [List.lookup_cons]
    · have h1 : (k == a) = false := by simpa using hk
      have h2 : ¬ a = k := fun h => hk h.symm
      simp [List.lookup_cons, h1, h2]
      simpa using ih

theorem LRUCache.lookup_update_ne (c : LRUCache) (k k' : String) (v : Conversation)
    (hne : k' ≠ k) : (c.update k v).items.lookup k' = c.items.lookup k' := by
  unfold LRUCache.update
  simp only []
  induction c.items with
  | nil => rfl
  | cons e l ih =>
    obtain ⟨a, b⟩ := e
    by_cases hk : a = k
    · subst hk
      have h1 : (k' == a) = false := by simpa using hne
      simp [List.lookup_cons, h1]
      simpa using ih
    · by_cases hk' : k' = a
      · subst hk'
        simp [List.lookup_cons, hk]
      · have h1 : (k' == a) = false := by simpa using hk'
        simp [List.lookup_cons, h1, hk]
        simpa using ih

theorem LRUCache.update_WF (c : LRUCache) (h : c.WF) (k : String) (v : Conversation)
    (hk : k = keyOf v) : (c.update k v).WF := by
  have hkeys : (c.update k v).items.map (fun e => e.1) = c.items.map (fun e => e.1) := by
    unfold LRUCache.update
    simp only [List.map_map]
    apply List.map_congr_left
    intro e _
    simp only [Function.comp]
    split <;> rfl
  refine ⟨h.size, by rw [hkeys]; exact h.nodup, ?_⟩
  intro e he
  unfold LRUCache.update at he
  simp only [List.mem_map] at he
  obtain ⟨e0, he0, rfl⟩ := he
  by_cases hk0 : (e0.1 == k) = true
  · simp only [hk0, if_true]
    rw [← hk]
    simpa using hk0
  · simp only [hk0]
    exact h.keys e0 he0

theorem setUnreadFields_fields (r : Conversation) (unread : Int) (messageSeq : Nat) :
    (setUnreadFields r unread messageSeq).UnreadCount = unread ∧
      (setUnreadFields r unread messageSeq).OffsetMsgSeq
        = (if messageSeq > 0 then messageSeq else r.OffsetMsgSeq) ∧
      (setUnreadFields r unread messageSeq).Version = r.Version ∧
      (setUnreadFields r unread messageSeq).ChannelID = r.ChannelID ∧
      (setUnreadFields r unread messageSeq).ChannelType = r.ChannelType := by
  unfold setUnreadFields
  by_cases h : messageSeq > 0 <;> simp [h]

theorem lookupRecord_channel (cm : ConversationManager) (uid channelID : String)
    (channelType : Nat) (hk : KeysOK cm uid) (r : Conversation)
    (h : lookupRecord cm uid channelID channelType = some r) :
    r.ChannelID = channelID ∧ r.ChannelType = channelType := by
  unfold lookupRecord at h
  cases hp : peekConversation cm uid channelID channelType with
  | some c =>
    simp only [hp, Option.some.injEq] at h
    subst h
    exact hk _ _ _ hp
  | none =>
    simp only [hp] at h
    cases hg : cm.store.GetConversation uid channelID channelType with
    | error e => simp [hg] at h
    | ok o =>
      simp only [hg] at h
      subst h
      exact store_GetConversation_channel _ _ _ _ _ hg

/-- The cached record of the channel after `SetConversationUnread`, when the lookup
found a record. -/
theorem peek_SetConversationUnread (cm : ConversationManager) (hwf : WF cm)
    (uid channelID : String) (channelType : Nat) (unread : Int) (messageSeq : Nat)
    (r : Conversation) (h : lookupRecord cm uid channelID channelType = some r) :
    peekConversation (SetConversationUnread cm uid channelID channelType unread messageSeq).2
      uid channelID channelType = some (setUnreadFields r unread messageSeq) := by
  have ht := SetConversationUnread_touches cm hwf.buckets uid channelID channelType unread
    messageSeq
  have hc := lookupRecord_channel cm uid channelID channelType (hwf.keysOK uid) r h
  unfold peekConversation
  rw [ht.self]
  unfold setUnreadCache
  unfold lookupRecord at h
  cases hp : peekConversation cm uid channelID channelType with
  | some c =>
    simp only [hp, Option.some.injEq] at h
    subst h
    simp only []
    rw [LRUCache.lookup_update_self, LRUCache.lookup_Get]
    unfold peekConversation at hp
    rw [hp]
    rfl
  | none =>
    simp only [hp] at h
    cases hg : cm.store.GetConversation uid channelID channelType with
    | error e => simp [hg] at h
    | ok o =>
      simp only [hg] at h
      subst h
      simp only []
      have hf := setUnreadFields_fields r unread messageSeq
      have hkey : keyOf (setUnreadFields r unread messageSeq)
          = getChannelKey channelID channelType := by
        unfold keyOf
        rw [hf.2.2.2.1, hf.2.2.2.2, hc.1, hc.2]
      rw [hkey]
      apply LRUCache.lookup_Add_self
      rw [LRUCache.size_Get]
      exact (hwf.caches uid).size

/-! ## Versions -/

theorem updateConversation_version (r : Conversation) (m : Message) (s : String) (now : Int)
    (h : (updateConversation r m s now).2 = true) :
    (updateConversation r m s now).1.Version = now := by
  unfold updateConversation at h ⊢
  by_cases h1 : (m.RedDot && m.FromUID != s) = true <;>
    by_cases h2 : r.LastMsgSeq < m.MessageSeq <;> simp [h1, h2] at h ⊢

/-- C6, as stated, fails: `SetConversationUnread` changes the unread count of a
cached record (from 1 to 0) and leaves its version at 10. -/
theorem SetConversationUnread_version_counterexample :
    ∃ r r', peekConversation sampleCached "b" "g" 2 = some r ∧
      peekConversation (SetConversationUnread sampleCached "b" "g" 2 0 0).2 "b" "g" 2 = some r' ∧
      r'.UnreadCount ≠ r.UnreadCount ∧ ¬ (r.Version < r'.Version) :=
  ⟨newConversation sampleMessage5 "b" 10,
    setUnreadFields (newConversation sampleMessage5 "b" 10) 0 0,
    by decide, by decide, by decide, by decide⟩

/-- C6, amended. For a record `r` that the lookup of `calConversation` finds and a
clock reading `now` greater than its version: the record cached afterwards is `r`
unchanged or has the version `now`, greater than before, and a message that
modifies the record does leave such a record in the cache.  `SetConversationUnread`
sets `UnreadCount` (and `OffsetMsgSeq` when `messageSeq > 0`) of the record it finds
and leaves the version as it was. -/
theorem version_after_mutation (cm : ConversationManager) (m : Message) (s : String)
    (now : Int) (r : Conversation) (uid c : String) (t : Nat) (r2 : Conversation)
    (unread : Int) (messageSeq : Nat) (hwf : WF cm)
    (hfound : lookupRecord cm s (effectiveChannelID m s) m.ChannelType = some r)
    (hclock : r.Version < now)
    (hfound2 : lookupRecord cm uid c t = some r2) :
    (∀ r', peekConversation (calConversation cm m s now) s (effectiveChannelID m s)
        m.ChannelType = some r' → r' = r ∨ (r'.Version = now ∧ r.Version < r'.Version)) ∧
    ((updateConversation r m s now).2 = true →
      ∃ r', peekConversation (calConversation cm m s now) s (effectiveChannelID m s)
        m.ChannelType = some r' ∧ r'.Version = now) ∧
    (∃ r', peekConversation (SetConversationUnread cm uid c t unread messageSeq).2 uid c t
        = some r' ∧
      r'.UnreadCount = unread ∧
      r'.OffsetMsgSeq = (if messageSeq > 0 then messageSeq else r2.OffsetMsgSeq) ∧
      r'.Version = r2.Version) := by
  have hp := peek_calConversation cm hwf.buckets m s now (hwf.caches s).size (hwf.keysOK s)
  have hst : calStored cm m s now
      = if (updateConversation r m s now).2 then some (updateConversation r m s now).1
        else none := by
    unfold calStored foundConversation
    rw [hfound]
  refine ⟨?_, ?_, ?_⟩
  · intro r' hr'
    rw [hp, hst] at hr'
    by_cases hm : (updateConversation r m s now).2 = true
    · simp only [hm, if_true, Option.some.injEq] at hr'
      subst hr'
      right
      have hv := updateConversation_version r m s now hm
      exact ⟨hv, by rw [hv]; exact hclock⟩
    · rw [if_neg hm] at hr'
      simp only [] at hr'
      left
      have : lookupRecord cm s (effectiveChannelID m s) m.ChannelType = some r' := by
        unfold lookupRecord
        rw [hr']
      rw [hfound] at this
      exact (Option.some.inj this).symm
  · intro hm
    rw [hp, hst]
    simp only [hm, if_true]
    exact ⟨_, rfl, updateConversation_version r m s now hm⟩
  · have hf := setUnreadFields_fields r2 unread messageSeq
    exact ⟨_, peek_SetConversationUnread cm hwf uid c t unread messageSeq r2 hfound2,
      hf.1, hf.2.1, hf.2.2.1⟩

/-- C6, amended, at the cached record of `b` for the group `g`. -/
theorem version_after_mutation_witness :
    (∀ r', peekConversation (calConversation sampleCached sampleMessage3 "b" 11) "b"
        (effectiveChannelID sampleMessage3 "b") sampleMessage3.ChannelType = some r' →
        r' = newConversation sampleMessage5 "b" 10 ∨
          (r'.Version = 11 ∧ (newConversation sampleMessage5 "b" 10).Version < r'.Version)) ∧
    ((updateConversation (newConversation sampleMessage5 "b" 10) sampleMessage3 "b" 11).2 = true →
      ∃ r', peekConversation (calConversation sampleCached sampleMessage3 "b" 11) "b"
        (effectiveChannelID sampleMessage3 "b") sampleMessage3.ChannelType = some r' ∧
        r'.Version = 11) ∧
    (∃ r', peekConversation (SetConversationUnread sampleCached "b" "g" 2 0 4).2 "b" "g" 2
        = some r' ∧
      r'.UnreadCount = 0 ∧
      r'.OffsetMsgSeq = (if 4 > 0 then 4 else (newConversation sampleMessage5 "b" 10).OffsetMsgSeq) ∧
      r'.Version = (newConversation sampleMessage5 "b" 10).Version) :=
  version_after_mutation sampleCached sampleMessage3 "b" 11 (newConversation sampleMessage5 "b" 10)
    "b" "g" 2 (newConversation sampleMessage5 "b" 10) 0 4
    (calConversation_WF _ (NewConversationManager_WF _ 3 0 _ (by decide)) _ _ _)
    (by decide) (by decide) (by decide)

/-! ## The filter of GetConversations -/

theorem mem_sortConversations (l : List (Bool × Conversation)) (x : Bool × Conversation) :
    x ∈ sortConversations l ↔ x ∈ l :=
  (List.perm_insertionSort _ l).mem_iff

theorem channelInLarges_iff (channelID : String) (channelType : Nat) (larges : List Channel) :
    channelInLarges channelID channelType larges = true ↔
      ∃ ch ∈ larges, ch.ChannelID = channelID ∧ ch.ChannelType = channelType := by
  unfold channelInLarges
  cases larges with
  | nil => simp
  | cons a l => simp [List.any_eq_true]

theorem keepConversation_iff (version : Int) (larges : List Channel) (r : Conversation) :
    keepConversation version larges r = true ↔
      (version ≤ 0 ∨ r.Version > version ∨
        ∃ ch ∈ larges, ch.ChannelID = r.ChannelID ∧ ch.ChannelType = r.ChannelType) := by
  unfold keepConversation
  simp only [Bool.or_eq_true, decide_eq_true_eq, channelInLarges_iff, or_assoc]

theorem GetConversations_of_ok (cm : ConversationManager) (uid : String) (version : Int)
    (larges : List Channel) (old : List Conversation)
    (hstore : cm.store.GetConversations uid = .ok old) :
    (GetConversations cm uid version larges).1
      = (sortConversations ((mergeConversations old (getConversationsFromCache cm uid).1).filter
          (fun c => keepConversation version larges c.2))).map (fun c => c.2) := by
  unfold GetConversations GetConversationsTagged
  simp only [hstore]

/-- C7. When the store returns its list for `uid`, a record of the merged list
(store list and cached list) is in the result of `GetConversations` if and only if
`version ≤ 0`, or the record's version is greater than `version`, or its channel is
in `larges`. -/
theorem GetConversations_filter (cm : ConversationManager) (uid : String) (version : Int)
    (larges : List Channel) (old : List Conversation) (r : Conversation)
    (hstore : cm.store.GetConversations uid = .ok old)
    (hr : r ∈ (mergeConversations old (getConversationsFromCache cm uid).1).map (fun c => c.2)) :
    r ∈ (GetConversations cm uid version larges).1 ↔
      (version ≤ 0 ∨ r.Version > version ∨
        ∃ ch ∈ larges, ch.ChannelID = r.ChannelID ∧ ch.ChannelType = r.ChannelType) := by
  rw [GetConversations_of_ok cm uid version larges old hstore, ← keepConversation_iff]
  simp only [List.mem_map, mem_sortConversations, List.mem_filter]
  constructor
  · rintro ⟨x, ⟨_, hk⟩, rfl⟩
    exact hk
  · intro hk
    obtain ⟨x, hx, rfl⟩ := List.mem_map.1 hr
    exact ⟨x, ⟨hx, hk⟩, rfl⟩

/-- C7 at a record of version 10 and a request with version 100: the record is
returned when its channel is in `larges`, and not returned otherwise. -/
theorem GetConversations_filter_witness :
    (newConversation sampleMessage5 "b" 10 ∈
        (GetConversations sampleFlushed "b" 100 [{ ChannelID := "g", ChannelType := 2 }]).1 ↔
      ((100 : Int) ≤ 0 ∨ (newConversation sampleMessage5 "b" 10).Version > 100 ∨
        ∃ ch ∈ [({ ChannelID := "g", ChannelType := 2 } : Channel)],
          ch.ChannelID = (newConversation sampleMessage5 "b" 10).ChannelID ∧
          ch.ChannelType = (newConversation sampleMessage5 "b" 10).ChannelType)) ∧
    (GetConversations sampleFlushed "b" 100 [{ ChannelID := "g", ChannelType := 2 }]).1
      = [newConversation sampleMessage5 "b" 10] ∧
    (GetConversations sampleFlushed "b" 100 []).1 = [] :=
  ⟨GetConversations_filter sampleFlushed "b" 100 [{ ChannelID := "g", ChannelType := 2 }]
    [newConversation sampleMessage5 "b" 10] (newConversation sampleMessage5 "b" 10)
    (by rfl) (by decide), by decide, by decide⟩

/-! ## The merge of GetConversations -/

theorem sameChannel_iff (a b : Conversation) :
    (a.ChannelID == b.ChannelID && a.ChannelType == b.ChannelType) = true ↔ chan a = chan b := by
  unfold chan
  simp

theorem set_findIdx_map (u : Conversation) (f : Conversation → Bool × Conversation)
    (x : Bool × Conversation) (old : List Conversation) :
    ∀ i, (old.map chan).Nodup →
      old.findIdx? (fun c => c.ChannelID == u.ChannelID && c.ChannelType == u.ChannelType)
        = some i →
      (old.map f).set i x = old.map (fun o => if chan o = chan u then x else f o) := by
  induction old with
  | nil => intro i _ h; simp at h
  | cons a l ih =>
    intro i hnd hi
    simp only [List.map_cons, List.nodup_cons] at hnd
    rw [List.findIdx?_cons] at hi
    by_cases hp : (a.ChannelID == u.ChannelID && a.ChannelType == u.ChannelType) = true
    · simp only [hp, if_true, Option.some.injEq] at hi
      subst hi
      have hau := (sameChannel_iff a u).1 hp
      simp only [List.map_cons, List.set_cons_zero, hau, if_true, List.cons.injEq, true_and]
      apply List.map_congr_left
      intro b hb
      have : chan b ≠ chan u := by
        intro hbu
        exact hnd.1 (List.mem_map.2 ⟨b, hb, hbu.trans hau.symm⟩)
      simp only [this, if_false]
    · simp only [hp] at hi
      have hau : chan a ≠ chan u := fun h => hp ((sameChannel_iff a u).2 h)
      simp only [Bool.false_eq_true, if_false, Nat.zero_add, List.findIdx?_succ,
        Option.map_eq_some'] at hi
      obtain ⟨j, hj, rfl⟩ := hi
      simp only [List.map_cons, List.set_cons_succ, hau, if_false, List.cons.injEq, true_and]
      exact ih j hnd.2 hj

theorem findIdx_none_chan (u : Conversation) (old : List Conversation)
    (h : old.findIdx? (fun c => c.ChannelID == u.ChannelID && c.ChannelType == u.ChannelType)
      = none) : chan u ∉ old.map chan := by
  rw [List.findIdx?_eq_none_iff] at h
  intro hm
  obtain ⟨o, ho, hou⟩ := List.mem_map.1 hm
  have := h o ho
  rw [(sameChannel_iff o u).2 hou] at this
  exact absurd this (by decide)

theorem findIdx_some_chan (u : Conversation) (old : List Conversation) (i : Nat)
    (h : old.findIdx? (fun c => c.ChannelID == u.ChannelID && c.ChannelType == u.ChannelType)
      = some i) : i < old.length ∧ chan u ∈ old.map chan := by
  rw [List.findIdx?_eq_some_iff_getElem] at h
  obtain ⟨hi, hp, _⟩ := h
  refine ⟨hi, List.mem_map.2 ⟨old[i], List.getElem_mem _, ?_⟩⟩
  exact (sameChannel_iff _ u).1 hp

theorem mergeStep_spec (old done : List Conversation) (u : Conversation)
    (hold : (old.map chan).Nodup) (hu : chan u ∉ done.map chan) :
    mergeStep old (mergedSpec old done) u = mergedSpec old (done ++ [u]) := by
  have hfind : ∀ o : Conversation,
      (match (done ++ [u]).find? (fun v => decide (chan v = chan o)) with
        | some v => (true, v)
        | none => (false, o))
      = if chan o = chan u then (true, u)
        else (match done.find? (fun v => decide (chan v = chan o)) with
          | some v => (true, v)
          | none => (false, o)) := by
    intro o
    rw [List.find?_append]
    by_cases hou : chan o = chan u
    · have hnone : done.find? (fun v => decide (chan v = chan o)) = none := by
        rw [List.find?_eq_none]
        intro v hv hvo
        simp only [decide_eq_true_eq] at hvo
        exact hu (List.mem_map.2 ⟨v, hv, hvo.trans hou⟩)
      rw [hou] at hnone
      simp [hnone, hou]
    · have hne : ¬ chan u = chan o := fun h => hou h.symm
      cases hd : done.find? (fun v => decide (chan v = chan o)) with
      | some v => simp [hou]
      | none => simp [hou, hne]
  unfold mergeStep
  cases hi : old.findIdx? (fun c =>
      c.ChannelID == u.ChannelID && c.ChannelType == u.ChannelType) with
  | some i =>
    have hic := findIdx_some_chan u old i hi
    simp only []
    unfold mergedSpec
    rw [List.set_append_left _ _ (by simpa using hic.1), set_findIdx_map u _ _ old i hold hi]
    congr 1
    · apply List.map_congr_left
      intro o _
      exact (hfind o).symm
    · simpa [List.filter_append] using hic.2
  | none =>
    have hnc := findIdx_none_chan u old hi
    simp only []
    unfold mergedSpec
    rw [List.filter_append, List.map_append, ← List.append_assoc]
    congr 1
    · congr 1
      apply List.map_congr_left
      intro o ho
      rw [hfind o]
      have : chan o ≠ chan u := fun h => hnc (List.mem_map.2 ⟨o, ho, h⟩)
      simp only [this, if_false]
    · have hnc2 : decide (chan u ∉ old.map chan) = true := by simpa using hnc
      rw [List.filter_cons, if_pos hnc2]
      rfl

theorem mergeConversations_fold (old : List Conversation) (hold : (old.map chan).Nodup)
    (rest : List Conversation) :
    ∀ done, ((done ++ rest).map chan).Nodup →
      rest.foldl (mergeStep old) (mergedSpec old done) = mergedSpec old (done ++ rest) := by
  induction rest with
  | nil => intro done _; simp
  | cons u rest ih =>
    intro done hnd
    have hu : chan u ∉ done.map chan := by
      simp only [List.map_append, List.map_cons] at hnd
      have := (List.nodup_append.1 hnd).2.2
      intro hm
      exact this hm (List.mem_cons_self _ _)
    rw [List.foldl_cons, mergeStep_spec old done u hold hu]
    have := ih (done ++ [u]) (by simpa using hnd)
    simpa using this

theorem mergeConversations_eq_spec (old cached : List Conversation)
    (hold : (old.map chan).Nodup) (hcached : (cached.map chan).Nodup) :
    mergeConversations old cached = mergedSpec old cached := by
  have h := mergeConversations_fold old hold cached [] (by simpa using hcached)
  have h0 : mergedSpec old [] = old.map (fun c => (false, c)) := by
    unfold mergedSpec
    simp
  rw [h0] at h
  simpa using h

/-! ## The result of GetConversations -/

theorem eq_of_chan_eq (l : List Conversation) (hnd : (l.map chan).Nodup) (a b : Conversation)
    (ha : a ∈ l) (hb : b ∈ l) (h : chan a = chan b) : a = b :=
  List.inj_on_of_nodup_map hnd ha hb h

theorem mergedSpec_snd (old cached : List Conversation) :
    (mergedSpec old cached).map (fun c => c.2)
      = old.map (fun o => (cached.find? (fun u => decide (chan u = chan o))).getD o) ++
        cached.filter (fun u => decide (chan u ∉ old.map chan)) := by
  unfold mergedSpec
  simp only [List.map_append, List.map_map]
  congr 1
  · apply List.map_congr_left
    intro o _
    simp only [Function.comp]
    cases cached.find? (fun u => decide (chan u = chan o)) <;> rfl
  · simp [Function.comp]

theorem find_chan (cached : List Conversation) (o : Conversation) :
    chan ((cached.find? (fun u => decide (chan u = chan o))).getD o) = chan o := by
  cases h : cached.find? (fun u => decide (chan u = chan o)) with
  | none => rfl
  | some u => simpa using List.find?_some h

theorem mergedSpec_nodup (old cached : List Conversation) (hold : (old.map chan).Nodup)
    (hcached : (cached.map chan).Nodup) :
    (((mergedSpec old cached).map (fun c => c.2)).map chan).Nodup := by
  rw [mergedSpec_snd, List.map_append, List.map_map]
  have h1 : (old.map (chan ∘ fun o => (cached.find? (fun u => decide (chan u = chan o))).getD o))
      = old.map chan := by
    apply List.map_congr_left
    intro o _
    exact find_chan cached o
  rw [h1]
  refine List.nodup_append.2 ⟨hold, hcached.sublist ((List.filter_sublist _).map _), ?_⟩
  intro x hx1 hx2
  obtain ⟨u, hu, rfl⟩ := List.mem_map.1 hx2
  have := (List.mem_filter.1 hu).2
  simp only [decide_eq_true_eq] at this
  exact this hx1

theorem mergedSpec_mem (old cached : List Conversation) (hcached : (cached.map chan).Nodup)
    (r : Conversation) :
    r ∈ (mergedSpec old cached).map (fun c => c.2) ↔
      (r ∈ cached ∨ (r ∈ old ∧ chan r ∉ cached.map chan)) := by
  rw [mergedSpec_snd, List.mem_append, List.mem_map, List.mem_filter]
  constructor
  · rintro (⟨o, ho, rfl⟩ | ⟨hr, _⟩)
    · cases h : cached.find? (fun u => decide (chan u = chan o)) with
      | some u =>
        left
        simpa using List.mem_of_find?_eq_some h
      | none =>
        right
        refine ⟨by simpa using ho, ?_⟩
        rw [List.find?_eq_none] at h
        intro hm
        obtain ⟨u, hu, huo⟩ := List.mem_map.1 hm
        exact h u hu (by simpa using huo)
    · exact Or.inl hr
  · rintro (hr | ⟨hr, hnc⟩)
    · by_cases hro : chan r ∈ old.map chan
      · left
        obtain ⟨o, ho, hor⟩ := List.mem_map.1 hro
        refine ⟨o, ho, ?_⟩
        cases h : cached.find? (fun u => decide (chan u = chan o)) with
        | some u =>
          have hu := List.mem_of_find?_eq_some h
          have huo : chan u = chan o := by simpa using List.find?_some h
          simpa using eq_of_chan_eq cached hcached u r hu hr (huo.trans hor)
        | none =>
          rw [List.find?_eq_none] at h
          exact absurd (by simpa using hor.symm) (h r hr)
      · right
        exact ⟨hr, by simpa using hro⟩
    · left
      refine ⟨r, hr, ?_⟩
      have : cached.find? (fun u => decide (chan u = chan r)) = none := by
        rw [List.find?_eq_none]
        intro u hu huo
        exact hnc (List.mem_map.2 ⟨u, hu, by simpa using huo⟩)
      simp [this]

theorem GetConversations_all (cm : ConversationManager) (uid : String)
    (old : List Conversation) (hstore : cm.store.GetConversations uid = .ok old) :
    ((GetConversations cm uid 0 []).1).Perm
      ((mergeConversations old (getConversationsFromCache cm uid).1).map (fun c => c.2)) := by
  rw [GetConversations_of_ok cm uid 0 [] old hstore]
  have hf : (mergeConversations old (getConversationsFromCache cm uid).1).filter
      (fun c => keepConversation 0 [] c.2)
      = mergeConversations old (getConversationsFromCache cm uid).1 := by
    apply List.filter_eq_self.2
    intro c _
    simp [keepConversation]
  rw [hf]
  exact (List.perm_insertionSort _ _).map _

/-- C8. When the list of the store for `uid` and the cached list for `uid` hold at most
one record per channel, the result of `GetConversations(uid, 0, nil)` is, up to the
order of the final sort, the store list with every record of a cached channel
replaced at its place by the cached record, followed by the cached records of the
other channels: it holds one record per channel, namely every cached record and
every store record whose channel is not cached, and nothing else. -/
theorem GetConversations_merge (cm : ConversationManager) (uid : String)
    (old : List Conversation) (hstore : cm.store.GetConversations uid = .ok old)
    (hold : (old.map chan).Nodup)
    (hcached : ((getConversationsFromCache cm uid).1.map chan).Nodup) :
    ((GetConversations cm uid 0 []).1).Perm
        (old.map (fun o => ((getConversationsFromCache cm uid).1.find?
            (fun u => decide (chan u = chan o))).getD o) ++
          (getConversationsFromCache cm uid).1.filter
            (fun u => decide (chan u ∉ old.map chan))) ∧
      (((GetConversations cm uid 0 []).1).map chan).Nodup ∧
      ∀ r, r ∈ (GetConversations cm uid 0 []).1 ↔
        (r ∈ (getConversationsFromCache cm uid).1 ∨
          (r ∈ old ∧ chan r ∉ (getConversationsFromCache cm uid).1.map chan)) := by
  have hp := GetConversations_all cm uid old hstore
  rw [mergeConversations_eq_spec old _ hold hcached] at hp
  refine ⟨?_, ?_, ?_⟩
  · rw [← mergedSpec_snd]
    exact hp
  · exact (hp.map chan).nodup_iff.2 (mergedSpec_nodup old _ hold hcached)
  · intro r
    rw [hp.mem_iff]
    exact mergedSpec_mem old _ hcached r

/-- C8 at a store with the record of `g` and a cache with newer records of `g` and
`h`: the result holds the two cached records. -/
theorem GetConversations_merge_witness :
    (((GetConversations sampleMerged "b" 0 []).1).Perm
        ([newConversation sampleMessage5 "b" 10].map
            (fun o => ((getConversationsFromCache sampleMerged "b").1.find?
              (fun u => decide (chan u = chan o))).getD o) ++
          (getConversationsFromCache sampleMerged "b").1.filter
            (fun u => decide (chan u ∉ [newConversation sampleMessage5 "b" 10].map chan))) ∧
      (((GetConversations sampleMerged "b" 0 []).1).map chan).Nodup ∧
      ∀ r, r ∈ (GetConversations sampleMerged "b" 0 []).1 ↔
        (r ∈ (getConversationsFromCache sampleMerged "b").1 ∨
          (r ∈ [newConversation sampleMessage5 "b" 10] ∧
            chan r ∉ (getConversationsFromCache sampleMerged "b").1.map chan))) ∧
    ((GetConversations sampleMerged "b" 0 []).1.map
        (fun r => (r.ChannelID, r.UnreadCount, r.Version))) = [("h", 1, 13), ("g", 2, 12)] :=
  ⟨GetConversations_merge sampleMerged "b" [newConversation sampleMessage5 "b" 10]
    (by rfl) (by decide) (by decide), by decide⟩

/-! ## Channels and cache keys -/

theorem lookup_concat_ne {β : Type} (k : String) (e : String × β) (h : e.1 ≠ k) :
    ∀ l : List (String × β), (l ++ [e]).lookup k = l.lookup k := by
  intro l
  induction l with
  | nil =>
    have h1 : (k == e.1) = false := by simpa using fun h' : k = e.1 => h h'.symm
    obtain ⟨a, b⟩ := e
    simp only [List.nil_append, List.lookup_cons, h1, List.lookup_nil]
  | cons x l ih =>
    obtain ⟨a, b⟩ := x
    simp only [List.cons_append, List.lookup_cons, ih]

theorem LRUCache.lookup_Add_ne_evicted (c : LRUCache) (k k' : String) (v : Conversation)
    (hne : k' ≠ k) (hev : c.evictedBy k ≠ some k') :
    (c.Add k v).items.lookup k' = c.items.lookup k' := by
  have h1 : (k' == k) = false := by simpa using hne
  unfold LRUCache.evictedBy at hev
  unfold LRUCache.Add
  cases hl : c.items.lookup k with
  | some _ => simp only [List.lookup_cons, h1, LRUCache.without, lookup_filter_ne _ _ _ hne]
  | none =>
    simp only [hl] at hev
    simp only []
    by_cases hlen : ((k, v) :: c.items).length > c.size
    · simp only [hlen, if_true]
      have hlen2 : c.items.length + 1 > c.size := by simpa using hlen
      simp only [hlen2, if_true] at hev
      rcases List.eq_nil_or_concat c.items with hnil | ⟨init, e, hc⟩
      · rw [hnil]; rfl
      · rw [hc] at hev ⊢
        have hlast : (init.concat e).getLast? = some e := by simp
        rw [hlast] at hev
        have he : e.1 ≠ k' := fun h => hev (congrArg some h)
        rw [List.concat_eq_append, lookup_concat_ne k' e he]
        have : ((k, v) :: (init ++ [e])).dropLast = (k, v) :: init := by
          rw [← List.cons_append, List.dropLast_concat]
        rw [this]
        simp only [List.lookup_cons, h1]
    · simp only [hlen, if_false, List.lookup_cons, h1]

/-- C9. `getChannelKey` is injective on pairs of a channel id and a channel type;
hence `setConversationCache` for a record of one channel leaves the cached record
of every other channel of that user as it was, except for the one entry that the LRU
evicts (the oldest, when the key is new and the cache is full). -/
theorem getChannelKey_separates_channels (cm : ConversationManager) (uid : String)
    (conversation : Conversation) (c : String) (t : Nat) (h : BucketsOK cm)
    (hne : (c, t) ≠ (conversation.ChannelID, conversation.ChannelType))
    (hev : (cacheOf cm uid).evictedBy (keyOf conversation) ≠ some (getChannelKey c t)) :
    (∀ c1 t1 c2 t2, getChannelKey c1 t1 = getChannelKey c2 t2 → c1 = c2 ∧ t1 = t2) ∧
      getChannelKey c t ≠ getChannelKey conversation.ChannelID conversation.ChannelType ∧
      peekConversation (setConversationCache cm uid conversation) uid c t
        = peekConversation cm uid c t := by
  have hk : getChannelKey c t ≠ getChannelKey conversation.ChannelID conversation.ChannelType := by
    intro hk
    have := getChannelKey_injective _ _ _ _ hk
    exact hne (by rw [this.1, this.2])
  refine ⟨fun c1 t1 c2 t2 => getChannelKey_injective c1 c2 t1 t2, hk, ?_⟩
  unfold peekConversation
  rw [(setConversationCache_touches cm h uid conversation).self]
  exact LRUCache.lookup_Add_ne_evicted _ _ _ _ hk hev

/-- C9 at a cache that holds `g` and receives `h`, and two sample keys. -/
theorem getChannelKey_separates_channels_witness :
    ((∀ c1 t1 c2 t2, getChannelKey c1 t1 = getChannelKey c2 t2 → c1 = c2 ∧ t1 = t2) ∧
      getChannelKey "g" 2 ≠ getChannelKey (newConversation sampleMessageH "b" 13).ChannelID
        (newConversation sampleMessageH "b" 13).ChannelType ∧
      peekConversation (setConversationCache sampleCached "b"
          (newConversation sampleMessageH "b" 13)) "b" "g" 2
        = peekConversation sampleCached "b" "g" 2) ∧
    getChannelKey "g-1" 2 = "g-1-2" ∧ getChannelKey "g" 12 = "g-12" :=
  ⟨getChannelKey_separates_channels sampleCached "b" (newConversation sampleMessageH "b" 13)
    "g" 2 (calConversation_WF _ (NewConversationManager_WF _ 3 0 _ (by decide)) _ _ _).buckets
    (by decide) (by decide), by decide, by decide⟩

/-! ## The cached list of a user -/

theorem without_append_last (l : List (String × Conversation)) (e : String × Conversation)
    (hnd : ((l ++ [e]).map (fun x => x.1)).Nodup) :
    LRUCache.without (l ++ [e]) e.1 = l := by
  unfold LRUCache.without
  rw [List.filter_append]
  have h1 : [e].filter (fun x => x.1 != e.1) = [] := by simp
  rw [h1, List.append_nil]
  apply List.filter_eq_self.2
  intro x hx
  simp only [List.map_append, List.map_cons, List.map_nil] at hnd
  have hdis := (List.nodup_append.1 hnd).2.2
  have : x.1 ≠ e.1 := fun h =>
    hdis (List.mem_map.2 ⟨x, hx, rfl⟩) (by rw [h]; exact List.mem_cons_self _ _)
  simpa using this

theorem collectConversations_rev (sz : Nat) (rev : List (String × Conversation)) :
    ∀ done : List (String × Conversation),
      ((done ++ rev.reverse).map (fun x => x.1)).Nodup →
      collectConversations { size := sz, items := done ++ rev.reverse } (rev.map (fun x => x.1))
        = (rev.map (fun x => x.2), { size := sz, items := rev.reverse ++ done }) := by
  induction rev with
  | nil => intro done _; simp [collectConversations]
  | cons e rev ih =>
    intro done hnd
    have hitems : done ++ (e :: rev).reverse = (done ++ rev.reverse) ++ [e] := by simp
    rw [hitems] at hnd ⊢
    have hl : ((done ++ rev.reverse) ++ [e]).lookup e.1 = some e.2 :=
      lookup_of_mem_nodup _ _ _ hnd (by simp)
    have hget : LRUCache.Get { size := sz, items := (done ++ rev.reverse) ++ [e] } e.1
        = (some e.2, { size := sz, items := (e :: done) ++ rev.reverse }) := by
      unfold LRUCache.Get
      simp only [hl]
      rw [without_append_last _ e hnd]
      rfl
    have hnd2 : (((e :: done) ++ rev.reverse).map (fun x => x.1)).Nodup := by
      have hperm : ((e :: done) ++ rev.reverse).Perm ((done ++ rev.reverse) ++ [e]) := by
        rw [List.cons_append]
        exact (List.perm_append_singleton e _).symm
      exact (hperm.map _).nodup_iff.2 hnd
    have := ih (e :: done) hnd2
    simp only [List.map_cons, collectConversations, hget, this]
    simp

theorem collectConversations_Keys (c : LRUCache) (h : c.WF) :
    collectConversations c c.Keys = (c.items.reverse.map (fun x => x.2), c) := by
  have := collectConversations_rev c.size c.items.reverse [] (by simpa using h.nodup)
  simpa [LRUCache.Keys, List.map_reverse] using this

theorem getConversationsFromCache_fst (cm : ConversationManager) (h : WF cm) (uid : String) :
    (getConversationsFromCache cm uid).1 = (cacheOf cm uid).items.reverse.map (fun x => x.2) := by
  unfold getConversationsFromCache
  simp only [getUserCache_fst, collectConversations_Keys _ (h.caches uid)]

theorem getConversationsFromCache_touches (cm : ConversationManager) (h : WF cm)
    (uid : String) :
    Touches cm uid (cacheOf cm uid) cm.needSaveConversationMap
      (getConversationsFromCache cm uid).2 := by
  have := touches_put_get cm h.buckets uid (cacheOf cm uid)
  unfold getConversationsFromCache
  simpa only [getUserCache_fst, collectConversations_Keys _ (h.caches uid)] using this

theorem getConversationsFromCache_WF (cm : ConversationManager) (h : WF cm) (uid : String) :
    WF (getConversationsFromCache cm uid).2 :=
  (getConversationsFromCache_touches cm h uid).wf h (h.caches uid)

/-! ## Writing the store -/

theorem find_map_replace (q p : String × Conversation → Bool) (y : String × Conversation)
    (hy : q y = false) (hp : ∀ x, p x = true → q x = false) :
    ∀ rows : List (String × Conversation),
      (rows.map (fun e => if p e then y else e)).find? q = rows.find? q := by
  intro rows
  induction rows with
  | nil => rfl
  | cons x rows ih =>
    by_cases hx : p x = true
    · simp only [List.map_cons, hx, if_true, List.find?_cons, hy, hp x hx, ih]
    · simp only [List.map_cons, hx, List.find?_cons, ih]
      rfl

theorem find_upsert_ne (rows : List (String × Conversation)) (uid : String) (r : Conversation)
    (u c : String) (t : Nat) (h : (u, c, t) ≠ (uid, r.ChannelID, r.ChannelType)) :
    (Store.upsert rows uid r).find? (Store.rowMatches u c t)
      = rows.find? (Store.rowMatches u c t) := by
  have hy : Store.rowMatches u c t (uid, r) = false := by
    unfold Store.rowMatches
    by_contra hc
    simp only [Bool.not_eq_false, Bool.and_eq_true, beq_iff_eq] at hc
    exact h (by rw [hc.1.1, hc.1.2, hc.2])
  have hp : ∀ x, Store.rowMatches uid r.ChannelID r.ChannelType x = true →
      Store.rowMatches u c t x = false := by
    intro x hx
    unfold Store.rowMatches at hx ⊢
    simp only [Bool.and_eq_true, beq_iff_eq] at hx
    by_contra hc
    simp only [Bool.not_eq_false, Bool.and_eq_true, beq_iff_eq] at hc
    exact h (by rw [← hc.1.1, ← hc.1.2, ← hc.2, hx.1.1, hx.1.2, hx.2])
  unfold Store.upsert
  split
  · exact find_map_replace _ _ _ hy hp rows
  · rw [List.find?_append]
    simp [List.find?_cons, hy]

theorem find_upsert_self (rows : List (String × Conversation)) (uid : String)
    (r : Conversation) :
    (Store.upsert rows uid r).find? (Store.rowMatches uid r.ChannelID r.ChannelType)
      = some (uid, r) := by
  have hy : Store.rowMatches uid r.ChannelID r.ChannelType (uid, r) = true := by
    unfold Store.rowMatches
    simp
  unfold Store.upsert
  by_cases hany : rows.any (Store.rowMatches uid r.ChannelID r.ChannelType) = true
  · simp only [hany, if_true]
    induction rows with
    | nil => simp at hany
    | cons x rows ih =>
      by_cases hx : Store.rowMatches uid r.ChannelID r.ChannelType x = true
      · simp only [List.map_cons, hx, if_true, List.find?_cons, hy]
      · simp only [List.any_cons, hx, Bool.false_or] at hany
        have hx2 : Store.rowMatches uid r.ChannelID r.ChannelType x = false := by simpa using hx
        simp only [List.map_cons, hx2, List.find?_cons, Bool.false_eq_true, if_false]
        exact ih hany
  · simp only [hany, Bool.false_eq_true, if_false]
    have hnone : rows.find? (Store.rowMatches uid r.ChannelID r.ChannelType) = none := by
      rw [List.find?_eq_none]
      intro x hx hm
      exact hany (List.any_eq_true.2 ⟨x, hx, hm⟩)
    rw [List.find?_append, hnone]
    simp [List.find?_cons, hy]

theorem find_upsertAll_ne (uid u c : String) (t : Nat) (l : List Conversation) :
    ∀ rows, (∀ r ∈ l, (u, c, t) ≠ (uid, r.ChannelID, r.ChannelType)) →
      (upsertAll rows uid l).find? (Store.rowMatches u c t)
        = rows.find? (Store.rowMatches u c t) := by
  induction l with
  | nil => intro rows _; rfl
  | cons a l ih =>
    intro rows h
    show (upsertAll (Store.upsert rows uid a) uid l).find? _ = _
    rw [ih _ (fun r hr => h r (List.mem_cons_of_mem _ hr)),
      find_upsert_ne rows uid a u c t (h a (List.mem_cons_self _ _))]

theorem find_upsertAll_self (uid : String) (l : List Conversation) :
    ∀ rows, (l.map chan).Nodup → ∀ r ∈ l,
      (upsertAll rows uid l).find? (Store.rowMatches uid r.ChannelID r.ChannelType)
        = some (uid, r) := by
  induction l with
  | nil => intro rows _ r hr; simp at hr
  | cons a l ih =>
    intro rows hnd r hr
    simp only [List.map_cons, List.nodup_cons] at hnd
    show (upsertAll (Store.upsert rows uid a) uid l).find? _ = _
    rcases List.mem_cons.1 hr with rfl | hr
    · rw [find_upsertAll_ne uid uid r.ChannelID r.ChannelType l _ ?_, find_upsert_self]
      intro x hx hc
      simp only [Prod.mk.injEq, true_and] at hc
      exact hnd.1 (List.mem_map.2 ⟨x, hx, by unfold chan; rw [hc.1, hc.2]⟩)
    · exact ih _ hnd.2 r hr

theorem cachedList_nodup (c : LRUCache) (h : c.WF) :
    ((c.items.reverse.map (fun x => x.2)).map chan).Nodup := by
  have h1 : c.items.map (fun e => e.1)
      = (c.items.map (fun e => chan e.2)).map (fun p => getChannelKey p.1 p.2) := by
    rw [List.map_map]
    apply List.map_congr_left
    intro e he
    exact h.keys e he
  have h2 : (c.items.map (fun e => chan e.2)).Nodup := by
    have := h.nodup
    rw [h1] at this
    exact List.Nodup.of_map _ this
  rw [List.map_map, List.map_reverse]
  exact List.nodup_reverse.2 h2

/-! ## Flushing one user -/

theorem removeExpired_spec (uid : String) (now : Int) (l : List Conversation) :
    ∀ cm, WF cm →
      WF (removeExpired cm uid now l) ∧ (removeExpired cm uid now l).store = cm.store ∧
      (removeExpired cm uid now l).needSaveConversationMap = cm.needSaveConversationMap ∧
      ∀ u, u ≠ uid → cacheOf (removeExpired cm uid now l) u = cacheOf cm u := by
  induction l with
  | nil => intro cm h; exact ⟨h, rfl, rfl, fun _ _ => rfl⟩
  | cons c l ih =>
    intro cm h
    by_cases he : isExpired cm c now = true
    · have ht := deleteConversationCache_touches cm h.buckets uid c.ChannelID c.ChannelType
      have hwf := ht.wf h (LRUCache.Remove_WF _ (h.caches uid) _)
      have h2 := ih _ hwf
      have hstep : removeExpired cm uid now (c :: l)
          = removeExpired (deleteConversationCache cm uid c.ChannelID c.ChannelType) uid now l := by
        unfold removeExpired
        simp only [List.foldl_cons, he, if_true]
      rw [hstep]
      exact ⟨h2.1, h2.2.1.trans ht.env.1, h2.2.2.1.trans ht.dirty,
        fun u hu => (h2.2.2.2 u hu).trans (ht.other u hu)⟩
    · have hstep : removeExpired cm uid now (c :: l) = removeExpired cm uid now l := by
        unfold removeExpired
        simp only [List.foldl_cons, he]
        rfl
      rw [hstep]
      exact ih cm h

/-- What `flushUserConversations` does when the write of the store succeeds. -/
theorem flushUserConversations_spec (cm : ConversationManager) (h : WF cm) (uid : String)
    (now : Int) (hok : uid ∉ cm.store.writeErr) :
    WF (flushUserConversations cm uid now) ∧
      (flushUserConversations cm uid now).store.conversations
        = upsertAll cm.store.conversations uid (getConversationsFromCache cm uid).1 ∧
      (flushUserConversations cm uid now).store.writeErr = cm.store.writeErr ∧
      ∀ u, u ≠ uid → cacheOf (flushUserConversations cm uid now) u = cacheOf cm u := by
  have ht := getConversationsFromCache_touches cm h uid
  have hwf1 := getConversationsFromCache_WF cm h uid
  have hs : (getConversationsFromCache cm uid).2.store = cm.store := ht.env.1
  unfold flushUserConversations
  simp only []
  by_cases hlen : ((getConversationsFromCache cm uid).1.length == 0) = true
  · simp only [hlen, if_true]
    have hnil : (getConversationsFromCache cm uid).1 = [] := by
      simpa using hlen
    refine ⟨hwf1, ?_, by rw [hs], ht.other⟩
    rw [hnil, hs]
    rfl
  · simp only [hlen, Bool.false_eq_true, if_false]
    have hw : (getConversationsFromCache cm uid).2.store.AddOrUpdateConversations uid
        (getConversationsFromCache cm uid).1
        = .ok { cm.store with
          conversations := upsertAll cm.store.conversations uid
            (getConversationsFromCache cm uid).1 } := by
      unfold Store.AddOrUpdateConversations
      rw [hs]
      simp only [hok, if_false]
      rfl
    simp only [hw]
    have hwf2 : WF { (getConversationsFromCache cm uid).2 with
        store := { cm.store with
          conversations := upsertAll cm.store.conversations uid
            (getConversationsFromCache cm uid).1 }
        needSaveConversationMap :=
          (getConversationsFromCache cm uid).2.needSaveConversationMap.filter
            (fun u => u != uid) } :=
      ⟨hwf1.buckets, hwf1.maxCount, hwf1.caches⟩
    have h3 := removeExpired_spec uid now (getConversationsFromCache cm uid).1 _ hwf2
    refine ⟨h3.1, ?_, ?_, ?_⟩
    · have := congrArg Store.conversations h3.2.1
      exact this
    · have := congrArg Store.writeErr h3.2.1
      exact this
    · intro u hu
      exact (h3.2.2.2 u hu).trans (ht.other u hu)

/-! ## Flushing the dirty set -/

theorem flush_fold (now : Int) (uids : List String) :
    ∀ cm, WF cm → uids.Nodup → (∀ u ∈ uids, u ∉ cm.store.writeErr) →
      WF (uids.foldl (fun cm uid => flushUserConversations cm uid now) cm) ∧
      (uids.foldl (fun cm uid => flushUserConversations cm uid now) cm).store.writeErr
        = cm.store.writeErr ∧
      (∀ u ∈ uids, ∀ r ∈ (getConversationsFromCache cm u).1,
        (uids.foldl (fun cm uid => flushUserConversations cm uid now) cm).store.conversations.find?
          (Store.rowMatches u r.ChannelID r.ChannelType) = some (u, r)) ∧
      (∀ u, u ∉ uids →
        cacheOf (uids.foldl (fun cm uid => flushUserConversations cm uid now) cm) u
          = cacheOf cm u ∧
        ∀ c t,
          (uids.foldl (fun cm uid => flushUserConversations cm uid now)
            cm).store.conversations.find? (Store.rowMatches u c t)
            = cm.store.conversations.find? (Store.rowMatches u c t)) := by
  induction uids with
  | nil => intro cm h _ _; exact ⟨h, rfl, fun u hu => by simp at hu, fun u _ => ⟨rfl, fun _ _ => rfl⟩⟩
  | cons a rest ih =>
    intro cm h hnd hok
    simp only [List.nodup_cons] at hnd
    have hs := flushUserConversations_spec cm h a now (hok a (List.mem_cons_self _ _))
    have hok1 : ∀ u ∈ rest, u ∉ (flushUserConversations cm a now).store.writeErr := by
      intro u hu
      rw [hs.2.2.1]
      exact hok u (List.mem_cons_of_mem _ hu)
    have h2 := ih (flushUserConversations cm a now) hs.1 hnd.2 hok1
    simp only [List.foldl_cons]
    refine ⟨h2.1, h2.2.1.trans hs.2.2.1, ?_, ?_⟩
    · intro u hu r hr
      rcases List.mem_cons.1 hu with rfl | hu2
      · rw [(h2.2.2.2 u hnd.1).2, hs.2.1]
        apply find_upsertAll_self
        · rw [getConversationsFromCache_fst cm h u]
          exact cachedList_nodup _ (h.caches u)
        · exact hr
      · have hne : u ≠ a := by
          intro hua
          rw [hua] at hu2
          exact hnd.1 hu2
        apply h2.2.2.1 u hu2 r
        rw [getConversationsFromCache_fst _ hs.1 u, hs.2.2.2 u hne,
          ← getConversationsFromCache_fst cm h u]
        exact hr
    · intro u hu
      have hne : u ≠ a := fun h' => hu (by rw [h']; exact List.mem_cons_self _ _)
      have hr : u ∉ rest := fun h' => hu (List.mem_cons_of_mem _ h')
      refine ⟨((h2.2.2.2 u hr).1).trans (hs.2.2.2 u hne), ?_⟩
      intro c t
      rw [(h2.2.2.2 u hr).2, hs.2.1]
      apply find_upsertAll_ne
      intro x _ hc
      simp only [Prod.mk.injEq] at hc
      exact hne hc.1

/-- C10. With a store whose write succeeds for every dirty uid, after
`FlushConversations` the store holds, for every uid of the dirty set and every record
cached for that uid when the flush began, a row of that uid and channel equal to the
cached record. -/
theorem FlushConversations_store (cm : ConversationManager) (now : Int) (hwf : WF cm)
    (hdirty : cm.needSaveConversationMap.Nodup)
    (hok : ∀ uid ∈ cm.needSaveConversationMap, uid ∉ cm.store.writeErr)
    (uid : String) (r : Conversation) (huid : uid ∈ cm.needSaveConversationMap)
    (hr : r ∈ (getConversationsFromCache cm uid).1) :
    (FlushConversations cm now).store.conversations.find?
        (Store.rowMatches uid r.ChannelID r.ChannelType) = some (uid, r) :=
  (flush_fold now cm.needSaveConversationMap cm hwf hdirty hok).2.2.1 uid huid r hr

theorem FlushConversations_WF (cm : ConversationManager) (now : Int) (hwf : WF cm)
    (hdirty : cm.needSaveConversationMap.Nodup)
    (hok : ∀ uid ∈ cm.needSaveConversationMap, uid ∉ cm.store.writeErr) :
    WF (FlushConversations cm now) :=
  (flush_fold now cm.needSaveConversationMap cm hwf hdirty hok).1

theorem sampleCached_WF : WF sampleCached :=
  calConversation_WF _ (NewConversationManager_WF _ 3 0 _ (by decide)) _ _ _

theorem sampleMerged_WF : WF sampleMerged :=
  calConversation_WF _ (calConversation_WF _
    (FlushConversations_WF sampleCached 0 sampleCached_WF (by decide) (by decide)) _ _ _) _ _ _

/-- C10 at a dirty user with two cached records: both are rows of the store after
the flush. -/
theorem FlushConversations_store_witness :
    (FlushConversations sampleMerged 0).store.conversations.find?
        (Store.rowMatches "b" (newConversation sampleMessageH "b" 13).ChannelID
          (newConversation sampleMessageH "b" 13).ChannelType)
      = some ("b", newConversation sampleMessageH "b" 13) ∧
    (FlushConversations sampleMerged 0).store.conversations.map
        (fun row => (row.1, row.2.ChannelID, row.2.UnreadCount, row.2.Version))
      = [("b", "g", 2, 12), ("b", "h", 1, 13)] :=
  ⟨FlushConversations_store sampleMerged 0 sampleMerged_WF (by decide) (by decide) "b"
    (newConversation sampleMessageH "b" 13) (by decide) (by decide), by decide⟩

/-! ## Invariants of cached records -/

theorem GoodCM.cache {P : Conversation → Prop} {cm : ConversationManager} (h : GoodCM P cm)
    (uid : String) : (cacheOf cm uid).Good P :=
  ⟨h.1.caches uid, h.2 uid⟩

theorem GoodCM.mono {P Q : Conversation → Prop} {cm : ConversationManager} (h : GoodCM P cm)
    (hpq : ∀ r, P r → Q r) : GoodCM Q cm :=
  ⟨h.1, fun uid e he => hpq _ (h.2 uid e he)⟩

theorem Touches.good {P : Conversation → Prop} {cm cm' : ConversationManager} {uid : String}
    {c : LRUCache} {d : List String} (ht : Touches cm uid c d cm') (h : GoodCM P cm)
    (hc : c.Good P) : GoodCM P cm' := by
  refine ⟨ht.wf h.1 hc.1, ?_⟩
  intro u e he
  by_cases hu : u = uid
  · subst hu
    rw [ht.self] at he
    exact hc.2 e he
  · rw [ht.other u hu] at he
    exact h.2 u e he

theorem LRUCache.Get_good {P : Conversation → Prop} (c : LRUCache) (h : c.Good P) (k : String) :
    (c.Get k).2.Good P := by
  refine ⟨LRUCache.Get_WF c h.1 k, ?_⟩
  unfold LRUCache.Get
  cases hl : c.items.lookup k with
  | none => exact h.2
  | some v =>
    intro e he
    rcases List.mem_cons.1 he with he | he
    · subst he
      exact h.2 _ (lookup_some_mem _ _ _ hl)
    · exact h.2 e ((without_sublist _ _).subset he)

theorem LRUCache.Add_good {P : Conversation → Prop} (c : LRUCache) (h : c.Good P) (k : String)
    (v : Conversation) (hk : k = keyOf v) (hv : P v) : (c.Add k v).Good P := by
  refine ⟨LRUCache.Add_WF c h.1 k v hk, ?_⟩
  have hcons : ∀ e ∈ (k, v) :: c.items, P e.2 := by
    intro e he
    rcases List.mem_cons.1 he with he | he
    · subst he; exact hv
    · exact h.2 e he
  unfold LRUCache.Add
  cases hl : c.items.lookup k with
  | some _ =>
    intro e he
    rcases List.mem_cons.1 he with he | he
    · subst he; exact hv
    · exact h.2 e ((without_sublist _ _).subset he)
  | none =>
    simp only []
    split
    · intro e he
      exact hcons e ((List.dropLast_sublist _).subset he)
    · exact hcons

theorem LRUCache.update_good {P : Conversation → Prop} (c : LRUCache) (h : c.Good P)
    (k : String) (v : Conversation) (hk : k = keyOf v) (hv : P v) : (c.update k v).Good P := by
  refine ⟨LRUCache.update_WF c h.1 k v hk, ?_⟩
  intro e he
  unfold LRUCache.update at he
  simp only [List.mem_map] at he
  obtain ⟨e0, he0, rfl⟩ := he
  by_cases hk0 : (e0.1 == k) = true
  · simp only [hk0, if_true]
    exact hv
  · simp only [hk0]
    exact h.2 e0 he0

theorem peek_good {P : Conversation → Prop} {cm : ConversationManager} (h : GoodCM P cm)
    (uid c : String) (t : Nat) (r : Conversation) (hp : peekConversation cm uid c t = some r) :
    P r :=
  h.2 uid _ (lookup_some_mem _ _ _ hp)

theorem store_good {P : Conversation → Prop} (st : Store)
    (hst : ∀ row ∈ st.conversations, P row.2) (uid c : String) (t : Nat) (r : Conversation)
    (h : st.GetConversation uid c t = .ok (some r)) : P r := by
  unfold Store.GetConversation at h
  by_cases he : st.readErr = true
  · simp [he] at h
  · simp only [he] at h
    cases hf : st.conversations.find? (Store.rowMatches uid c t) with
    | none => simp [hf] at h
    | some e =>
      simp [hf] at h
      subst h
      exact hst e (List.mem_of_find?_eq_some hf)

theorem lookupRecord_good {P : Conversation → Prop} {cm : ConversationManager}
    (h : GoodCM P cm) (hst : ∀ row ∈ cm.store.conversations, P row.2) (uid c : String) (t : Nat)
    (r : Conversation) (hl : lookupRecord cm uid c t = some r) : P r := by
  unfold lookupRecord at hl
  cases hp : peekConversation cm uid c t with
  | some x =>
    simp only [hp, Option.some.injEq] at hl
    subst hl
    exact peek_good h uid c t _ hp
  | none =>
    simp only [hp] at hl
    cases hg : cm.store.GetConversation uid c t with
    | error e => simp [hg] at hl
    | ok o =>
      simp only [hg] at hl
      subst hl
      exact store_good _ hst uid c t _ hg

/-! ## Invariants through the operations -/

theorem calConversation_good {P Q : Conversation → Prop} (cm : ConversationManager)
    (m : Message) (s : String) (now : Int) (h : GoodCM P cm)
    (hst : ∀ row ∈ cm.store.conversations, P row.2) (hpq : ∀ r, P r → Q r)
    (hnew : Q (newConversation m s now))
    (hupd : ∀ r, P r → Q (updateConversation r m s now).1) :
    GoodCM Q (calConversation cm m s now) ∧ (calConversation cm m s now).store = cm.store := by
  have ht := calConversation_touches cm h.1.buckets m s now
  refine ⟨ht.good (h.mono hpq) ?_, ht.env.1⟩
  have h1 := LRUCache.Get_good _ ((h.mono hpq).cache s)
    (getChannelKey (effectiveChannelID m s) m.ChannelType)
  unfold calCache
  cases hs : calStored cm m s now with
  | none => exact h1
  | some r =>
    simp only []
    apply LRUCache.Add_good _ h1 _ _ rfl
    unfold calStored at hs
    cases hf : foundConversation cm m s with
    | none =>
      simp only [hf, Option.some.injEq] at hs
      subst hs
      exact hnew
    | some r0 =>
      simp only [hf] at hs
      by_cases hm : (updateConversation r0 m s now).2 = true
      · simp only [hm, if_true, Option.some.injEq] at hs
        subst hs
        exact hupd r0 (lookupRecord_good h hst _ _ _ _ hf)
      · simp [hm] at hs

theorem AddOrUpdateConversation_good {Q : Conversation → Prop} (cm : ConversationManager)
    (uid : String) (v : Conversation) (h : GoodCM Q cm) (hv : Q v) :
    GoodCM Q (AddOrUpdateConversation cm uid v) ∧
      (AddOrUpdateConversation cm uid v).store = cm.store := by
  have ht := AddOrUpdateConversation_touches cm h.1.buckets uid v
  exact ⟨ht.good h (LRUCache.Add_good _ (h.cache uid) _ _ rfl hv), ht.env.1⟩

theorem SetConversationUnread_good {Q : Conversation → Prop} (cm : ConversationManager)
    (uid c : String) (t : Nat) (unread : Int) (messageSeq : Nat) (h : GoodCM Q cm)
    (hv : ∀ r, Q (setUnreadFields r unread messageSeq)) :
    GoodCM Q (SetConversationUnread cm uid c t unread messageSeq).2 ∧
      (SetConversationUnread cm uid c t unread messageSeq).2.store = cm.store := by
  have ht := SetConversationUnread_touches cm h.1.buckets uid c t unread messageSeq
  refine ⟨ht.good h ?_, ht.env.1⟩
  have h1 := LRUCache.Get_good _ (h.cache uid) (getChannelKey c t)
  unfold setUnreadCache
  cases hp : peekConversation cm uid c t with
  | some r =>
    simp only []
    apply LRUCache.update_good _ h1 _ _ _ (hv r)
    have hc := h.1.keysOK uid c t r hp
    have hf := setUnreadFields_fields r unread messageSeq
    unfold keyOf
    rw [hf.2.2.2.1, hf.2.2.2.2, hc.1, hc.2]
  | none =>
    simp only []
    cases hg : cm.store.GetConversation uid c t with
    | error e => exact h1
    | ok o =>
      cases o with
      | none => exact h1
      | some r => exact LRUCache.Add_good _ h1 _ _ rfl (hv r)

theorem getConversationsFromCache_good {Q : Conversation → Prop} (cm : ConversationManager)
    (uid : String) (h : GoodCM Q cm) :
    GoodCM Q (getConversationsFromCache cm uid).2 ∧
      (getConversationsFromCache cm uid).2.store = cm.store := by
  have ht := getConversationsFromCache_touches cm h.1 uid
  exact ⟨ht.good h (h.cache uid), ht.env.1⟩

theorem GetConversation_snd (cm : ConversationManager) (uid c : String) (t : Nat) :
    (GetConversation cm uid c t).2 = (getConversationsFromCache cm uid).2 := by
  unfold GetConversation
  simp only []
  cases (getConversationsFromCache cm uid).1.find?
      (fun x => x.ChannelID == c && x.ChannelType == t) with
  | some x => rfl
  | none =>
    simp only []
    cases (getConversationsFromCache cm uid).2.store.GetConversation uid c t <;> rfl

theorem clearConversationUnread_good {Q : Conversation → Prop} (cm : ConversationManager)
    (req : clearConversationUnreadReq) (h : GoodCM Q cm)
    (hv : ∀ r : Conversation, r.UnreadCount = 0 → Q r) :
    GoodCM Q (clearConversationUnread cm req).2 ∧
      (clearConversationUnread cm req).2.store = cm.store := by
  unfold clearConversationUnread
  cases req.Check with
  | error e => exact ⟨h, rfl⟩
  | ok _ =>
    simp only [GetConversation_snd]
    have h1 := getConversationsFromCache_good cm req.UID h
    split
    · have h2 := AddOrUpdateConversation_good (getConversationsFromCache cm req.UID).2 req.UID
        { UID := req.UID, ChannelID := req.ChannelID, ChannelType := req.ChannelType,
          UnreadCount := 0, Timestamp := 0, LastMsgSeq := 0, LastClientMsgNo := "",
          LastMsgID := 0, Version := 0, OffsetMsgSeq := req.MessageSeq } h1.1 (hv _ rfl)
      exact ⟨h2.1, h2.2.trans h1.2⟩
    · have h2 := SetConversationUnread_good (getConversationsFromCache cm req.UID).2 req.UID
        req.ChannelID req.ChannelType 0 req.MessageSeq h1.1
        (fun r => hv _ (setUnreadFields_fields r 0 req.MessageSeq).1)
      exact ⟨h2.1, h2.2.trans h1.2⟩

theorem setConversationUnread_good {Q : Conversation → Prop} (cm : ConversationManager)
    (req : setConversationUnreadReq) (h : GoodCM Q cm)
    (hv : ∀ r : Conversation, r.UnreadCount = 0 ∨ r.UnreadCount = req.Unread → Q r) :
    GoodCM Q (setConversationUnread cm req).2 ∧
      (setConversationUnread cm req).2.store = cm.store := by
  unfold setConversationUnread
  split
  · exact ⟨h, rfl⟩
  · split
    · exact ⟨h, rfl⟩
    · simp only [GetConversation_snd]
      have h1 := getConversationsFromCache_good cm req.UID h
      split
      · have h2 := AddOrUpdateConversation_good (getConversationsFromCache cm req.UID).2 req.UID
          { UID := req.UID, ChannelID := req.ChannelID, ChannelType := req.ChannelType,
            UnreadCount := 0, Timestamp := 0, LastMsgSeq := 0, LastClientMsgNo := "",
            LastMsgID := 0, Version := 0, OffsetMsgSeq := req.MessageSeq } h1.1
          (hv _ (Or.inl rfl))
        exact ⟨h2.1, h2.2.trans h1.2⟩
      · have h2 := SetConversationUnread_good (getConversationsFromCache cm req.UID).2 req.UID
          req.ChannelID req.ChannelType req.Unread req.MessageSeq h1.1
          (fun r => hv _ (Or.inr (setUnreadFields_fields r req.Unread req.MessageSeq).1))
        exact ⟨h2.1, h2.2.trans h1.2⟩

/-! ## Invariants through the sync handler -/

theorem writeCached_good {Q : Conversation → Prop} (cm : ConversationManager) (uid : String)
    (r v : Conversation) (h : GoodCM Q cm) (hk : keyOf r = keyOf v) (hv : Q v) :
    GoodCM Q (writeCached cm uid (keyOf r) v) ∧ (writeCached cm uid (keyOf r) v).store = cm.store := by
  have ht := writeCached_touches cm h.1.buckets uid (keyOf r) v
  exact ⟨ht.good h (LRUCache.update_good _ (h.cache uid) _ _ hk hv), ht.env.1⟩

theorem syncLargeChannel_good {Q : Conversation → Prop} (uid : String) (st : syncState)
    (largeChannel : Channel) (lastMessages : List Message) (h : GoodCM Q st.cm)
    (hv : ∀ r lm, Q (largeChannelUpdate r lm)) :
    GoodCM Q (syncLargeChannel uid st largeChannel lastMessages).cm ∧
      (syncLargeChannel uid st largeChannel lastMessages).cm.store = st.cm.store := by
  unfold syncLargeChannel
  simp only []
  cases st.conversations.findIdx? (fun cs =>
      cs.2.ChannelID == largeChannel.ChannelID && cs.2.ChannelType == largeChannel.ChannelType) with
  | none =>
    cases lastMessages.getLast? with
    | none => exact ⟨h, rfl⟩
    | some lm => exact ⟨h, rfl⟩
  | some idx =>
    cases lastMessages.getLast? with
    | none => exact ⟨h, rfl⟩
    | some lm =>
      simp only []
      cases st.conversations[idx]? with
      | none => exact ⟨h, rfl⟩
      | some e =>
        obtain ⟨cached, existConversation⟩ := e
        simp only []
        cases cached with
        | false => exact ⟨h, rfl⟩
        | true =>
          simp only [if_true]
          exact writeCached_good st.cm uid existConversation _ h rfl (hv _ _)

theorem syncLargeChannels_good {Q : Conversation → Prop}
    (LoadLastMsgs : String → Nat → Nat → Except String (List Message)) (uid : String)
    (hv : ∀ r lm, Q (largeChannelUpdate r lm)) (larges : List Channel) :
    ∀ st : syncState, GoodCM Q st.cm →
      GoodCM Q (syncLargeChannels LoadLastMsgs uid st larges).2.cm ∧
        (syncLargeChannels LoadLastMsgs uid st larges).2.cm.store = st.cm.store := by
  induction larges with
  | nil => intro st h; exact ⟨h, rfl⟩
  | cons ch rest ih =>
    intro st h
    unfold syncLargeChannels
    cases LoadLastMsgs ch.ChannelID ch.ChannelType 1 with
    | error e => exact ⟨h, rfl⟩
    | ok lastMessages =>
      simp only []
      have h1 := syncLargeChannel_good uid st ch lastMessages h hv
      have h2 := ih _ h1.1
      exact ⟨h2.1, h2.2.trans h1.2⟩

theorem GetConversationsTagged_good {Q : Conversation → Prop} (cm : ConversationManager)
    (uid : String) (version : Int) (larges : List Channel) (h : GoodCM Q cm) :
    GoodCM Q (GetConversationsTagged cm uid version larges).2 ∧
      (GetConversationsTagged cm uid version larges).2.store = cm.store := by
  unfold GetConversationsTagged
  cases cm.store.GetConversations uid with
  | error e => exact ⟨h, rfl⟩
  | ok old => exact getConversationsFromCache_good cm uid h

theorem syncUserConversation_good {Q : Conversation → Prop} (cm : ConversationManager)
    (LoadLastMsgs : String → Nat → Nat → Except String (List Message))
    (req : syncUserConversationReq) (h : GoodCM Q cm)
    (hv : ∀ r lm, Q (largeChannelUpdate r lm)) :
    GoodCM Q (syncUserConversation cm LoadLastMsgs req).2 ∧
      (syncUserConversation cm LoadLastMsgs req).2.store = cm.store := by
  have h1 := GetConversationsTagged_good cm req.UID req.Version req.Larges h
  have h2 := syncLargeChannels_good LoadLastMsgs req.UID hv req.Larges
    { conversations := (GetConversationsTagged cm req.UID req.Version req.Larges).1,
      appended := [],
      cm := (GetConversationsTagged cm req.UID req.Version req.Larges).2 } h1.1
  unfold syncUserConversation
  simp only []
  split
  · rename_i err st heq
    rw [heq] at h2
    exact ⟨h2.1, h2.2.trans h1.2⟩
  · rename_i u st heq
    rw [heq] at h2
    exact ⟨h2.1, h2.2.trans h1.2⟩

/-! ## Sequences of operations -/

theorem subUint32_lt (a b : Nat) : subUint32 a b < 2 ^ 32 := by
  unfold subUint32
  exact Nat.mod_lt _ (by decide)

theorem applyOp_good (B : Int) (k : Nat) (cm : ConversationManager) (op : ConvOp)
    (h : GoodCM (unreadWithin (B + k)) cm)
    (hst : ∀ row ∈ cm.store.conversations, unreadWithin B row.2)
    (hB : 2 ^ 32 ≤ B) (hk : B + k + 1 < 2 ^ 63)
    (hset : ∀ req, op = ConvOp.setUnread req → 0 ≤ req.Unread ∧ req.Unread ≤ B) :
    GoodCM (unreadWithin (B + (k + 1 : Nat))) (applyOp cm op) ∧
      (applyOp cm op).store = cm.store := by
  have hmono : ∀ r, unreadWithin (B + k) r → unreadWithin (B + (k + 1 : Nat)) r := by
    intro r hr
    unfold unreadWithin at hr ⊢
    push_cast
    omega
  have hB0 : (0 : Int) ≤ B := by
    have : (0 : Int) ≤ 2 ^ 32 := by decide
    omega
  cases op with
  | cal m s now =>
    have hrows : ∀ row ∈ cm.store.conversations, unreadWithin (B + k) row.2 := by
      intro row hrow
      have := hst row hrow
      unfold unreadWithin at this ⊢
      omega
    have hnew : unreadWithin (B + (k + 1 : Nat)) (newConversation m s now) := by
      unfold unreadWithin
      have : (newConversation m s now).UnreadCount
          = if (m.RedDot && m.FromUID != s) = true then 1 else 0 := rfl
      rw [this]
      push_cast
      split <;> omega
    have hupd : ∀ r, unreadWithin (B + k) r →
        unreadWithin (B + (k + 1 : Nat)) (updateConversation r m s now).1 := by
      intro r hr
      unfold unreadWithin at hr ⊢
      rw [updateConversation_UnreadCount]
      push_cast
      split
      · rw [wrapInt64_of_range _ (by omega) (by omega)]
        omega
      · omega
    exact calConversation_good cm m s now h hrows hmono hnew hupd
  | clearUnread req =>
    apply clearConversationUnread_good cm req (h.mono hmono)
    intro r hr
    unfold unreadWithin
    rw [hr]
    omega
  | setUnread req =>
    apply setConversationUnread_good cm req (h.mono hmono)
    have hreq := hset req rfl
    intro r hr
    unfold unreadWithin
    rcases hr with hr | hr <;> rw [hr] <;> omega
  | sync LoadLastMsgs req =>
    apply syncUserConversation_good cm LoadLastMsgs req (h.mono hmono)
    intro r lm
    unfold unreadWithin largeChannelUpdate
    simp only []
    have h1 := subUint32_lt lm.MessageSeq r.OffsetMsgSeq
    have h2 : ((subUint32 lm.MessageSeq r.OffsetMsgSeq : Nat) : Int) < 2 ^ 32 := by
      exact_mod_cast h1
    push_cast
    omega

theorem applyOps_good (B : Int) (hB : 2 ^ 32 ≤ B) (store : Store)
    (hst : ∀ row ∈ store.conversations, unreadWithin B row.2) (ops : List ConvOp) :
    ∀ (k : Nat) (cm : ConversationManager), GoodCM (unreadWithin (B + k)) cm →
      cm.store = store → B + k + ops.length < 2 ^ 63 →
      (∀ req, ConvOp.setUnread req ∈ ops → 0 ≤ req.Unread ∧ req.Unread ≤ B) →
      GoodCM (unreadWithin (B + (k + ops.length : Nat))) (applyOps cm ops) ∧
        (applyOps cm ops).store = store := by
  induction ops with
  | nil => intro k cm h hs _ _; exact ⟨h, hs⟩
  | cons op ops ih =>
    intro k cm h hs hlen hset
    simp only [List.length_cons, Nat.cast_add, Nat.cast_one] at hlen
    have h1 := applyOp_good B k cm op h (by rw [hs]; exact hst) hB (by omega)
      (fun req hreq => hset req (by rw [hreq]; exact List.mem_cons_self _ _))
    have h2 := ih (k + 1) (applyOp cm op) h1.1 (h1.2.trans hs) (by push_cast; omega)
      (fun req hreq => hset req (List.mem_cons_of_mem _ hreq))
    have hk : k + (op :: ops).length = k + 1 + ops.length := by
      simp only [List.length_cons]; omega
    rw [hk]
    exact h2

/-! ## Unread counts -/

/-- C5, as stated, fails: after one message and a `setUnread` request whose unread
value is `-1`, the cached record of `b` has a negative unread count. -/
theorem unreadCount_negative_counterexample :
    ∃ e ∈ (cacheOf (applyOps sampleManager
        [ConvOp.cal sampleMessage5 "b" 10, ConvOp.setUnread sampleNegativeReq]) "b").items,
      ¬ (0 ≤ e.2.UnreadCount) := by
  decide

/-- The increment of `calConversation` wraps: after a `setUnread` request with the
greatest `int`, one more red-dot message leaves the least `int` as unread count. -/
theorem unreadCount_wraps :
    (peekConversation (applyOps sampleManager
        [ConvOp.cal sampleMessage5 "b" 10,
          ConvOp.setUnread { sampleSetReq with Unread := 2 ^ 63 - 1 },
          ConvOp.cal sampleMessage3 "b" 11]) "b" "g" 2).map (fun r => r.UnreadCount)
      = some (-(2 ^ 63)) := by
  decide

/-- C5, amended. Start from an empty cache and a store whose rows have an unread
count between 0 and `B`, and apply any sequence of calls of `calConversation`,
requests to `clearUnread`, requests to `setUnread` whose unread value lies between 0
and `B`, and requests to the sync handler.  If `2^32 ≤ B` and `B` plus the number of
operations stays below `2^63` (no overflow of the Go `int`), then every cached
record has `UnreadCount ≥ 0`, and the store is as it was. -/
theorem unreadCount_nonneg (store : Store) (n : Nat) (expire : Int) (hash : String → Nat)
    (B : Int) (ops : List ConvOp) (hn : 0 < n)
    (hstore : ∀ row ∈ store.conversations, 0 ≤ row.2.UnreadCount ∧ row.2.UnreadCount ≤ B)
    (hB : 2 ^ 32 ≤ B) (hlen : B + ops.length < 2 ^ 63)
    (hset : ∀ req, ConvOp.setUnread req ∈ ops → 0 ≤ req.Unread ∧ req.Unread ≤ B) :
    (∀ uid, ∀ e ∈ (cacheOf (applyOps (NewConversationManager store n expire hash) ops) uid).items,
        0 ≤ e.2.UnreadCount) ∧
      (applyOps (NewConversationManager store n expire hash) ops).store = store := by
  have h0 : GoodCM (unreadWithin (B + (0 : Nat))) (NewConversationManager store n expire hash) := by
    refine ⟨NewConversationManager_WF store n expire hash hn, ?_⟩
    intro uid e he
    rw [NewConversationManager_cacheOf] at he
    simp at he
  have h := applyOps_good B hB store hstore ops 0 _ h0 rfl (by simpa using hlen) hset
  exact ⟨fun uid e he => (h.1.2 uid e he).1, h.2⟩

/-- C5, amended, at a sequence of five operations with `B = 2^32`. -/
theorem unreadCount_nonneg_witness :
    (∀ uid, ∀ e ∈ (cacheOf (applyOps
        (NewConversationManager { conversations := [], readErr := false, writeErr := [] } 3 0
          (fun s => s.length))
        [ConvOp.cal sampleMessage5 "b" 10, ConvOp.setUnread sampleSetReq,
          ConvOp.cal sampleMessage3 "b" 11, ConvOp.clearUnread sampleClearReq,
          ConvOp.sync (fun _ _ _ => .ok [sampleMessage3])
            { UID := "b", Version := 0, LastMsgSeqs := "", MsgCount := 1,
              Larges := [{ ChannelID := "g", ChannelType := 2 }] }]) uid).items,
        0 ≤ e.2.UnreadCount) ∧
      (applyOps
        (NewConversationManager { conversations := [], readErr := false, writeErr := [] } 3 0
          (fun s => s.length))
        [ConvOp.cal sampleMessage5 "b" 10, ConvOp.setUnread sampleSetReq,
          ConvOp.cal sampleMessage3 "b" 11, ConvOp.clearUnread sampleClearReq,
          ConvOp.sync (fun _ _ _ => .ok [sampleMessage3])
            { UID := "b", Version := 0, LastMsgSeqs := "", MsgCount := 1,
              Larges := [{ ChannelID := "g", ChannelType := 2 }] }]).store
        = { conversations := [], readErr := false, writeErr := [] } :=
  unreadCount_nonneg { conversations := [], readErr := false, writeErr := [] } 3 0
    (fun s => s.length) (2 ^ 32) _ (by decide) (by simp) (by decide) (by decide)
    (by
      intro req hreq
      simp only [List.mem_cons, List.mem_singleton, ConvOp.setUnread.injEq, reduceCtorEq,
        false_or, or_false, List.not_mem_nil] at hreq
      subst hreq
      decide)

/-! ## The cases of a flush -/

theorem getConversationsFromCache_eq_nil (cm : ConversationManager) (h : WF cm) (uid : String) :
    (getConversationsFromCache cm uid).1 = [] ↔ (cacheOf cm uid).items = [] := by
  rw [getConversationsFromCache_fst cm h uid]
  simp

/-- What `flushUserConversations` does to the dirty set and to the caches, in each of
its three cases. -/
theorem flushUserConversations_cases (cm : ConversationManager) (h : WF cm) (uid : String)
    (now : Int) :
    WF (flushUserConversations cm uid now) ∧
      (flushUserConversations cm uid now).store.writeErr = cm.store.writeErr ∧
      (∀ u, u ≠ uid → cacheOf (flushUserConversations cm uid now) u = cacheOf cm u) ∧
      (flushUserConversations cm uid now).needSaveConversationMap
        = (if (cacheOf cm uid).items ≠ [] ∧ uid ∉ cm.store.writeErr then
            cm.needSaveConversationMap.filter (fun u => u != uid)
          else cm.needSaveConversationMap) ∧
      ((cacheOf cm uid).items = [] ∨ uid ∈ cm.store.writeErr →
        cacheOf (flushUserConversations cm uid now) uid = cacheOf cm uid ∧
          (flushUserConversations cm uid now).store = cm.store) := by
  have ht := getConversationsFromCache_touches cm h uid
  have hwf1 := getConversationsFromCache_WF cm h uid
  have hs : (getConversationsFromCache cm uid).2.store = cm.store := ht.env.1
  have hnil := getConversationsFromCache_eq_nil cm h uid
  unfold flushUserConversations
  simp only []
  by_cases hlen : ((getConversationsFromCache cm uid).1.length == 0) = true
  · simp only [hlen, if_true]
    have hnil2 : (cacheOf cm uid).items = [] := hnil.1 (by simpa using hlen)
    refine ⟨hwf1, by rw [hs], ht.other, ?_, fun _ => ⟨ht.self, hs⟩⟩
    rw [ht.dirty]
    simp [hnil2]
  · simp only [hlen, Bool.false_eq_true, if_false]
    have hne : (cacheOf cm uid).items ≠ [] := by
      intro hc
      exact hlen (by simpa using hnil.2 hc)
    by_cases hok : uid ∈ cm.store.writeErr
    · have hw : (getConversationsFromCache cm uid).2.store.AddOrUpdateConversations uid
          (getConversationsFromCache cm uid).1 = .error "store write failed" := by
        unfold Store.AddOrUpdateConversations
        rw [hs]
        simp only [hok, if_true]
      simp only [hw]
      refine ⟨hwf1, by rw [hs], ht.other, ?_, fun _ => ⟨ht.self, hs⟩⟩
      rw [ht.dirty]
      simp [hok]
    · have hw : (getConversationsFromCache cm uid).2.store.AddOrUpdateConversations uid
          (getConversationsFromCache cm uid).1
          = .ok { cm.store with
            conversations := upsertAll cm.store.conversations uid
              (getConversationsFromCache cm uid).1 } := by
        unfold Store.AddOrUpdateConversations
        rw [hs]
        simp only [hok, if_false]
        rfl
      simp only [hw]
      have hwf2 : WF { (getConversationsFromCache cm uid).2 with
          store := { cm.store with
            conversations := upsertAll cm.store.conversations uid
              (getConversationsFromCache cm uid).1 }
          needSaveConversationMap :=
            (getConversationsFromCache cm uid).2.needSaveConversationMap.filter
              (fun u => u != uid) } :=
        ⟨hwf1.buckets, hwf1.maxCount, hwf1.caches⟩
      have h3 := removeExpired_spec uid now (getConversationsFromCache cm uid).1 _ hwf2
      refine ⟨h3.1, ?_, ?_, ?_, ?_⟩
      · have := congrArg Store.writeErr h3.2.1
        exact this
      · intro u hu
        exact (h3.2.2.2 u hu).trans (ht.other u hu)
      · rw [h3.2.2.1]
        simp only [hne, hok, ne_eq, not_false_eq_true, and_self, if_true]
        show List.filter _ (getConversationsFromCache cm uid).2.needSaveConversationMap = _
        rw [ht.dirty]
      · intro hor
        rcases hor with hc | hc
        · exact absurd hc hne
        · exact absurd hc hok

/-! ## Dirty uids after a flush -/

theorem flush_fold_dirty (now : Int) (uids : List String) :
    ∀ cm, WF cm → uids.Nodup →
      WF (uids.foldl (fun cm uid => flushUserConversations cm uid now) cm) ∧
      (uids.foldl (fun cm uid => flushUserConversations cm uid now) cm).store.writeErr
        = cm.store.writeErr ∧
      (∀ u, u ∉ uids →
        cacheOf (uids.foldl (fun cm uid => flushUserConversations cm uid now) cm) u
          = cacheOf cm u) ∧
      (∀ v, v ∈ (uids.foldl (fun cm uid => flushUserConversations cm uid now)
            cm).needSaveConversationMap ↔
          (v ∈ cm.needSaveConversationMap ∧
            ¬ (v ∈ uids ∧ (cacheOf cm v).items ≠ [] ∧ v ∉ cm.store.writeErr))) ∧
      (∀ u, u ∈ uids → ((cacheOf cm u).items = [] ∨ u ∈ cm.store.writeErr) →
        cacheOf (uids.foldl (fun cm uid => flushUserConversations cm uid now) cm) u
          = cacheOf cm u) := by
  induction uids with
  | nil =>
    intro cm h _
    exact ⟨h, rfl, fun _ _ => rfl, fun v => by simp, fun u hu => by simp at hu⟩
  | cons a rest ih =>
    intro cm h hnd
    simp only [List.nodup_cons] at hnd
    have hs := flushUserConversations_cases cm h a now
    have h2 := ih (flushUserConversations cm a now) hs.1 hnd.2
    simp only [List.foldl_cons]
    refine ⟨h2.1, h2.2.1.trans hs.2.1, ?_, ?_, ?_⟩
    · intro u hu
      have hne : u ≠ a := fun h' => hu (by rw [h']; exact List.mem_cons_self _ _)
      have hr : u ∉ rest := fun h' => hu (List.mem_cons_of_mem _ h')
      exact (h2.2.2.1 u hr).trans (hs.2.2.1 u hne)
    · intro v
      rw [h2.2.2.2.1 v, hs.2.2.2.1, hs.2.1]
      by_cases hva : v = a
      · subst hva
        have hvr : v ∉ rest := hnd.1
        by_cases hc : (cacheOf cm v).items ≠ [] ∧ v ∉ cm.store.writeErr
        · simp [hc, hvr]
        · simp only [hc, if_false, hvr, false_and, not_false_eq_true, and_true,
            List.mem_cons, true_or, true_and]
      · have hcache : cacheOf (flushUserConversations cm a now) v = cacheOf cm v :=
          hs.2.2.1 v hva
        rw [hcache]
        have hmem : v ∈ (if (cacheOf cm a).items ≠ [] ∧ a ∉ cm.store.writeErr then
              cm.needSaveConversationMap.filter (fun u => u != a)
            else cm.needSaveConversationMap) ↔ v ∈ cm.needSaveConversationMap := by
          split
          · simp [List.mem_filter, hva]
          · exact Iff.rfl
        rw [hmem]
        simp only [List.mem_cons, hva, false_or]
    · intro u hu hor
      rcases List.mem_cons.1 hu with hua | hur
      · subst hua
        exact (h2.2.2.1 u hnd.1).trans (hs.2.2.2.2 hor).1
      · have hne : u ≠ a := by
          intro hua
          rw [hua] at hur
          exact hnd.1 hur
        have hcache : cacheOf (flushUserConversations cm a now) u = cacheOf cm u :=
          hs.2.2.1 u hne
        rw [← hcache]
        apply h2.2.2.2.2 u hur
        rw [hcache, hs.2.1]
        exact hor

/-- C11 (divergence): the user `b` is dirty and has no cached record (the conversation
was deleted after a message), no write of the store fails, and `b` is still dirty after
the flush: `flushUserConversations` returns before the `delete` when the list is empty. -/
theorem FlushConversations_dirty_divergence :
    "b" ∈ sampleDeleted.needSaveConversationMap ∧
      "b" ∉ sampleDeleted.store.writeErr ∧
      "b" ∈ (FlushConversations sampleDeleted 0).needSaveConversationMap := by
  decide

/-- The flush of a user with a cached record, where the code does what C11 says. For a
uid that is dirty when the flush starts and has at least one cached record: after
`FlushConversations` the uid is still dirty if and only if the write of the store fails
for it; when the write fails, the cache of the uid is as before, so no cached record is
removed. -/
theorem FlushConversations_dirty (cm : ConversationManager) (now : Int) (uid : String)
    (hwf : WF cm) (hdirty : cm.needSaveConversationMap.Nodup)
    (huid : uid ∈ cm.needSaveConversationMap) (hcached : (cacheOf cm uid).items ≠ []) :
    (uid ∈ (FlushConversations cm now).needSaveConversationMap ↔ uid ∈ cm.store.writeErr) ∧
      (uid ∈ cm.store.writeErr → cacheOf (FlushConversations cm now) uid = cacheOf cm uid) := by
  have h := flush_fold_dirty now cm.needSaveConversationMap cm hwf hdirty
  constructor
  · show uid ∈ (cm.needSaveConversationMap.foldl _ cm).needSaveConversationMap ↔ _
    rw [h.2.2.2.1 uid]
    simp [huid, hcached]
  · intro herr
    exact h.2.2.2.2 uid huid (Or.inr herr)

theorem sampleFailing_WF : WF sampleFailing :=
  ⟨sampleMerged_WF.buckets, sampleMerged_WF.maxCount, sampleMerged_WF.caches⟩

/-- The flush at a dirty user with two cached records, once with a store that
takes the write and once with a store whose write fails. -/
theorem FlushConversations_dirty_witness :
    ((("b" ∈ (FlushConversations sampleMerged 0).needSaveConversationMap ↔
          "b" ∈ sampleMerged.store.writeErr) ∧
        ("b" ∈ sampleMerged.store.writeErr →
          cacheOf (FlushConversations sampleMerged 0) "b" = cacheOf sampleMerged "b")) ∧
      (("b" ∈ (FlushConversations sampleFailing 0).needSaveConversationMap ↔
          "b" ∈ sampleFailing.store.writeErr) ∧
        ("b" ∈ sampleFailing.store.writeErr →
          cacheOf (FlushConversations sampleFailing 0) "b" = cacheOf sampleFailing "b"))) ∧
    (FlushConversations sampleMerged 0).needSaveConversationMap = [] ∧
    (FlushConversations sampleFailing 0).needSaveConversationMap = ["b"] :=
  ⟨⟨FlushConversations_dirty sampleMerged 0 "b" sampleMerged_WF (by decide) (by decide)
      (by decide),
    FlushConversations_dirty sampleFailing 0 "b" sampleFailing_WF (by decide) (by decide)
      (by decide)⟩, by decide, by decide⟩

/-! ## The expiry sweeper -/

theorem mem_bucketUsers (cm : ConversationManager) (x : Nat × String × LRUCache) :
    x ∈ bucketUsers cm ↔
      ∃ m, cm.userConversationMapBuckets[x.1]? = some (some m) ∧ (x.2.1, x.2.2) ∈ m := by
  unfold bucketUsers
  simp only [List.mem_flatMap, List.mem_map]
  constructor
  · rintro ⟨b, hb, e, he, rfl⟩
    rw [List.mem_enum_iff_getElem?] at hb
    cases hb2 : b.2 with
    | none => simp [hb2] at he
    | some m =>
      rw [hb2] at hb
      simp only [hb2, Option.getD_some] at he
      exact ⟨m, hb, he⟩
  · rintro ⟨m, hm, he⟩
    refine ⟨(x.1, some m), ?_, (x.2.1, x.2.2), ?_, rfl⟩
    · rw [List.mem_enum_iff_getElem?]
      exact hm
    · simpa using he

theorem without_cons_first (l : List (String × Conversation)) (e : String × Conversation)
    (hnd : ((e :: l).map (fun x => x.1)).Nodup) : LRUCache.without (e :: l) e.1 = l := by
  unfold LRUCache.without
  simp only [List.map_cons, List.nodup_cons] at hnd
  rw [List.filter_cons]
  have h1 : (e.1 != e.1) = false := by simp
  simp only [h1, Bool.false_eq_true, if_false]
  apply List.filter_eq_self.2
  intro x hx
  have : x.1 ≠ e.1 := fun h => hnd.1 (List.mem_map.2 ⟨x, hx, h⟩)
  simpa using this

theorem clearExpireKeys_rev (cm : ConversationManager) (now : Int) (sz : Nat)
    (rev : List (String × Conversation)) :
    ∀ done : List (String × Conversation),
      ((done ++ rev.reverse).map (fun x => x.1)).Nodup →
      clearExpireKeys cm now { size := sz, items := done ++ rev.reverse }
          (rev.map (fun x => x.1))
        = { size := sz,
            items := rev.reverse.filter (fun e => !isExpired cm e.2 now) ++ done } := by
  induction rev with
  | nil => intro done _; simp [clearExpireKeys]
  | cons e rev ih =>
    intro done hnd
    have hitems : done ++ (e :: rev).reverse = (done ++ rev.reverse) ++ [e] := by simp
    rw [hitems] at hnd ⊢
    have hl : ((done ++ rev.reverse) ++ [e]).lookup e.1 = some e.2 :=
      lookup_of_mem_nodup _ _ _ hnd (by simp)
    have hget : LRUCache.Get { size := sz, items := (done ++ rev.reverse) ++ [e] } e.1
        = (some e.2, { size := sz, items := e :: (done ++ rev.reverse) }) := by
      unfold LRUCache.Get
      simp only [hl]
      rw [without_append_last _ e hnd]
    have hperm : (e :: (done ++ rev.reverse)).Perm ((done ++ rev.reverse) ++ [e]) :=
      (List.perm_append_singleton e _).symm
    have hnd1 : ((e :: (done ++ rev.reverse)).map (fun x => x.1)).Nodup :=
      (hperm.map _).nodup_iff.2 hnd
    have hnd0 : ((done ++ rev.reverse).map (fun x => x.1)).Nodup := by
      simp only [List.map_cons, List.nodup_cons] at hnd1
      exact hnd1.2
    simp only [List.map_cons, clearExpireKeys, hget]
    by_cases hx : isExpired cm e.2 now = true
    · simp only [hx, if_true]
      have hrem : LRUCache.Remove { size := sz, items := e :: (done ++ rev.reverse) } e.1
          = { size := sz, items := done ++ rev.reverse } := by
        unfold LRUCache.Remove
        simp only []
        rw [without_cons_first _ e hnd1]
      rw [hrem, ih done hnd0]
      simp [List.filter_append, hx]
    · simp only [hx]
      have := ih (e :: done) (by simpa using hnd1)
      simp only [List.cons_append] at this
      rw [this]
      have hx2 : isExpired cm e.2 now = false := by simpa using hx
      simp [List.filter_append, hx2]

theorem clearExpireKeys_Keys (cm : ConversationManager) (now : Int) (c : LRUCache)
    (h : (c.items.map (fun x => x.1)).Nodup) :
    clearExpireKeys cm now c c.Keys
      = { c with items := c.items.filter (fun e => !isExpired cm e.2 now) } := by
  have := clearExpireKeys_rev cm now c.size c.items.reverse [] (by simpa using h)
  simpa [LRUCache.Keys, List.map_reverse] using this

theorem tdiv_range (ts : Int) (h1 : -2 ^ 63 ≤ ts) (h2 : ts < 2 ^ 63) :
    -2 ^ 63 ≤ Int.tdiv ts 1000 ∧ Int.tdiv ts 1000 < 2 ^ 63 := by
  by_cases h0 : 0 ≤ ts
  · rw [Int.tdiv_eq_ediv h0 (by decide)]
    omega
  · have hneg : Int.tdiv ts 1000 = -(Int.tdiv (-ts) 1000) := by
      rw [Int.neg_tdiv, Int.neg_neg]
    rw [hneg, Int.tdiv_eq_ediv (by omega) (by decide)]
    omega

theorem isExpired_zero (cm : ConversationManager) (now : Int) (r : Conversation)
    (hexp : cm.CacheExpire = 0) (h1 : -2 ^ 63 ≤ r.Timestamp) (h2 : r.Timestamp < 2 ^ 63) :
    isExpired cm r now = true ↔ Int.tdiv r.Timestamp 1000 < now := by
  unfold isExpired
  have hr := tdiv_range r.Timestamp h1 h2
  rw [hexp, Int.add_zero, wrapInt64_of_range _ hr.1 hr.2]
  simp

/-! ## C12: the expiry sweeper -/

theorem mem_bucketUsers_clear (cm : ConversationManager) (now : Int)
    (hnd : ∀ x ∈ bucketUsers cm, (x.2.2.items.map (fun e => e.1)).Nodup)
    (x : Nat × String × LRUCache) :
    x ∈ bucketUsers (clearExpireConversations cm now) ↔
      ∃ c, (x.1, x.2.1, c) ∈ bucketUsers cm ∧
        x.2.2 = { c with items := c.items.filter (fun e => !isExpired cm e.2 now) } ∧
        x.2.2.items ≠ [] := by
  rw [mem_bucketUsers]
  simp only [clearExpireConversations, List.getElem?_map]
  constructor
  · rintro ⟨m', hm', hx⟩
    cases hb : cm.userConversationMapBuckets[x.1]? with
    | none => simp [hb] at hm'
    | some b =>
      cases b with
      | none => simp [hb] at hm'
      | some m =>
        simp only [hb, Option.map_some', Option.some.injEq] at hm'
        subst hm'
        simp only [List.mem_filter, List.mem_map] at hx
        obtain ⟨⟨e, he, heq⟩, hlen⟩ := hx
        have hmem : (x.1, e.1, e.2) ∈ bucketUsers cm := by
          rw [mem_bucketUsers]
          exact ⟨m, hb, he⟩
        have hk := clearExpireKeys_Keys cm now e.2 (hnd _ hmem)
        have h1 : x.2.1 = e.1 := (congrArg Prod.fst heq).symm
        have h2 : x.2.2 = clearExpireKeys cm now e.2 e.2.Keys := (congrArg Prod.snd heq).symm
        refine ⟨e.2, by rw [h1]; exact hmem, by rw [h2, hk], ?_⟩
        intro h0
        simp [LRUCache.Len, h0] at hlen
  · rintro ⟨c, hc, hx, hne⟩
    rw [mem_bucketUsers] at hc
    obtain ⟨m, hm, hcm⟩ := hc
    refine ⟨_, by rw [hm]; rfl, ?_⟩
    simp only [List.mem_filter, List.mem_map]
    have hmem : (x.1, x.2.1, c) ∈ bucketUsers cm := by
      rw [mem_bucketUsers]
      exact ⟨m, hm, hcm⟩
    have hk := clearExpireKeys_Keys cm now c (hnd _ hmem)
    refine ⟨⟨(x.2.1, c), hcm, ?_⟩, ?_⟩
    · simp only [hk]
      rw [← hx]
    · simp only [LRUCache.Len]
      cases hi : x.2.2.items with
      | nil => exact absurd hi hne
      | cons a l => simp

/-- Counterexample to C12 as stated: the clock reads 1000500 ms, the cached record of group
"g" carries the timestamp 1000100 ms, which is earlier, and the cache lifetime is 0; the
sweeper compares whole seconds (1000 against 1000) and the record remains. -/
theorem clearExpireConversations_counterexample :
    sampleSweep.CacheExpire = 0 ∧
      (bucketUsers (clearExpireConversations sampleSweep (Int.tdiv 1000500 1000))).any
        (fun x => x.2.2.items.any
          (fun e => e.2.ChannelID == "g" && decide (e.2.Timestamp = 1000100)
            && decide (e.2.Timestamp < 1000500))) = true := by
  decide

/-- C12 (amended): with a cache lifetime of 0, after clearExpireConversations runs at the
second now, no cached record whose timestamp in whole seconds (timestamp / 1000) is earlier
than now remains in any bucket, every record whose whole second is not earlier than now is
kept under the same bucket and user, and no user with an empty cache remains in any bucket
map. -/
theorem clearExpireConversations_sweep (cm : ConversationManager) (now : Int)
    (hexp : cm.CacheExpire = 0)
    (hnd : ∀ x ∈ bucketUsers cm, (x.2.2.items.map (fun e => e.1)).Nodup)
    (hts : ∀ x ∈ bucketUsers cm, ∀ e ∈ x.2.2.items,
      -2 ^ 63 ≤ e.2.Timestamp ∧ e.2.Timestamp < 2 ^ 63) :
    (∀ x ∈ bucketUsers (clearExpireConversations cm now), ∀ e ∈ x.2.2.items,
        ¬ Int.tdiv e.2.Timestamp 1000 < now) ∧
      (∀ x ∈ bucketUsers cm, ∀ e ∈ x.2.2.items, ¬ Int.tdiv e.2.Timestamp 1000 < now →
        ∃ c, (x.1, x.2.1, c) ∈ bucketUsers (clearExpireConversations cm now) ∧
          e ∈ c.items) ∧
      (∀ x ∈ bucketUsers (clearExpireConversations cm now), x.2.2.Len ≠ 0) := by
  refine ⟨?_, ?_, ?_⟩
  · intro x hx e he
    rw [mem_bucketUsers_clear cm now hnd] at hx
    obtain ⟨c, hc, hxc, _⟩ := hx
    rw [hxc] at he
    simp only [List.mem_filter] at he
    have hr := hts _ hc e he.1
    rw [← isExpired_zero cm now e.2 hexp hr.1 hr.2]
    simpa using he.2
  · intro x hx e he hkeep
    have hr := hts _ hx e he
    have hne : isExpired cm e.2 now = false := by
      rw [← isExpired_zero cm now e.2 hexp hr.1 hr.2] at hkeep
      simpa using hkeep
    have hmem : e ∈ x.2.2.items.filter (fun e => !isExpired cm e.2 now) := by
      simp only [List.mem_filter]
      exact ⟨he, by simp [hne]⟩
    refine ⟨{ x.2.2 with items := x.2.2.items.filter (fun e => !isExpired cm e.2 now) },
      ?_, hmem⟩
    rw [mem_bucketUsers_clear cm now hnd]
    exact ⟨x.2.2, hx, rfl, List.ne_nil_of_mem hmem⟩
  · intro x hx
    rw [mem_bucketUsers_clear cm now hnd] at hx
    obtain ⟨c, _, _, hne⟩ := hx
    simp only [LRUCache.Len]
    intro h0
    exact hne (List.length_eq_zero.1 h0)

/-- Witness for C12: the sweep of the sample manager at second 1000 satisfies the
hypotheses, drops the record of second 0 and keeps the record of second 1000. -/
theorem clearExpireConversations_sweep_witness :
    (∀ x ∈ bucketUsers (clearExpireConversations sampleSweep 1000), ∀ e ∈ x.2.2.items,
        ¬ Int.tdiv e.2.Timestamp 1000 < 1000) ∧
      (∀ x ∈ bucketUsers sampleSweep, ∀ e ∈ x.2.2.items,
        ¬ Int.tdiv e.2.Timestamp 1000 < 1000 →
        ∃ c, (x.1, x.2.1, c) ∈ bucketUsers (clearExpireConversations sampleSweep 1000) ∧
          e ∈ c.items) ∧
      (∀ x ∈ bucketUsers (clearExpireConversations sampleSweep 1000), x.2.2.Len ≠ 0) :=
  clearExpireConversations_sweep sampleSweep 1000 (by decide) (by decide) (by decide)

/-! ## GetConversation: the result and the bucket maps -/

theorem find_cached_lookup (c : LRUCache) (h : c.WF) (channelID : String) (channelType : Nat) :
    (c.items.reverse.map (fun x => x.2)).find?
        (fun r => r.ChannelID == channelID && r.ChannelType == channelType)
      = c.items.lookup (getChannelKey channelID channelType) := by
  cases hf : (c.items.reverse.map (fun x => x.2)).find?
      (fun r => r.ChannelID == channelID && r.ChannelType == channelType) with
  | none =>
    symm
    rw [lookup_none_iff]
    intro hk
    obtain ⟨e, he, hek⟩ := List.mem_map.1 hk
    have hkey := h.keys e he
    rw [hek] at hkey
    have hinj := getChannelKey_injective _ _ _ _ hkey
    rw [List.find?_eq_none] at hf
    have := hf e.2 (by simp only [List.mem_map, List.mem_reverse]; exact ⟨e, he, rfl⟩)
    simp [← hinj.1, ← hinj.2] at this
  | some v =>
    have hp := List.find?_some hf
    have hm := List.mem_of_find?_eq_some hf
    simp only [List.mem_map, List.mem_reverse] at hm
    obtain ⟨e, he, hev⟩ := hm
    simp only [Bool.and_eq_true, beq_iff_eq] at hp
    have hkey := h.keys e he
    symm
    apply lookup_of_mem_nodup _ _ _ h.nodup
    have : e = (getChannelKey channelID channelType, v) := by
      apply Prod.ext
      · rw [hkey, hev]; unfold keyOf; rw [hp.1, hp.2]
      · exact hev
    rw [← this]
    exact he

theorem GetConversation_fst (cm : ConversationManager) (h : WF cm) (uid channelID : String)
    (channelType : Nat) :
    (GetConversation cm uid channelID channelType).1 = lookupRecord cm uid channelID channelType := by
  have henv := (getConversationsFromCache_touches cm h uid).env
  unfold GetConversation lookupRecord peekConversation
  simp only []
  rw [getConversationsFromCache_fst cm h uid, find_cached_lookup _ (h.caches uid)]
  cases (cacheOf cm uid).items.lookup (getChannelKey channelID channelType) with
  | some x => rfl
  | none =>
    simp only [henv.1]
    cases cm.store.GetConversation uid channelID channelType <;> rfl

theorem bucketMap_putUserCache_lookup (cm : ConversationManager) (h : BucketsOK cm)
    (uid : String) (c : LRUCache) (pos : Nat) (u : String) :
    (bucketMap (putUserCache cm uid c) pos).lookup u
      = if u = uid ∧ pos = getLockIndex cm uid then some c else (bucketMap cm pos).lookup u := by
  unfold putUserCache
  simp only []
  rw [bucketMap_set _ _ _ _ (getLockIndex_lt cm h uid)]
  by_cases hp : pos = getLockIndex cm uid
  · subst hp
    simp only [if_true, and_true]
    by_cases hu : u = uid
    · subst hu
      simp [List.lookup_cons]
    · have hb : (u == uid) = false := by simpa using hu
      simp only [List.lookup_cons, hb, lookup_filter_ne _ _ _ hu, hu, if_false]
  · simp only [hp, if_false, and_false]

theorem bucketMap_getUserCache_lookup (cm : ConversationManager) (h : BucketsOK cm)
    (uid : String) (pos : Nat) (u : String) :
    (bucketMap (getUserConversationCacheNoLock cm uid).2 pos).lookup u
      = if u = uid ∧ pos = getLockIndex cm uid ∧
            (bucketMap cm (getLockIndex cm uid)).lookup uid = none
        then some (newLRUCache cm) else (bucketMap cm pos).lookup u := by
  have hlt := getLockIndex_lt cm h uid
  unfold getUserConversationCacheNoLock
  cases hl : (bucketMap cm (getLockIndex cm uid)).lookup uid with
  | some c0 =>
    simp only [hl]
    rw [bucketMap_set _ _ _ _ hlt]
    by_cases hp : pos = getLockIndex cm uid
    · subst hp
      simp
    · simp [hp]
  | none =>
    simp only [hl]
    rw [bucketMap_set _ _ _ _ hlt]
    by_cases hp : pos = getLockIndex cm uid
    · subst hp
      simp only [if_true, and_true, true_and]
      by_cases hu : u = uid
      · subst hu
        simp [List.lookup_cons]
      · have hb : (u == uid) = false := by simpa using hu
        simp only [List.lookup_cons, hb, hu, if_false, false_and]
    · simp [hp]

theorem getLockIndex_getUserCache (cm : ConversationManager) (uid uid' : String) :
    getLockIndex (getUserConversationCacheNoLock cm uid).2 uid' = getLockIndex cm uid' := by
  have he := getUserCache_SameEnv cm uid
  unfold getLockIndex
  rw [he.2.2.2.1, he.2.2.2.2]

theorem getConversationsFromCache_lookup (cm : ConversationManager) (h : WF cm) (uid : String)
    (pos : Nat) (u : String) :
    (bucketMap (getConversationsFromCache cm uid).2 pos).lookup u
      = if u = uid ∧ pos = getLockIndex cm uid ∧
            (bucketMap cm (getLockIndex cm uid)).lookup uid = none
        then some (newLRUCache cm) else (bucketMap cm pos).lookup u := by
  have h1 := getUserCache_BucketsOK cm h.buckets uid
  unfold getConversationsFromCache
  simp only [getUserCache_fst, collectConversations_Keys _ (h.caches uid)]
  rw [bucketMap_putUserCache_lookup _ h1, getLockIndex_getUserCache,
    bucketMap_getUserCache_lookup cm h.buckets]
  by_cases hc : u = uid ∧ pos = getLockIndex cm uid
  · obtain ⟨hu, hp⟩ := hc
    subst hu hp
    unfold cacheOf
    cases hl : (bucketMap cm (getLockIndex cm u)).lookup u <;> simp
  · simp only [hc, if_false]

/-! ## C13: GetConversation leaves the state -/

/-- Counterexample to C13 as stated: the manager at start holds no cache for the user "b";
after one GetConversation for that user the bucket map of the user holds an empty cache
under "b", so the bucket array is not the one before the call. -/
theorem GetConversation_state_counterexample :
    (bucketMap sampleManager (getLockIndex sampleManager "b")).lookup "b" = none ∧
      (bucketMap (GetConversation sampleManager "b" "g" 2).2
          (getLockIndex sampleManager "b")).lookup "b" = some { size := 3, items := [] } ∧
      (GetConversation sampleManager "b" "g" 2).2.userConversationMapBuckets
        ≠ sampleManager.userConversationMapBuckets := by
  decide

/-- C13 (amended): for every uid, channelId and channelType, GetConversation returns the
cached record for that key when one is cached and otherwise the record of the store, and it
leaves the contents of the cache of every user, the dirty set and the store unchanged; the
uid→LRU map of every bucket is unchanged except that a uid without a cache gains an empty
LRU in its own bucket. -/
theorem GetConversation_frame (cm : ConversationManager) (h : WF cm) (uid channelID : String)
    (channelType : Nat) :
    (GetConversation cm uid channelID channelType).1
        = lookupRecord cm uid channelID channelType ∧
      (GetConversation cm uid channelID channelType).2.store = cm.store ∧
      (GetConversation cm uid channelID channelType).2.needSaveConversationMap
        = cm.needSaveConversationMap ∧
      (∀ u, cacheOf (GetConversation cm uid channelID channelType).2 u = cacheOf cm u) ∧
      (∀ pos u, (bucketMap (GetConversation cm uid channelID channelType).2 pos).lookup u
        = if u = uid ∧ pos = getLockIndex cm uid ∧
              (bucketMap cm (getLockIndex cm uid)).lookup uid = none
          then some (newLRUCache cm) else (bucketMap cm pos).lookup u) := by
  have ht := getConversationsFromCache_touches cm h uid
  refine ⟨GetConversation_fst cm h uid channelID channelType, ?_, ?_, ?_, ?_⟩
  · rw [GetConversation_snd]; exact ht.env.1
  · rw [GetConversation_snd]; exact ht.dirty
  · intro u
    rw [GetConversation_snd]
    by_cases hu : u = uid
    · rw [hu]; exact ht.self
    · exact ht.other u hu
  · intro pos u
    rw [GetConversation_snd]
    exact getConversationsFromCache_lookup cm h uid pos u

/-- Witness for C13: the sample manager with one cached record is well formed, and a read
of that record returns it and leaves the state as the theorem says. -/
theorem GetConversation_frame_witness :
    (GetConversation sampleCached "b" "g" 2).1 = lookupRecord sampleCached "b" "g" 2 ∧
      (GetConversation sampleCached "b" "g" 2).2.store = sampleCached.store ∧
      (GetConversation sampleCached "b" "g" 2).2.needSaveConversationMap
        = sampleCached.needSaveConversationMap ∧
      (∀ u, cacheOf (GetConversation sampleCached "b" "g" 2).2 u = cacheOf sampleCached u) ∧
      (∀ pos u, (bucketMap (GetConversation sampleCached "b" "g" 2).2 pos).lookup u
        = if u = "b" ∧ pos = getLockIndex sampleCached "b" ∧
              (bucketMap sampleCached (getLockIndex sampleCached "b")).lookup "b" = none
          then some (newLRUCache sampleCached) else (bucketMap sampleCached pos).lookup u) :=
  GetConversation_frame sampleCached sampleCached_WF "b" "g" 2

/-! ## C14: the limit of syncRecentMessages -/

theorem getRecentMessagesLoop_limit (env : RecentEnv) (uid : String) (msgCount : Int)
    (channels : List channelRecentMessageReq) :
    ∀ (acc : List channelRecentMessage) (calls : List LoadCall),
      (∀ c ∈ calls, c.limit = msgCount) →
      ∀ c ∈ (getRecentMessagesLoop env uid msgCount channels acc calls).2,
        c.limit = msgCount := by
  induction channels with
  | nil => intro acc calls h; simpa [getRecentMessagesLoop] using h
  | cons ch rest ih =>
    intro acc calls h
    have h1 : ∀ c ∈ calls ++
        [{ channelID := if ch.ChannelType = ChannelTypePerson then
              env.GetFakeChannelIDWith uid ch.ChannelID else ch.ChannelID,
           channelType := ch.ChannelType, endSeq := ch.LastMsgSeq, limit := msgCount }],
        c.limit = msgCount := by
      intro c hc
      rcases List.mem_append.1 hc with hc1 | hc1
      · exact h c hc1
      · simp only [List.mem_singleton] at hc1
        rw [hc1]
    simp only [getRecentMessagesLoop]
    cases hl : env.LoadLastMsgsWithEnd
        (if ch.ChannelType = ChannelTypePerson then env.GetFakeChannelIDWith uid ch.ChannelID
          else ch.ChannelID) ch.ChannelType ch.LastMsgSeq msgCount with
    | error e => simpa using h1
    | ok msgs => exact ih _ _ h1

theorem syncRecentMessages_calls (env : RecentEnv) (req : syncRecentMessagesReq) :
    (syncRecentMessages env req).2.all (fun c => decide (c.limit = req.MsgCount)) = true := by
  have h : ∀ c ∈ (getRecentMessages env req.UID req.MsgCount req.Channels).2,
      c.limit = req.MsgCount := by
    unfold getRecentMessages
    split
    · exact getRecentMessagesLoop_limit env _ _ _ [] [] (by simp)
    · simp
  unfold syncRecentMessages
  simp only []
  rcases hg : getRecentMessages env req.UID req.MsgCount req.Channels with ⟨r, calls⟩
  rw [hg] at h
  cases r <;> simpa using h

/-- C14 (divergence): for the request without a count (msgCount = 0) and one channel, the
limit that syncRecentMessages passes to LoadLastMsgsWithEnd is 0, the count of the request,
and not the default 15. -/
theorem syncRecentMessages_limit_zero :
    sampleRecentReq.MsgCount = 0 ∧
      (syncRecentMessages sampleRecentEnv sampleRecentReq).2
        = [{ channelID := "g", channelType := 2, endSeq := 0, limit := 0 }] := by
  decide

/-! ## The loop over the large channels -/

theorem findIdx?_congr_map {α : Type} (p : α → Bool) (l l' : List α)
    (h : l.map p = l'.map p) : l.findIdx? p = l'.findIdx? p := by
  have h1 := List.findIdx?_map (p := fun b : Bool => b) p l
  have h2 := List.findIdx?_map (p := fun b : Bool => b) p l'
  have hc : ((fun b : Bool => b) ∘ p) = p := rfl
  rw [hc] at h1 h2
  rw [← h1, ← h2, h]

theorem map_set_same {α β : Type} (f : α → β) (l : List α) (i : Nat) (x y : α)
    (hy : l[i]? = some y) (hf : f x = f y) : (l.set i x).map f = l.map f := by
  apply List.ext_getElem?
  intro j
  by_cases hj : i = j
  · subst hj
    simp [List.getElem?_set, hy, hf]
    exact (List.getElem?_eq_some_iff.1 hy).1
  · simp [List.getElem?_set, hj]

theorem syncLargeChannel_conversations (uid : String) (st : syncState) (ch : Channel)
    (msgs : List Message) :
    (syncLargeChannel uid st ch msgs).conversations = st.conversations ∨
      ∃ idx t r lm, st.conversations.findIdx? (isLargeChannel ch) = some idx ∧
        msgs.getLast? = some lm ∧ st.conversations[idx]? = some (t, r) ∧
        (syncLargeChannel uid st ch msgs).conversations
          = st.conversations.set idx (t, largeChannelUpdate r lm) := by
  unfold syncLargeChannel
  simp only []
  have hfun : (fun cs : Bool × Conversation =>
      cs.2.ChannelID == ch.ChannelID && cs.2.ChannelType == ch.ChannelType)
      = isLargeChannel ch := rfl
  rw [hfun]
  cases hi : st.conversations.findIdx? (isLargeChannel ch) with
  | none => cases msgs.getLast? <;> exact Or.inl rfl
  | some idx =>
    cases hl : msgs.getLast? with
    | none => exact Or.inl rfl
    | some lm =>
      cases hg : st.conversations[idx]? with
      | none => exact Or.inl (by simp [hg])
      | some e =>
        obtain ⟨t, r⟩ := e
        exact Or.inr ⟨idx, t, r, lm, rfl, rfl, hg, by simp [hg]⟩

theorem largeAt_step (uid : String) (st : syncState) (ch ch' : Channel) (msgs : List Message)
    (i off : Nat) (h : LargeAt ch i off st.conversations) :
    LargeAt ch i off (syncLargeChannel uid st ch' msgs).conversations := by
  rcases syncLargeChannel_conversations uid st ch' msgs with heq | ⟨idx, t, r, lm, _, _, hg, heq⟩
  · rw [heq]; exact h
  · rw [heq]
    obtain ⟨hf, t0, r0, h0, hoff⟩ := h
    refine ⟨?_, ?_⟩
    · rw [← hf]
      apply findIdx?_congr_map
      exact map_set_same _ _ _ _ _ hg rfl
    · by_cases hx : idx = i
      · subst hx
        rw [hg] at h0
        have h1 : r = r0 := by
          have := Option.some.inj h0
          exact congrArg Prod.snd this
        refine ⟨t, largeChannelUpdate r lm, ?_, ?_⟩
        · have hlt := (List.getElem?_eq_some_iff.1 hg).1
          simp [List.getElem?_set, hlt]
        · rw [← hoff, ← h1]; rfl
      · exact ⟨t0, r0, by simp [List.getElem?_set, hx, h0], hoff⟩

theorem unreadAt_step_self (uid : String) (st : syncState) (ch : Channel) (msgs : List Message)
    (lm : Message) (i off : Nat) (h : LargeAt ch i off st.conversations)
    (hl : msgs.getLast? = some lm) :
    UnreadAt i (subUint32 lm.MessageSeq off : Nat)
      (syncLargeChannel uid st ch msgs).conversations := by
  obtain ⟨hf, t0, r0, h0, hoff⟩ := h
  unfold syncLargeChannel
  simp only []
  have hfun : (fun cs : Bool × Conversation =>
      cs.2.ChannelID == ch.ChannelID && cs.2.ChannelType == ch.ChannelType)
      = isLargeChannel ch := rfl
  rw [hfun, hf, hl]
  simp only [h0]
  have hlt := (List.getElem?_eq_some_iff.1 h0).1
  refine ⟨t0, largeChannelUpdate r0 lm, by simp [List.getElem?_set, hlt], ?_⟩
  rw [← hoff]; rfl

theorem unreadAt_step_other (uid : String) (st : syncState) (ch ch' : Channel)
    (msgs : List Message) (i off : Nat) (v : Int) (h : LargeAt ch i off st.conversations)
    (hv : UnreadAt i v st.conversations) (hne : ch' ≠ ch) :
    UnreadAt i v (syncLargeChannel uid st ch' msgs).conversations := by
  rcases syncLargeChannel_conversations uid st ch' msgs with heq | ⟨idx, t, r, lm, hf', _, hg, heq⟩
  · rw [heq]; exact hv
  · rw [heq]
    obtain ⟨hf, t0, r0, h0, _⟩ := h
    have hx : idx ≠ i := by
      intro hx
      subst hx
      rw [hg] at h0
      have h1 := List.findIdx?_of_eq_some hf
      have h2 := List.findIdx?_of_eq_some hf'
      simp only [hg, isLargeChannel, Bool.and_eq_true, beq_iff_eq] at h1 h2
      apply hne
      cases ch; cases ch'
      simp only [Channel.mk.injEq]
      exact ⟨h2.1.symm.trans h1.1, h2.2.symm.trans h1.2⟩
    obtain ⟨t1, r1, h1, hr1⟩ := hv
    exact ⟨t1, r1, by simp [List.getElem?_set, hx, h1], hr1⟩

theorem syncLargeChannels_unread
    (LoadLastMsgs : String → Nat → Nat → Except String (List Message)) (uid : String)
    (ch : Channel) (msgs : List Message) (lm : Message) (i off : Nat)
    (hload : LoadLastMsgs ch.ChannelID ch.ChannelType 1 = .ok msgs)
    (hl : msgs.getLast? = some lm) (larges : List Channel) :
    ∀ st : syncState, LargeAt ch i off st.conversations →
      (UnreadAt i (subUint32 lm.MessageSeq off : Nat) st.conversations ∨ ch ∈ larges) →
      (syncLargeChannels LoadLastMsgs uid st larges).1 = .ok () →
      UnreadAt i (subUint32 lm.MessageSeq off : Nat)
        (syncLargeChannels LoadLastMsgs uid st larges).2.conversations := by
  induction larges with
  | nil =>
    intro st _ hv _
    rcases hv with hv | hv
    · simpa [syncLargeChannels] using hv
    · simp at hv
  | cons ch' rest ih =>
    intro st hq hv hok
    unfold syncLargeChannels at hok ⊢
    cases hld : LoadLastMsgs ch'.ChannelID ch'.ChannelType 1 with
    | error e => simp [hld] at hok
    | ok msgs' =>
      simp only [hld] at hok ⊢
      apply ih _ (largeAt_step uid st ch ch' msgs' i off hq) _ hok
      by_cases hc : ch' = ch
      · subst hc
        rw [hload] at hld
        have hm : msgs = msgs' := by injection hld
        subst hm
        exact Or.inl (unreadAt_step_self uid st ch' msgs lm i off hq hl)
      · rcases hv with hv | hv
        · exact Or.inl (unreadAt_step_other uid st ch ch' msgs' i off _ hq hv hc)
        · rcases List.mem_cons.1 hv with hv | hv
          · exact absurd hv.symm hc
          · exact Or.inr hv

/-! ## C15: the unread count of a large channel -/

theorem subUint32_of_le (a b : Nat) (ha : a < 2 ^ 32) (hb : b ≤ a) :
    ((subUint32 a b : Nat) : Int) = (a : Int) - (b : Int) := by
  unfold subUint32
  have h1 : a % 2 ^ 32 = a := Nat.mod_eq_of_lt ha
  have h2 : b % 2 ^ 32 = b := Nat.mod_eq_of_lt (by omega)
  rw [h1, h2]
  have h3 : (a + 2 ^ 32 - b) % 2 ^ 32 = a - b := by
    have : a + 2 ^ 32 - b = (a - b) + 2 ^ 32 := by omega
    rw [this, Nat.add_mod_right]
    exact Nat.mod_eq_of_lt (by omega)
  rw [h3]
  omega

theorem syncUserConversation_large
    (cm : ConversationManager)
    (LoadLastMsgs : String → Nat → Nat → Except String (List Message))
    (req : syncUserConversationReq) (resp : List Conversation) (ch : Channel) (i : Nat)
    (r : Conversation) (msgs : List Message) (lm : Message)
    (hok : (syncUserConversation cm LoadLastMsgs req).1 = .ok resp)
    (hch : ch ∈ req.Larges)
    (hidx : (GetConversations cm req.UID req.Version req.Larges).1.findIdx?
      (fun c => c.ChannelID == ch.ChannelID && c.ChannelType == ch.ChannelType) = some i)
    (hrec : (GetConversations cm req.UID req.Version req.Larges).1[i]? = some r)
    (hload : LoadLastMsgs ch.ChannelID ch.ChannelType 1 = .ok msgs)
    (hlast : msgs.getLast? = some lm) :
    ∃ r', resp[i]? = some r' ∧
      r'.UnreadCount = (subUint32 lm.MessageSeq r.OffsetMsgSeq : Nat) := by
  have hq : LargeAt ch i r.OffsetMsgSeq
      (GetConversationsTagged cm req.UID req.Version req.Larges).1 := by
    unfold GetConversations at hidx hrec
    simp only [List.findIdx?_map, List.getElem?_map] at hidx hrec
    refine ⟨hidx, ?_⟩
    cases hg : (GetConversationsTagged cm req.UID req.Version req.Larges).1[i]? with
    | none => simp [hg] at hrec
    | some e =>
      simp only [hg, Option.map_some', Option.some.injEq] at hrec
      exact ⟨e.1, e.2, rfl, by rw [hrec]⟩
  unfold syncUserConversation at hok
  simp only [] at hok
  have hloop := syncLargeChannels_unread LoadLastMsgs req.UID ch msgs lm i r.OffsetMsgSeq
    hload hlast req.Larges
    { conversations := (GetConversationsTagged cm req.UID req.Version req.Larges).1,
      appended := [],
      cm := (GetConversationsTagged cm req.UID req.Version req.Larges).2 } hq (Or.inr hch)
  rcases hres : syncLargeChannels LoadLastMsgs req.UID
    { conversations := (GetConversationsTagged cm req.UID req.Version req.Larges).1,
      appended := [],
      cm := (GetConversationsTagged cm req.UID req.Version req.Larges).2 } req.Larges
    with ⟨res, st⟩
  rw [hres] at hok hloop
  cases res with
  | error e => simp at hok
  | ok u =>
    simp only [Except.ok.injEq] at hok
    obtain ⟨t', r', hr', hv⟩ := hloop rfl
    refine ⟨r', ?_, hv⟩
    rw [← hok]
    have hlt := (List.getElem?_eq_some_iff.1 hr').1
    rw [List.getElem?_append_left (by simpa using hlt)]
    simp [List.getElem?_map, hr']

/-- Counterexample to C15 as stated: user "b" has read group "g" up to sequence 5 and the
last message of the group in the store has sequence 3; the record returned by the sync
handler has the unread count 4294967294, while the integer difference 3 − 5 is −2. -/
theorem syncUserConversation_unread_counterexample :
    ((syncUserConversation sampleOffset sampleLoadLast3 sampleLargeReq).1.toOption.getD []).map
        (fun r => (r.ChannelID, r.OffsetMsgSeq, r.LastMsgSeq, r.UnreadCount))
      = [("g", 5, 3, 4294967294)] ∧ ((3 : Int) - 5 ≠ 4294967294) := by
  decide

/-- C15 (amended): in syncUserConversation, for every large channel of the request that
has an existing record (the first record of the channel in the list of GetConversations)
and a last message in the store, the returned record at the place of the existing one has
an unreadCount equal to the integer difference lastMessage.messageSeq − record.offsetMsgSeq,
for all 32-bit values of the two sequences with offsetMsgSeq ≤ messageSeq. -/
theorem syncUserConversation_unread
    (cm : ConversationManager)
    (LoadLastMsgs : String → Nat → Nat → Except String (List Message))
    (req : syncUserConversationReq) (resp : List Conversation) (ch : Channel) (i : Nat)
    (r : Conversation) (msgs : List Message) (lm : Message)
    (hok : (syncUserConversation cm LoadLastMsgs req).1 = .ok resp)
    (hch : ch ∈ req.Larges)
    (hidx : (GetConversations cm req.UID req.Version req.Larges).1.findIdx?
      (fun c => c.ChannelID == ch.ChannelID && c.ChannelType == ch.ChannelType) = some i)
    (hrec : (GetConversations cm req.UID req.Version req.Larges).1[i]? = some r)
    (hload : LoadLastMsgs ch.ChannelID ch.ChannelType 1 = .ok msgs)
    (hlast : msgs.getLast? = some lm)
    (hseq : lm.MessageSeq < 2 ^ 32) (hoff : r.OffsetMsgSeq ≤ lm.MessageSeq) :
    ∃ r', resp[i]? = some r' ∧
      r'.UnreadCount = (lm.MessageSeq : Int) - (r.OffsetMsgSeq : Int) := by
  obtain ⟨r', h1, h2⟩ :=
    syncUserConversation_large cm LoadLastMsgs req resp ch i r msgs lm hok hch hidx hrec
      hload hlast
  exact ⟨r', h1, by rw [h2, subUint32_of_le _ _ hseq hoff]⟩

/-- Witness for C15: user "b" has read group "g" up to sequence 3, the last message has
sequence 5, and the returned record has the unread count 2. -/
theorem syncUserConversation_unread_witness :
    ∃ r', ((GetConversations sampleOffset3 "b" 0 sampleLargeReq.Larges).1.map
        (fun c => { c with UnreadCount := 2, Timestamp := 1000, LastMsgSeq := 5,
                           LastClientMsgNo := "n5", LastMsgID := 105 }))[0]? = some r' ∧
      r'.UnreadCount = ((sampleMessage5.MessageSeq : Nat) : Int) - ((3 : Nat) : Int) :=
  syncUserConversation_unread sampleOffset3 sampleLoadLast5 sampleLargeReq
    ((GetConversations sampleOffset3 "b" 0 sampleLargeReq.Larges).1.map
        (fun c => { c with UnreadCount := 2, Timestamp := 1000, LastMsgSeq := 5,
                           LastClientMsgNo := "n5", LastMsgID := 105 }))
    { ChannelID := "g", ChannelType := 2 } 0
    { UID := "b", ChannelID := "g", ChannelType := 2, UnreadCount := 0, Timestamp := 0,
      LastMsgSeq := 0, LastClientMsgNo := "", LastMsgID := 0, Version := 0, OffsetMsgSeq := 3 }
    [sampleMessage5] sampleMessage5 (by rfl) (by decide) (by decide) (by decide) (by rfl)
    (by rfl) (by decide) (by decide)

/-! ## getLeastSlotNodes -/

theorem countPeers_foldl (peerID : Nat) (l : List Nat) (n : Nat) :
    l.foldl (fun count pID => if pID = peerID then count + 1 else count) n
      = n + l.count peerID := by
  induction l generalizing n with
  | nil => simp
  | cons a l ih =>
    simp only [List.foldl_cons, ih, List.count_cons]
    by_cases h : a = peerID
    · simp [h]; omega
    · simp [h]

theorem getSlotCount_foldl (peerID : Nat) (slots : List Slot) (n : Nat) :
    slots.foldl
        (fun count slot =>
          slot.Peers.foldl (fun count pID => if pID = peerID then count + 1 else count) count)
        n
      = n + (slots.flatMap (fun slot => slot.Peers)).count peerID := by
  have hfun : (fun (count : Nat) (slot : Slot) =>
      slot.Peers.foldl (fun count pID => if pID = peerID then count + 1 else count) count)
      = fun count slot => count + slot.Peers.count peerID := by
    funext count slot
    exact countPeers_foldl peerID slot.Peers count
  rw [hfun]
  induction slots generalizing n with
  | nil => simp
  | cons s slots ih =>
    rw [List.foldl_cons, ih, List.flatMap_cons, List.count_append]
    omega

theorem getSlotCount_eq (fakeCluster : Cluster) (peerID : Nat) :
    getSlotCount fakeCluster peerID
      = (fakeCluster.Slots.flatMap (fun slot => slot.Peers)).count peerID := by
  unfold getSlotCount
  rw [getSlotCount_foldl]
  omega

theorem sortSlice_pairwise (sortSlice : SortSlice) (key : Peer → Nat) (l : List Peer) :
    (sortSlice.run (fun a b => decide (key a < key b)) l).Pairwise
      (fun a b => key a ≤ key b) := by
  have h := sortSlice.sorted (fun a b => decide (key a < key b)) l
    (by intro a b hab; simp only [decide_eq_true_eq, decide_eq_false_iff_not] at hab ⊢; omega)
    (by intro a b c hab hbc; simp only [decide_eq_false_iff_not] at hab hbc ⊢; omega)
  refine h.imp ?_
  intro a b hab
  simp only [decide_eq_false_iff_not] at hab
  omega

theorem getLeastSlotNodes_spec (sortSlice : SortSlice) (fakeCluster : Cluster) :
    (getLeastSlotNodes sortSlice fakeCluster).length
        = min fakeCluster.ReplicaCount fakeCluster.Peers.length ∧
      (∃ chosen rest : List Peer, (chosen ++ rest).Perm fakeCluster.Peers ∧
        getLeastSlotNodes sortSlice fakeCluster = chosen.map (fun peer => peer.PeerID) ∧
        ∀ a ∈ chosen, ∀ b ∈ rest,
          getSlotCount fakeCluster a.PeerID ≤ getSlotCount fakeCluster b.PeerID) ∧
      ((getLeastSlotNodes sortSlice fakeCluster).map (getSlotCount fakeCluster)).Pairwise
        (fun x y => x ≤ y) := by
  have hperm := sortSlice.perm
    (fun a b => decide (getSlotCount fakeCluster a.PeerID < getSlotCount fakeCluster b.PeerID))
    fakeCluster.Peers
  have hsorted := sortSlice_pairwise sortSlice (fun a => getSlotCount fakeCluster a.PeerID)
    fakeCluster.Peers
  unfold getLeastSlotNodes
  simp only []
  generalize sortSlice.run
    (fun a b => decide (getSlotCount fakeCluster a.PeerID < getSlotCount fakeCluster b.PeerID))
    fakeCluster.Peers = s at hperm hsorted ⊢
  refine ⟨?_, ?_, ?_⟩
  · simp only [List.length_map, List.length_take, hperm.length_eq]
  · refine ⟨s.take fakeCluster.ReplicaCount, s.drop fakeCluster.ReplicaCount, ?_, rfl, ?_⟩
    · rw [List.take_append_drop]; exact hperm
    · rw [← List.take_append_drop fakeCluster.ReplicaCount s] at hsorted
      exact (List.pairwise_append.1 hsorted).2.2
  · rw [List.map_map, List.pairwise_map]
    exact (hsorted.sublist (List.take_sublist _ _)).imp (fun h => h)

theorem getLeastSlotNodes_nodup (sortSlice : SortSlice) (fakeCluster : Cluster)
    (hids : (fakeCluster.Peers.map (fun peer => peer.PeerID)).Nodup) :
    (getLeastSlotNodes sortSlice fakeCluster).Nodup := by
  have hperm := sortSlice.perm
    (fun a b => decide (getSlotCount fakeCluster a.PeerID < getSlotCount fakeCluster b.PeerID))
    fakeCluster.Peers
  unfold getLeastSlotNodes
  simp only []
  have h1 : ((sortSlice.run
      (fun a b => decide (getSlotCount fakeCluster a.PeerID < getSlotCount fakeCluster b.PeerID))
      fakeCluster.Peers).map (fun peer => peer.PeerID)).Nodup :=
    (hperm.map _).nodup_iff.2 hids
  rw [List.map_take]
  exact h1.sublist (List.take_sublist _ _)

theorem getLeastSlotNodes_mem (sortSlice : SortSlice) (fakeCluster : Cluster) (pid : Nat)
    (h : pid ∈ getLeastSlotNodes sortSlice fakeCluster) :
    pid ∈ fakeCluster.Peers.map (fun peer => peer.PeerID) := by
  have hperm := sortSlice.perm
    (fun a b => decide (getSlotCount fakeCluster a.PeerID < getSlotCount fakeCluster b.PeerID))
    fakeCluster.Peers
  unfold getLeastSlotNodes at h
  simp only [List.mem_map] at h ⊢
  obtain ⟨a, ha, hpid⟩ := h
  exact ⟨a, hperm.subset (List.mem_of_mem_take ha), hpid⟩

/-! ## C16: the least loaded peers -/

/-- C16: for every cluster snapshot, and every sort that meets the contract of sort.Slice,
getLeastSlotNodes returns exactly min(replicaCount, |peers|) peer ids, each the id of a
different entry of the peer list (the chosen entries and the rest make up the peer list),
the slot count of every chosen peer is at most the slot count of every peer not chosen,
and the returned ids are in ascending order of slot count. -/
theorem getLeastSlotNodes_least (sortSlice : SortSlice) (fakeCluster : Cluster) :
    (getLeastSlotNodes sortSlice fakeCluster).length
        = min fakeCluster.ReplicaCount fakeCluster.Peers.length ∧
      (∃ chosen rest : List Peer, (chosen ++ rest).Perm fakeCluster.Peers ∧
        getLeastSlotNodes sortSlice fakeCluster = chosen.map (fun peer => peer.PeerID) ∧
        ∀ a ∈ chosen, ∀ b ∈ rest,
          getSlotCount fakeCluster a.PeerID ≤ getSlotCount fakeCluster b.PeerID) ∧
      ((getLeastSlotNodes sortSlice fakeCluster).map (getSlotCount fakeCluster)).Pairwise
        (fun x y => x ≤ y) :=
  getLeastSlotNodes_spec sortSlice fakeCluster

/-- Witness for C16: the theorem at the sample cluster with two slots allocated, where
the peers 2 and 3, with one replica each, are returned. -/
theorem getLeastSlotNodes_least_witness :
    getLeastSlotNodes stableSlice sampleLoaded = [2, 3] ∧
      (getLeastSlotNodes stableSlice sampleLoaded).length
        = min sampleLoaded.ReplicaCount sampleLoaded.Peers.length ∧
      (∃ chosen rest : List Peer, (chosen ++ rest).Perm sampleLoaded.Peers ∧
        getLeastSlotNodes stableSlice sampleLoaded = chosen.map (fun peer => peer.PeerID) ∧
        ∀ a ∈ chosen, ∀ b ∈ rest,
          getSlotCount sampleLoaded a.PeerID ≤ getSlotCount sampleLoaded b.PeerID) ∧
      ((getLeastSlotNodes stableSlice sampleLoaded).map (getSlotCount sampleLoaded)).Pairwise
        (fun x y => x ≤ y) :=
  ⟨by decide, getLeastSlotNodes_least stableSlice sampleLoaded⟩

/-! ## C17: ties in getLeastSlotNodes -/

theorem stableSorted (fakeCluster : Cluster) :
    (fakeCluster.Peers.insertionSort
      (fun a b => getSlotCount fakeCluster a.PeerID ≤ getSlotCount fakeCluster b.PeerID)).Pairwise
      (fun a b => getSlotCount fakeCluster a.PeerID ≤ getSlotCount fakeCluster b.PeerID) := by
  haveI : IsTotal Peer
      (fun a b => getSlotCount fakeCluster a.PeerID ≤ getSlotCount fakeCluster b.PeerID) :=
    ⟨fun a b => Nat.le_total _ _⟩
  haveI : IsTrans Peer
      (fun a b => getSlotCount fakeCluster a.PeerID ≤ getSlotCount fakeCluster b.PeerID) :=
    ⟨fun a b c hab hbc => Nat.le_trans hab hbc⟩
  exact List.sorted_insertionSort _ fakeCluster.Peers

theorem sorted_keys_unique (key : Peer → Nat) (s1 s2 : List Peer) (hp : s1.Perm s2)
    (h1 : s1.Pairwise (fun a b => key a ≤ key b))
    (h2 : s2.Pairwise (fun a b => key a ≤ key b)) : s1.map key = s2.map key := by
  have hs1 : (s1.map key).Sorted (fun x y => x ≤ y) := List.pairwise_map.2 h1
  have hs2 : (s2.map key).Sorted (fun x y => x ≤ y) := List.pairwise_map.2 h2
  exact List.eq_of_perm_of_sorted (hp.map key) hs1 hs2

theorem map_eq_of_injOn {α β : Type} (f : α → β) :
    ∀ l1 l2 : List α, (∀ a ∈ l1, ∀ b ∈ l2, f a = f b → a = b) → l1.map f = l2.map f →
      l1 = l2
  | [], [], _, _ => rfl
  | [], _ :: _, _, h => by simp at h
  | _ :: _, [], _, h => by simp at h
  | a :: l1, b :: l2, hinj, h => by
    simp only [List.map_cons, List.cons.injEq] at h
    have hab := hinj a (List.mem_cons_self _ _) b (List.mem_cons_self _ _) h.1
    have ht := map_eq_of_injOn f l1 l2
      (fun x hx y hy => hinj x (List.mem_cons_of_mem _ hx) y (List.mem_cons_of_mem _ hy)) h.2
    rw [hab, ht]

theorem getLeastSlotNodes_counts (sortSlice : SortSlice) (fakeCluster : Cluster) :
    (getLeastSlotNodes sortSlice fakeCluster).map (getSlotCount fakeCluster)
      = (stableLeastSlotNodes fakeCluster).map (getSlotCount fakeCluster) := by
  have hperm := sortSlice.perm
    (fun a b => decide (getSlotCount fakeCluster a.PeerID < getSlotCount fakeCluster b.PeerID))
    fakeCluster.Peers
  have hsorted := sortSlice_pairwise sortSlice (fun a => getSlotCount fakeCluster a.PeerID)
    fakeCluster.Peers
  have hkeys := sorted_keys_unique (fun a => getSlotCount fakeCluster a.PeerID) _ _
    (hperm.trans (List.perm_insertionSort _ fakeCluster.Peers).symm) hsorted
    (stableSorted fakeCluster)
  unfold getLeastSlotNodes stableLeastSlotNodes
  simp only [List.map_map]
  rw [List.map_take, List.map_take]
  exact congrArg (List.take fakeCluster.ReplicaCount) hkeys

theorem getLeastSlotNodes_distinct (sortSlice : SortSlice) (fakeCluster : Cluster)
    (hdistinct : fakeCluster.Peers.Pairwise
      (fun a b => getSlotCount fakeCluster a.PeerID ≠ getSlotCount fakeCluster b.PeerID)) :
    getLeastSlotNodes sortSlice fakeCluster = stableLeastSlotNodes fakeCluster := by
  have hperm := sortSlice.perm
    (fun a b => decide (getSlotCount fakeCluster a.PeerID < getSlotCount fakeCluster b.PeerID))
    fakeCluster.Peers
  have hperm2 := List.perm_insertionSort
    (fun a b => getSlotCount fakeCluster a.PeerID ≤ getSlotCount fakeCluster b.PeerID)
    fakeCluster.Peers
  have hsorted := sortSlice_pairwise sortSlice (fun a => getSlotCount fakeCluster a.PeerID)
    fakeCluster.Peers
  have hkeys := sorted_keys_unique (fun a => getSlotCount fakeCluster a.PeerID) _ _
    (hperm.trans hperm2.symm) hsorted (stableSorted fakeCluster)
  have hinj : ∀ a ∈ fakeCluster.Peers, ∀ b ∈ fakeCluster.Peers,
      getSlotCount fakeCluster a.PeerID = getSlotCount fakeCluster b.PeerID → a = b := by
    intro a ha b hb hab
    by_contra hne
    exact hdistinct.forall (fun x y hxy => Ne.symm hxy) ha hb hne hab
  have heq := map_eq_of_injOn (fun a => getSlotCount fakeCluster a.PeerID) _ _
    (fun a ha b hb => hinj a (hperm.subset ha) b (hperm2.subset hb)) hkeys
  unfold getLeastSlotNodes stableLeastSlotNodes
  simp only []
  rw [heq]

theorem filter_orderedInsert (key : Peer → Nat) (r : Peer → Peer → Prop) [DecidableRel r]
    (hr : ∀ a b, key a = key b → r a b) (k : Nat) (x : Peer) (l : List Peer) :
    (l.orderedInsert r x).filter (fun a => key a == k)
      = if key x = k then x :: l.filter (fun a => key a == k)
        else l.filter (fun a => key a == k) := by
  induction l with
  | nil => by_cases h : key x = k <;> simp [h]
  | cons y l ih =>
    rw [List.orderedInsert]
    by_cases hxy : r x y
    · simp only [hxy, if_true]
      by_cases h : key x = k <;> simp [List.filter_cons, h]
    · simp only [hxy, if_false]
      have hne : key x ≠ key y := fun h => hxy (hr x y h)
      rw [List.filter_cons, ih]
      by_cases h : key x = k
      · have hy : (key y == k) = false := by
          simp only [beq_eq_false_iff_ne, ne_eq]
          exact fun hyk => hne (h.trans hyk.symm)
        simp [h, hy, List.filter_cons]
      · simp only [h, if_false, List.filter_cons]

theorem filter_insertionSort (key : Peer → Nat) (r : Peer → Peer → Prop) [DecidableRel r]
    (hr : ∀ a b, key a = key b → r a b) (k : Nat) (l : List Peer) :
    (l.insertionSort r).filter (fun a => key a == k) = l.filter (fun a => key a == k) := by
  induction l with
  | nil => rfl
  | cons x l ih =>
    rw [List.insertionSort, filter_orderedInsert key r hr, ih]
    by_cases h : key x = k <;> simp [List.filter_cons, h]

theorem eq_of_sorted_of_filter_eq (key : Peer → Nat) :
    ∀ s1 s2 : List Peer, s1.Pairwise (fun a b => key a ≤ key b) →
      s2.Pairwise (fun a b => key a ≤ key b) →
      (∀ k, s1.filter (fun a => key a == k) = s2.filter (fun a => key a == k)) → s1 = s2
  | [], [], _, _, _ => rfl
  | [], b :: t2, _, _, h => by
    have := h (key b)
    simp [List.filter_cons] at this
  | a :: t1, [], _, _, h => by
    have := h (key a)
    simp [List.filter_cons] at this
  | a :: t1, b :: t2, h1, h2, h => by
    have hs1 := List.pairwise_cons.1 h1
    have hs2 := List.pairwise_cons.1 h2
    have hba : key a ≤ key b := by
      have hb : b ∈ (a :: t1).filter (fun x => key x == key b) := by
        rw [h (key b)]
        simp [List.filter_cons]
      have hb2 := (List.mem_filter.1 hb).1
      rcases List.mem_cons.1 hb2 with hb3 | hb3
      · rw [hb3]
      · exact hs1.1 b hb3
    have hab : key b ≤ key a := by
      have ha : a ∈ (b :: t2).filter (fun x => key x == key a) := by
        rw [← h (key a)]
        simp [List.filter_cons]
      have ha2 := (List.mem_filter.1 ha).1
      rcases List.mem_cons.1 ha2 with ha3 | ha3
      · rw [ha3]
      · exact hs2.1 a ha3
    have hk : key a = key b := Nat.le_antisymm hba hab
    have hhead := h (key a)
    simp only [List.filter_cons, beq_self_eq_true, if_true, hk] at hhead
    have heq : a = b := (List.cons.inj hhead).1
    subst heq
    have htail : ∀ k, t1.filter (fun x => key x == k) = t2.filter (fun x => key x == k) := by
      intro k
      have hk2 := h k
      simp only [List.filter_cons] at hk2
      by_cases hc : (key a == k) = true
      · simp only [hc, if_true] at hk2
        exact (List.cons.inj hk2).2
      · simp only [hc, if_false] at hk2
        exact hk2
    rw [eq_of_sorted_of_filter_eq key t1 t2 hs1.2 hs2.2 htail]

theorem insertLeft_eq (key : Peer → Nat) (x : Peer) (l : List Peer) :
    insertLeft (fun a b => decide (key a < key b)) x l
      = l.orderedInsert (fun a b => key b ≤ key a) x := by
  induction l with
  | nil => rfl
  | cons y l ih =>
    rw [insertLeft, List.orderedInsert, ih]
    by_cases h : key x < key y
    · have h2 : ¬ key y ≤ key x := by omega
      simp [h, h2]
    · have h2 : key y ≤ key x := by omega
      simp [h, h2]

theorem insertionSortFunc_eq (key : Peer → Nat) (l : List Peer) :
    insertionSortFunc (fun a b => decide (key a < key b)) l
      = (l.reverse.insertionSort (fun a b => key b ≤ key a)).reverse := by
  unfold insertionSortFunc
  congr 1
  have hfun : (fun sortedRev x => insertLeft (fun a b => decide (key a < key b)) x sortedRev)
      = fun sortedRev x => List.orderedInsert (fun a b => key b ≤ key a) x sortedRev := by
    funext sortedRev x
    exact insertLeft_eq key x sortedRev
  rw [hfun]
  have hfold : ∀ t : List Peer, t.insertionSort (fun a b => key b ≤ key a)
      = t.foldr (fun x sortedRev => List.orderedInsert (fun a b => key b ≤ key a) x sortedRev)
        [] := by
    intro t
    induction t with
    | nil => rfl
    | cons y t iht => rw [List.insertionSort, iht, List.foldr_cons]
  rw [hfold, List.foldr_reverse]

theorem insertionSortFunc_stable (key : Peer → Nat) (l : List Peer) :
    insertionSortFunc (fun a b => decide (key a < key b)) l
      = l.insertionSort (fun a b => key a ≤ key b) := by
  rw [insertionSortFunc_eq]
  haveI : IsTotal Peer (fun a b => key b ≤ key a) := ⟨fun a b => Nat.le_total _ _⟩
  haveI : IsTrans Peer (fun a b => key b ≤ key a) := ⟨fun a b c hab hbc => Nat.le_trans hbc hab⟩
  haveI : IsTotal Peer (fun a b => key a ≤ key b) := ⟨fun a b => Nat.le_total _ _⟩
  haveI : IsTrans Peer (fun a b => key a ≤ key b) := ⟨fun a b c hab hbc => Nat.le_trans hab hbc⟩
  apply eq_of_sorted_of_filter_eq key
  · rw [List.pairwise_reverse]
    exact List.sorted_insertionSort (fun a b => key b ≤ key a) l.reverse
  · exact List.sorted_insertionSort (fun a b => key a ≤ key b) l
  · intro k
    rw [List.filter_reverse,
      filter_insertionSort key (fun a b => key b ≤ key a) (fun a b h => by omega),
      filter_insertionSort key (fun a b => key a ≤ key b) (fun a b h => by omega),
      List.filter_reverse, List.reverse_reverse]

theorem librarySlice_small (key : Peer → Nat) (l : List Peer) (hlen : l.length ≤ 12) :
    librarySlice.run (fun a b => decide (key a < key b)) l
      = l.insertionSort (fun a b => key a ≤ key b) := by
  have hport : pdqsortFunc (fun a b => decide (key a < key b)) l
      = l.insertionSort (fun a b => key a ≤ key b) := by
    unfold pdqsortFunc
    simp only [hlen, if_true]
    exact insertionSortFunc_stable key l
  haveI : IsTotal Peer (fun a b => key a ≤ key b) := ⟨fun a b => Nat.le_total _ _⟩
  haveI : IsTrans Peer (fun a b => key a ≤ key b) := ⟨fun a b c hab hbc => Nat.le_trans hab hbc⟩
  have hperm := List.perm_insertionSort (fun a b => key a ≤ key b) l
  have hsorted : (l.insertionSort (fun a b => key a ≤ key b)).Pairwise
      (fun a b => decide (key b < key a) = false) :=
    (List.sorted_insertionSort (fun a b => key a ≤ key b) l).imp
      (fun h => by simpa using h)
  show (if _ then _ else _ : List Peer) = _
  rw [hport]
  rw [if_pos ⟨by omega, hperm, hsorted⟩]

theorem getLeastSlotNodes_small (fakeCluster : Cluster) (hlen : fakeCluster.Peers.length ≤ 12) :
    getLeastSlotNodes librarySlice fakeCluster = stableLeastSlotNodes fakeCluster := by
  unfold getLeastSlotNodes stableLeastSlotNodes
  simp only []
  rw [librarySlice_small (fun a => getSlotCount fakeCluster a.PeerID) fakeCluster.Peers hlen]

/-- Counterexample to C17 as stated: in a cluster of 13 peers in which the peers with an
even id hold one slot replica each, the stable sort by slot count begins with the peers
1, 3 and 5, and getLeastSlotNodes returns the peers 9, 13 and 3: at 13 elements the sort
of the library partitions the slice around a pivot (here the peer 4), which moves peers of
equal slot count past one another, and leaves the peers in the order 9, 13, 3, 1, 5, 11, 7,
4, 8, 10, 6, 12, 2. -/
theorem getLeastSlotNodes_tie_counterexample :
    sampleThirteen.Peers.length = 13 ∧
      (sampleThirteen.Peers.map (fun peer => getSlotCount sampleThirteen peer.PeerID))
        = [0, 1, 0, 1, 0, 1, 0, 1, 0, 1, 0, 1, 0] ∧
      stableLeastSlotNodes sampleThirteen = [1, 3, 5] ∧
      (pdqsortFunc
          (fun a b =>
            decide (getSlotCount sampleThirteen a.PeerID < getSlotCount sampleThirteen b.PeerID))
          sampleThirteen.Peers).map (fun peer => peer.PeerID)
        = [9, 13, 3, 1, 5, 11, 7, 4, 8, 10, 6, 12, 2] ∧
      getLeastSlotNodes librarySlice sampleThirteen = [9, 13, 3] := by
  decide

/-- C17 (amended): for every cluster snapshot with at most 12 peers, getLeastSlotNodes
breaks ties by insertion order: its result equals the first min(replicaCount, |peers|) ids
of the stable ascending-by-slot-count sort of the peer list, so of two peers with equal slot
count the one earlier in the peer list comes first.  For every number of peers, and every
sort that meets the contract of sort.Slice, the returned ids have the same sequence of slot
counts as those ids of the stable sort, and they are those ids when the slot counts of the
peers are pairwise distinct. -/
theorem getLeastSlotNodes_stable (sortSlice : SortSlice) (fakeCluster : Cluster) :
    (fakeCluster.Peers.length ≤ 12 →
        getLeastSlotNodes librarySlice fakeCluster = stableLeastSlotNodes fakeCluster) ∧
      (getLeastSlotNodes sortSlice fakeCluster).map (getSlotCount fakeCluster)
        = (stableLeastSlotNodes fakeCluster).map (getSlotCount fakeCluster) ∧
      (fakeCluster.Peers.Pairwise
          (fun a b => getSlotCount fakeCluster a.PeerID ≠ getSlotCount fakeCluster b.PeerID) →
        getLeastSlotNodes sortSlice fakeCluster = stableLeastSlotNodes fakeCluster) :=
  ⟨getLeastSlotNodes_small fakeCluster, getLeastSlotNodes_counts sortSlice fakeCluster,
    getLeastSlotNodes_distinct sortSlice fakeCluster⟩

/-- Witness for C17: in the sample cluster with the slot counts 2, 2 and 1 the peer 3 comes
first and the peer 1, the earlier of the two peers with two slots, second; and in the sample
cluster with the pairwise distinct slot counts 2, 1 and 0 the sort that turns equal elements
round selects the peers of the stable sort. -/
theorem getLeastSlotNodes_stable_witness :
    (getLeastSlotNodes librarySlice sampleTwelve = stableLeastSlotNodes sampleTwelve ∧
        stableLeastSlotNodes sampleTwelve = [3, 1]) ∧
      (getLeastSlotNodes reversingSlice sampleDistinct = stableLeastSlotNodes sampleDistinct ∧
        stableLeastSlotNodes sampleDistinct = [3, 2]) :=
  ⟨⟨(getLeastSlotNodes_stable librarySlice sampleTwelve).1 (by decide), by decide⟩,
    ⟨(getLeastSlotNodes_stable reversingSlice sampleDistinct).2.2 (by decide), by decide⟩⟩

/-! ## checkAllocSlots: the staged slots -/

theorem allocSlotStep_fold_slots (sortSlice : SortSlice) (c : ClusterManager) (l : List Nat) :
    ∀ st : List AllocateSlot × Cluster,
      ((l.foldl (allocSlotStep sortSlice c) st).1).map (fun a => a.Slot)
        = st.1.map (fun a => a.Slot) ++ l.filter (slotAbsent c) := by
  induction l with
  | nil => intro st; simp
  | cons i l ih =>
    intro st
    rw [List.foldl_cons, ih]
    unfold allocSlotStep
    simp only []
    by_cases h : slotAbsent c i = true
    · have h1 : (!(c.cluster.Slots.any (fun slot => slot.Slot == i))) = true := h
      simp only [h1, if_true, List.map_append, List.map_cons, List.map_nil, List.filter_cons, h,
        List.append_assoc, List.singleton_append]
    · have h1 : (!(c.cluster.Slots.any (fun slot => slot.Slot == i))) = false := by
        simpa [slotAbsent] using h
      simp only [h1, Bool.false_eq_true, if_false, List.filter_cons, h]

theorem stagedSlots_slots (sortSlice : SortSlice) (c : ClusterManager) :
    (stagedSlots sortSlice c).map (fun a => a.Slot)
      = (List.range c.cluster.SlotCount).filter (slotAbsent c) := by
  unfold stagedSlots
  rw [allocSlotStep_fold_slots]
  simp

theorem exists_absent (c : ClusterManager) (n : Nat) (h : c.cluster.Slots.length < n) :
    (List.range n).filter (slotAbsent c) ≠ [] := by
  intro hnil
  have hsub : List.range n ⊆ c.cluster.Slots.map (fun slot => slot.Slot) := by
    intro i hi
    have hp : ¬ (slotAbsent c i = true) := by
      intro hp
      have : i ∈ (List.range n).filter (slotAbsent c) := List.mem_filter.2 ⟨hi, hp⟩
      rw [hnil] at this
      simp at this
    simp only [slotAbsent, Bool.not_eq_true', Bool.not_eq_false, List.any_eq_true,
      beq_iff_eq] at hp
    obtain ⟨slot, hs, he⟩ := hp
    exact List.mem_map.2 ⟨slot, hs, he⟩
  have hle := ((List.nodup_range n).subperm hsub).length_le
  simp only [List.length_range, List.length_map] at hle
  omega

theorem checkAllocSlots_of_gate (sortSlice : SortSlice) (c : ClusterManager)
    (hleader : isLeader c = true)
    (hslots : (c.cluster.Slots.length : Int) ≠ c.opts.SlotCount)
    (hpeers : 0 < c.cluster.Peers.length) :
    checkAllocSlots sortSlice c
      = if stagedSlots sortSlice c = [] then EmptyClusterReady
        else { EmptyClusterReady with AllocateSlotSet := some (stagedSlots sortSlice c) } := by
  unfold checkAllocSlots
  have hp : c.cluster.Peers.length ≠ 0 := by omega
  simp only [hleader, Bool.not_true, Bool.false_eq_true, if_false, hslots, hp]
  cases hs : stagedSlots sortSlice c with
  | nil => simp
  | cons a l => simp

/-! ## C18: the slots that checkAllocSlots allocates -/

/-- Counterexample to C18 as stated: this peer is the leader, the cluster has three peers
and no slot, six slots are configured, and the cluster record holds the slot count 0, the
bound of the loop; every slot id of [0, 6) is absent and the ready is empty. -/
theorem checkAllocSlots_counterexample :
    isLeader sampleUnsized = true ∧
      (sampleUnsized.cluster.Slots.length : Int) < sampleUnsized.opts.SlotCount ∧
      sampleUnsized.opts.SlotCount = 6 ∧
      0 < sampleUnsized.cluster.Peers.length ∧
      (List.range 6).all (slotAbsent sampleUnsized) = true ∧
      checkAllocSlots stableSlice sampleUnsized = EmptyClusterReady := by
  decide

/-- C18 (amended): checkAllocSlots emits a non-empty ready only when this peer is the
leader; when it is the leader, |slots| differs from the configured slot count and
|peers| > 0, the staged entries are, in ascending slot-id order, exactly one for every slot
id in [0, cluster.SlotCount), the slot count held by the cluster record, that is absent
from the slots of the cluster and none for a slot id that is present, and they are emitted
as the AllocateSlotSet unless there is none; when the slot count of the cluster record is
the configured one and |slots| < slotCount, there is at least one. -/
theorem checkAllocSlots_staged (sortSlice : SortSlice) (c : ClusterManager) :
    (checkAllocSlots sortSlice c ≠ EmptyClusterReady → isLeader c = true) ∧
      (isLeader c = true → (c.cluster.Slots.length : Int) ≠ c.opts.SlotCount →
        0 < c.cluster.Peers.length →
        (stagedSlots sortSlice c).map (fun a => a.Slot)
            = (List.range c.cluster.SlotCount).filter (slotAbsent c) ∧
          checkAllocSlots sortSlice c
            = if stagedSlots sortSlice c = [] then EmptyClusterReady
              else { EmptyClusterReady with
                AllocateSlotSet := some (stagedSlots sortSlice c) }) ∧
      ((c.cluster.SlotCount : Int) = c.opts.SlotCount →
        (c.cluster.Slots.length : Int) < c.opts.SlotCount →
        stagedSlots sortSlice c ≠ []) := by
  refine ⟨?_, ?_, ?_⟩
  · intro hne
    by_contra hl
    apply hne
    unfold checkAllocSlots
    have : isLeader c = false := by simpa using hl
    simp [this]
  · intro hleader hslots hpeers
    exact ⟨stagedSlots_slots sortSlice c, checkAllocSlots_of_gate sortSlice c hleader hslots hpeers⟩
  · intro hcount hlt hnil
    have h1 : c.cluster.Slots.length < c.cluster.SlotCount := by omega
    have h2 := exists_absent c c.cluster.SlotCount h1
    rw [← stagedSlots_slots sortSlice c, hnil] at h2
    exact h2 rfl

/-- Witness for C18: the leader of the sample cluster with the slots 0 and 1 allocated
emits the allocations of the slots 2, 3, 4 and 5. -/
theorem checkAllocSlots_staged_witness :
    ((stagedSlots stableSlice samplePartial).map (fun a => a.Slot)
        = (List.range samplePartial.cluster.SlotCount).filter (slotAbsent samplePartial) ∧
      checkAllocSlots stableSlice samplePartial
        = if stagedSlots stableSlice samplePartial = [] then EmptyClusterReady
          else { EmptyClusterReady with
            AllocateSlotSet := some (stagedSlots stableSlice samplePartial) }) ∧
      stagedSlots stableSlice samplePartial ≠ [] ∧
      (List.range samplePartial.cluster.SlotCount).filter (slotAbsent samplePartial)
        = [2, 3, 4, 5] :=
  ⟨(checkAllocSlots_staged stableSlice samplePartial).2.1 (by decide) (by decide) (by decide),
    (checkAllocSlots_staged stableSlice samplePartial).2.2 (by decide) (by decide),
    by decide⟩

/-! ## C20: the entries of the AllocateSlotSet -/

theorem fakeAllocSlot_Peers (slot : Nat) (peers : List Nat) (fakeCluster : Cluster) :
    (fakeAllocSlot slot peers fakeCluster).Peers = fakeCluster.Peers ∧
      (fakeAllocSlot slot peers fakeCluster).ReplicaCount = fakeCluster.ReplicaCount := by
  unfold fakeAllocSlot
  split <;> exact ⟨rfl, rfl⟩

theorem checkAllocSlots_some (sortSlice : SortSlice) (c : ClusterManager)
    (allocs : List AllocateSlot)
    (h : (checkAllocSlots sortSlice c).AllocateSlotSet = some allocs) :
    allocs = stagedSlots sortSlice c := by
  unfold checkAllocSlots at h
  simp only [] at h
  split at h
  · simp [EmptyClusterReady] at h
  · split at h
    · simp [EmptyClusterReady] at h
    · split at h
      · simp [EmptyClusterReady] at h
      · split at h
        · simpa using h.symm
        · simp [EmptyClusterReady] at h

theorem allocSlotStep_fold_entries (sortSlice : SortSlice) (c : ClusterManager)
    (hids : (c.cluster.Peers.map (fun peer => peer.PeerID)).Nodup)
    (hrep : c.cluster.ReplicaCount ≤ c.cluster.Peers.length) (l : List Nat) :
    ∀ st : List AllocateSlot × Cluster,
      st.2.Peers = c.cluster.Peers → st.2.ReplicaCount = c.cluster.ReplicaCount →
      (∀ a ∈ st.1, EntryOK c a) →
      ∀ a ∈ (l.foldl (allocSlotStep sortSlice c) st).1, EntryOK c a := by
  induction l with
  | nil => intro st _ _ h; simpa using h
  | cons i l ih =>
    intro st hp hr h
    rw [List.foldl_cons]
    unfold allocSlotStep
    simp only []
    split
    · apply ih
      · exact (fakeAllocSlot_Peers _ _ _).1.trans hp
      · exact (fakeAllocSlot_Peers _ _ _).2.trans hr
      · intro a ha
        rcases List.mem_append.1 ha with ha | ha
        · exact h a ha
        · simp only [List.mem_singleton] at ha
          subst ha
          refine ⟨?_, ?_, ?_⟩
          · show (getLeastSlotNodes sortSlice st.2).length = _
            rw [(getLeastSlotNodes_spec sortSlice st.2).1, hp, hr]
            omega
          · exact getLeastSlotNodes_nodup sortSlice st.2 (by rw [hp]; exact hids)
          · intro pid hpid
            have := getLeastSlotNodes_mem sortSlice st.2 pid hpid
            rw [hp] at this
            obtain ⟨peer, h1, h2⟩ := List.mem_map.1 this
            exact ⟨peer, h1, h2⟩
    · exact ih st hp hr h

theorem stagedSlots_entries (sortSlice : SortSlice) (c : ClusterManager)
    (hids : (c.cluster.Peers.map (fun peer => peer.PeerID)).Nodup)
    (hrep : c.cluster.ReplicaCount ≤ c.cluster.Peers.length) :
    ∀ a ∈ stagedSlots sortSlice c, EntryOK c a := by
  unfold stagedSlots
  exact allocSlotStep_fold_entries sortSlice c hids hrep _ ([], c.cluster) rfl rfl (by simp)

/-- C20: when the peers of the cluster have pairwise distinct ids and |peers| ≥
replicaCount, every entry of the AllocateSlotSet emitted by checkAllocSlots lists exactly
replicaCount peer ids, pairwise distinct and all ids of cluster peers. -/
theorem checkAllocSlots_entries (sortSlice : SortSlice) (c : ClusterManager)
    (allocs : List AllocateSlot)
    (hids : (c.cluster.Peers.map (fun peer => peer.PeerID)).Nodup)
    (hrep : c.cluster.ReplicaCount ≤ c.cluster.Peers.length)
    (hready : (checkAllocSlots sortSlice c).AllocateSlotSet = some allocs) :
    ∀ a ∈ allocs, a.Peers.length = c.cluster.ReplicaCount ∧ a.Peers.Nodup ∧
      ∀ pid ∈ a.Peers, ∃ peer ∈ c.cluster.Peers, peer.PeerID = pid := by
  rw [checkAllocSlots_some sortSlice c allocs hready]
  exact stagedSlots_entries sortSlice c hids hrep

/-- Witness for C20: the set that the leader of the sample cluster emits for the slots 2
to 5; every entry lists two distinct peers of the cluster. -/
theorem checkAllocSlots_entries_witness :
    (checkAllocSlots stableSlice samplePartial).AllocateSlotSet
        = some [{ Slot := 2, Peers := [2, 3] }, { Slot := 3, Peers := [1, 2] },
                { Slot := 4, Peers := [3, 1] }, { Slot := 5, Peers := [2, 3] }] ∧
      ∀ a ∈ [({ Slot := 2, Peers := [2, 3] } : AllocateSlot), { Slot := 3, Peers := [1, 2] },
              { Slot := 4, Peers := [3, 1] }, { Slot := 5, Peers := [2, 3] }],
        a.Peers.length = samplePartial.cluster.ReplicaCount ∧ a.Peers.Nodup ∧
          ∀ pid ∈ a.Peers, ∃ peer ∈ samplePartial.cluster.Peers, peer.PeerID = pid :=
  ⟨by decide,
    checkAllocSlots_entries stableSlice samplePartial _ (by decide) (by decide) (by decide)⟩

/-! ## checkAllocSlots: the balance of the loads -/

theorem getSlotCount_fakeAllocSlot (slot : Nat) (peers : List Nat) (fakeCluster : Cluster)
    (habsent : ∀ s ∈ fakeCluster.Slots, s.Slot ≠ slot) (pid : Nat) :
    getSlotCount (fakeAllocSlot slot peers fakeCluster) pid
      = getSlotCount fakeCluster pid + peers.count pid := by
  have hany : fakeCluster.Slots.any (fun slotObj => slotObj.Slot == slot) = false := by
    rw [List.any_eq_false]
    intro s hs
    simpa using habsent s hs
  unfold fakeAllocSlot
  simp only [hany, Bool.false_eq_true, if_false, getSlotCount_eq, List.flatMap_append,
    List.count_append, List.flatMap_cons, List.flatMap_nil, List.append_nil]

theorem balanced_step (sortSlice : SortSlice) (c : ClusterManager)
    (hids : (c.cluster.Peers.map (fun peer => peer.PeerID)).Nodup)
    (st : List AllocateSlot × Cluster) (i : Nat)
    (habsent : ∀ s ∈ st.2.Slots, s.Slot ≠ i) (h : Balanced c st) :
    Balanced c (st.1 ++ [{ Slot := i, Peers := getLeastSlotNodes sortSlice st.2 }],
      fakeAllocSlot i (getLeastSlotNodes sortSlice st.2) st.2) := by
  obtain ⟨hlen, ⟨chosen, rest, hperm, hres, hle⟩, _⟩ := getLeastSlotNodes_spec sortSlice st.2
  have hnodup := getLeastSlotNodes_nodup sortSlice st.2 (by rw [h.peers]; exact hids)
  have hcount : ∀ pid, (getLeastSlotNodes sortSlice st.2).count pid ≤ 1 :=
    fun pid => List.nodup_iff_count_le_one.1 hnodup pid
  refine ⟨(fakeAllocSlot_Peers _ _ _).1.trans h.peers, ?_, ?_⟩
  · intro pid
    rw [getSlotCount_fakeAllocSlot _ _ _ habsent, h.loads pid]
    simp [replicaLoad, List.flatMap_append, List.count_append]
  · intro p hp q hq
    rw [getSlotCount_fakeAllocSlot _ _ _ habsent, getSlotCount_fakeAllocSlot _ _ _ habsent]
    have hpq := h.near p hp q hq
    have hcp := hcount p.PeerID
    have hcq := hcount q.PeerID
    by_cases h0 : (getLeastSlotNodes sortSlice st.2).count p.PeerID = 0
    · omega
    · by_cases h1 : (getLeastSlotNodes sortSlice st.2).count q.PeerID = 0
      · have hpin : p.PeerID ∈ getLeastSlotNodes sortSlice st.2 := by
          by_contra hx
          exact h0 (List.count_eq_zero_of_not_mem hx)
        have hqout : q.PeerID ∉ getLeastSlotNodes sortSlice st.2 := by
          intro hx
          exact absurd h1 (Nat.pos_iff_ne_zero.1 (List.count_pos_iff.2 hx))
        rw [hres] at hpin hqout
        obtain ⟨a, ha, hap⟩ := List.mem_map.1 hpin
        have hqrest : q ∈ rest := by
          have hq2 : q ∈ chosen ++ rest := hperm.symm.subset (by rw [h.peers]; exact hq)
          rcases List.mem_append.1 hq2 with hq3 | hq3
          · exact absurd (List.mem_map.2 ⟨q, hq3, rfl⟩) hqout
          · exact hq3
        have := hle a ha q hqrest
        rw [hap] at this
        omega
      · omega

theorem allocSlotStep_fold_balanced (sortSlice : SortSlice) (c : ClusterManager)
    (hids : (c.cluster.Peers.map (fun peer => peer.PeerID)).Nodup) (l : List Nat) :
    ∀ st : List AllocateSlot × Cluster, l.Nodup → (∀ s ∈ st.2.Slots, s.Slot ∉ l) →
      Balanced c st → Balanced c (l.foldl (allocSlotStep sortSlice c) st) := by
  induction l with
  | nil => intro st _ _ h; simpa using h
  | cons i l ih =>
    intro st hnd hclash h
    rw [List.foldl_cons]
    have hnd2 := List.nodup_cons.1 hnd
    unfold allocSlotStep
    simp only []
    split
    · apply ih _ hnd2.2
      · intro s hs
        unfold fakeAllocSlot at hs
        have hany : st.2.Slots.any (fun slotObj => slotObj.Slot == i) = false := by
          rw [List.any_eq_false]
          intro s hs
          have := hclash s hs
          simp only [List.mem_cons, not_or] at this
          simpa using this.1
        simp only [hany, Bool.false_eq_true, if_false, List.mem_append,
          List.mem_singleton] at hs
        rcases hs with hs | hs
        · have := hclash s hs
          simp only [List.mem_cons, not_or] at this
          exact this.2
        · rw [hs]; exact hnd2.1
      · apply balanced_step sortSlice c hids st i _ h
        intro s hs
        have := hclash s hs
        simp only [List.mem_cons, not_or] at this
        exact this.1
    · apply ih st hnd2.2 _ h
      intro s hs
      have := hclash s hs
      simp only [List.mem_cons, not_or] at this
      exact this.2

theorem stagedSlots_balanced (sortSlice : SortSlice) (c : ClusterManager)
    (hslots : c.cluster.Slots = [])
    (hids : (c.cluster.Peers.map (fun peer => peer.PeerID)).Nodup) :
    ∀ p ∈ c.cluster.Peers, ∀ q ∈ c.cluster.Peers,
      replicaLoad (stagedSlots sortSlice c) p.PeerID
        ≤ replicaLoad (stagedSlots sortSlice c) q.PeerID + 1 := by
  have h0 : Balanced c ([], c.cluster) := by
    refine ⟨rfl, ?_, ?_⟩
    · intro pid
      simp [getSlotCount_eq, hslots, replicaLoad]
    · intro p _ q _
      simp [getSlotCount_eq, hslots]
  have h := allocSlotStep_fold_balanced sortSlice c hids (List.range c.cluster.SlotCount)
    ([], c.cluster) (List.nodup_range _) (by simp [hslots]) h0
  intro p hp q hq
  have := h.near p hp q hq
  rw [h.loads, h.loads] at this
  exact this

/-! ## checkAllocSlots: three peers, six slots, two replicas -/

theorem flatMap_length_const {α β : Type} (f : α → List β) (k : Nat) :
    ∀ l : List α, (∀ a ∈ l, (f a).length = k) → (l.flatMap f).length = l.length * k
  | [], _ => by simp
  | a :: l, h => by
    rw [List.flatMap_cons, List.length_append, h a (List.mem_cons_self _ _),
      flatMap_length_const f k l (fun x hx => h x (List.mem_cons_of_mem _ hx)),
      List.length_cons]
    rw [Nat.add_mul, Nat.one_mul, Nat.add_comm]

theorem count_three (a b c : Nat) (hab : a ≠ b) (hac : a ≠ c) (hbc : b ≠ c) :
    ∀ l : List Nat, (∀ x ∈ l, x = a ∨ x = b ∨ x = c) →
      l.count a + l.count b + l.count c = l.length
  | [], _ => by simp
  | x :: l, h => by
    have ih := count_three a b c hab hac hbc l (fun y hy => h y (List.mem_cons_of_mem _ hy))
    simp only [List.count_cons, List.length_cons, beq_iff_eq]
    rcases h x (List.mem_cons_self _ _) with hx | hx | hx
    · subst hx
      simp only [if_true, hab, hac, if_false]
      omega
    · subst hx
      simp only [if_true, Ne.symm hab, hbc, if_false]
      omega
    · subst hx
      simp only [if_true, Ne.symm hac, Ne.symm hbc, if_false]
      omega

theorem stagedSlots_fresh_length (sortSlice : SortSlice) (c : ClusterManager)
    (hslots : c.cluster.Slots = []) :
    (stagedSlots sortSlice c).length = c.cluster.SlotCount := by
  have h := congrArg List.length (stagedSlots_slots sortSlice c)
  rw [List.length_map] at h
  rw [h]
  have hall : (List.range c.cluster.SlotCount).filter (slotAbsent c)
      = List.range c.cluster.SlotCount := by
    apply List.filter_eq_self.2
    intro i _
    simp [slotAbsent, hslots]
  rw [hall, List.length_range]

theorem stagedSlots_four (sortSlice : SortSlice) (c : ClusterManager)
    (hslots : c.cluster.Slots = [])
    (hids : (c.cluster.Peers.map (fun peer => peer.PeerID)).Nodup)
    (h3 : c.cluster.Peers.length = 3) (hcount : c.cluster.SlotCount = 6)
    (hrep : c.cluster.ReplicaCount = 2) :
    ∀ p ∈ c.cluster.Peers, replicaLoad (stagedSlots sortSlice c) p.PeerID = 4 := by
  have hentries := stagedSlots_entries sortSlice c hids (by omega)
  have hbal := stagedSlots_balanced sortSlice c hslots hids
  have hlen : ((stagedSlots sortSlice c).flatMap (fun a => a.Peers)).length = 12 := by
    rw [flatMap_length_const (fun a : AllocateSlot => a.Peers) 2 _
      (fun a ha => (hentries a ha).1.trans hrep), stagedSlots_fresh_length sortSlice c hslots,
      hcount]
  have hmem : ∀ x ∈ (stagedSlots sortSlice c).flatMap (fun a => a.Peers),
      ∃ peer ∈ c.cluster.Peers, peer.PeerID = x := by
    intro x hx
    obtain ⟨a, ha, hxa⟩ := List.mem_flatMap.1 hx
    exact (hentries a ha).2.2 x hxa
  match hP : c.cluster.Peers, h3 with
  | [p1, p2, p3], _ =>
    rw [hP] at hids hbal hmem
    simp only [List.map_cons, List.map_nil, List.nodup_cons, List.mem_cons, List.mem_singleton,
      List.not_mem_nil, not_or, not_false_eq_true, and_true, List.nodup_nil] at hids
    have hsum := count_three p1.PeerID p2.PeerID p3.PeerID hids.1.1 hids.1.2 hids.2
      ((stagedSlots sortSlice c).flatMap (fun a => a.Peers))
      (by
        intro x hx
        obtain ⟨peer, hpeer, hpx⟩ := hmem x hx
        simp only [List.mem_cons, List.mem_singleton, List.not_mem_nil, or_false] at hpeer
        rcases hpeer with h | h | h
        · exact Or.inl (by rw [← hpx, h])
        · exact Or.inr (Or.inl (by rw [← hpx, h]))
        · exact Or.inr (Or.inr (by rw [← hpx, h])))
    rw [hlen] at hsum
    have m1 : p1 ∈ [p1, p2, p3] := by simp
    have m2 : p2 ∈ [p1, p2, p3] := by simp
    have m3 : p3 ∈ [p1, p2, p3] := by simp
    have b12 := hbal p1 m1 p2 m2
    have b21 := hbal p2 m2 p1 m1
    have b13 := hbal p1 m1 p3 m3
    have b31 := hbal p3 m3 p1 m1
    have b23 := hbal p2 m2 p3 m3
    have b32 := hbal p3 m3 p2 m2
    unfold replicaLoad at b12 b21 b13 b31 b23 b32 ⊢
    intro p hp
    simp only [List.mem_cons, List.mem_singleton, List.not_mem_nil, or_false] at hp
    rcases hp with h | h | h <;> rw [h] <;> omega

/-! ## C19: the balance of the AllocateSlotSet -/

theorem checkAllocSlots_fresh (sortSlice : SortSlice) (c : ClusterManager)
    (hleader : isLeader c = true) (hslots : c.cluster.Slots = [])
    (hpeers : 1 ≤ c.cluster.Peers.length) (hcount : 0 < c.cluster.SlotCount)
    (hopts : c.opts.SlotCount ≠ 0) :
    (checkAllocSlots sortSlice c).AllocateSlotSet = some (stagedSlots sortSlice c) := by
  have hgate : (c.cluster.Slots.length : Int) ≠ c.opts.SlotCount := by
    rw [hslots]
    exact fun h => hopts h.symm
  rw [checkAllocSlots_of_gate sortSlice c hleader hgate hpeers]
  have hlen := stagedSlots_fresh_length sortSlice c hslots
  have hne : stagedSlots sortSlice c ≠ [] := by
    intro h
    rw [h] at hlen
    simp at hlen
    omega
  simp [hne]

/-- C19: for a leader whose cluster has no slots and n ≥ 1 peers with distinct ids, and
for every sort that meets the contract of sort.Slice, the AllocateSlotSet emitted by one
checkAllocSlots is balanced: the numbers of allocated slot replicas of any two peers differ
by at most 1, and no move of a single replica from one peer to another reduces the maximum
load; with 3 peers, slotCount = 6 (in the cluster record and in the options) and
replicaCount = 2 a set is emitted and every peer is placed in exactly 4 slot replicas. -/
theorem checkAllocSlots_balanced (sortSlice : SortSlice) (c : ClusterManager)
    (hleader : isLeader c = true) (hslots : c.cluster.Slots = [])
    (hpeers : 1 ≤ c.cluster.Peers.length)
    (hids : (c.cluster.Peers.map (fun peer => peer.PeerID)).Nodup) :
    (∀ allocs, (checkAllocSlots sortSlice c).AllocateSlotSet = some allocs →
        (∀ p ∈ c.cluster.Peers, ∀ q ∈ c.cluster.Peers,
          replicaLoad allocs p.PeerID ≤ replicaLoad allocs q.PeerID + 1) ∧
        (∀ p ∈ c.cluster.Peers, ∀ q ∈ c.cluster.Peers, p.PeerID ≠ q.PeerID →
          ∀ x ∈ c.cluster.Peers, ∃ r ∈ c.cluster.Peers,
            replicaLoad allocs x.PeerID ≤ movedLoad allocs p.PeerID q.PeerID r.PeerID)) ∧
      (c.cluster.Peers.length = 3 → c.cluster.SlotCount = 6 → c.opts.SlotCount = 6 →
        c.cluster.ReplicaCount = 2 →
        ∃ allocs, (checkAllocSlots sortSlice c).AllocateSlotSet = some allocs ∧
          ∀ p ∈ c.cluster.Peers, replicaLoad allocs p.PeerID = 4) := by
  refine ⟨?_, ?_⟩
  · intro allocs hready
    rw [checkAllocSlots_some sortSlice c allocs hready]
    have hbal := stagedSlots_balanced sortSlice c hslots hids
    refine ⟨hbal, ?_⟩
    intro p hp q hq hpq x hx
    by_cases hxp : x.PeerID = p.PeerID
    · refine ⟨q, hq, ?_⟩
      have := hbal p hp q hq
      unfold movedLoad
      simp only [Ne.symm hpq, if_false, if_true, hxp]
      omega
    · refine ⟨x, hx, ?_⟩
      unfold movedLoad
      simp only [hxp, if_false]
      omega
  · intro h3 hcount hopts hrep
    refine ⟨stagedSlots sortSlice c, ?_, stagedSlots_four sortSlice c hslots hids h3 hcount hrep⟩
    exact checkAllocSlots_fresh sortSlice c hleader hslots hpeers (by omega) (by omega)

/-- Witness for C19: the leader of the sample cluster of three peers, six slots and two
replicas, with the sort that turns equal elements round. -/
theorem checkAllocSlots_balanced_witness :
    (checkAllocSlots reversingSlice sampleLeader).AllocateSlotSet
        = some [{ Slot := 0, Peers := [3, 2] }, { Slot := 1, Peers := [1, 3] },
                { Slot := 2, Peers := [2, 1] }, { Slot := 3, Peers := [3, 2] },
                { Slot := 4, Peers := [1, 3] }, { Slot := 5, Peers := [2, 1] }] ∧
      ∃ allocs, (checkAllocSlots reversingSlice sampleLeader).AllocateSlotSet = some allocs ∧
        ∀ p ∈ sampleLeader.cluster.Peers, replicaLoad allocs p.PeerID = 4 :=
  ⟨by decide,
    (checkAllocSlots_balanced reversingSlice sampleLeader (by decide) (by decide) (by decide)
      (by decide)).2 (by decide) (by decide) (by decide) (by decide)⟩

/-! ## AddSlot and the staged slots -/

theorem AddSlot_frame (c : ClusterManager) (s : Slot) :
    (AddSlot c s).opts = c.opts ∧ (AddSlot c s).leaderID = c.leaderID ∧
      (AddSlot c s).slotLeaderRelationSet = c.slotLeaderRelationSet ∧
      (AddSlot c s).configFile = c.configFile ∧ (AddSlot c s).writeErr = c.writeErr ∧
      (AddSlot c s).cluster.Peers = c.cluster.Peers ∧
      (AddSlot c s).cluster.Leader = c.cluster.Leader ∧
      (AddSlot c s).cluster.SlotCount = c.cluster.SlotCount ∧
      (AddSlot c s).cluster.ReplicaCount = c.cluster.ReplicaCount := by
  unfold AddSlot
  split <;> simp

theorem AddSlot_ids (c : ClusterManager) (s : Slot) (id : Nat) :
    id ∈ (AddSlot c s).cluster.Slots.map (fun slot => slot.Slot) ↔
      id ∈ c.cluster.Slots.map (fun slot => slot.Slot) ∨ id = s.Slot := by
  unfold AddSlot
  split
  · rename_i h
    rw [List.any_eq_true] at h
    obtain ⟨x, hx, hxs⟩ := h
    have hxs2 : x.Slot = s.Slot := by simpa using hxs
    constructor
    · exact Or.inl
    · rintro (h1 | h1)
      · exact h1
      · rw [h1]; exact List.mem_map.2 ⟨x, hx, hxs2⟩
  · simp [List.mem_append]

theorem AddSlot_fold_frame (slots : List Slot) :
    ∀ c : ClusterManager,
      (slots.foldl AddSlot c).opts = c.opts ∧ (slots.foldl AddSlot c).leaderID = c.leaderID ∧
        (slots.foldl AddSlot c).cluster.Peers = c.cluster.Peers ∧
        (slots.foldl AddSlot c).cluster.SlotCount = c.cluster.SlotCount := by
  induction slots with
  | nil => intro c; simp
  | cons s slots ih =>
    intro c
    rw [List.foldl_cons]
    have h := ih (AddSlot c s)
    have hf := AddSlot_frame c s
    exact ⟨h.1.trans hf.1, h.2.1.trans hf.2.1, h.2.2.1.trans hf.2.2.2.2.2.1,
      h.2.2.2.trans hf.2.2.2.2.2.2.2.1⟩

theorem AddSlot_fold_ids (slots : List Slot) (id : Nat) :
    ∀ c : ClusterManager,
      id ∈ (slots.foldl AddSlot c).cluster.Slots.map (fun slot => slot.Slot) ↔
        id ∈ c.cluster.Slots.map (fun slot => slot.Slot) ∨
          id ∈ slots.map (fun slot => slot.Slot) := by
  induction slots with
  | nil => intro c; simp
  | cons s slots ih =>
    intro c
    rw [List.foldl_cons, ih, AddSlot_ids]
    simp only [List.map_cons, List.mem_cons]
    constructor
    · rintro ((h | h) | h)
      · exact Or.inl h
      · exact Or.inr (Or.inl h)
      · exact Or.inr (Or.inr h)
    · rintro (h | h | h)
      · exact Or.inl (Or.inl h)
      · exact Or.inl (Or.inr h)
      · exact Or.inr h

theorem slotAbsent_iff (c : ClusterManager) (id : Nat) :
    slotAbsent c id = true ↔ id ∉ c.cluster.Slots.map (fun slot => slot.Slot) := by
  unfold slotAbsent
  simp only [Bool.not_eq_true', List.any_eq_false, beq_iff_eq, List.mem_map, not_exists, not_and]

theorem checkAllocSlots_of_staged_nil (sortSlice : SortSlice) (c : ClusterManager)
    (h : stagedSlots sortSlice c = []) : checkAllocSlots sortSlice c = EmptyClusterReady := by
  unfold checkAllocSlots
  simp only [h]
  split
  · rfl
  · split
    · rfl
    · split
      · rfl
      · simp

theorem checkAllocSlots_congr (sortSlice : SortSlice) (c c' : ClusterManager)
    (hcluster : c'.cluster = c.cluster) (hpeer : c'.opts.PeerID = c.opts.PeerID)
    (hcount : c'.opts.SlotCount = c.opts.SlotCount) (hleader : c'.leaderID = c.leaderID) :
    checkAllocSlots sortSlice c' = checkAllocSlots sortSlice c := by
  have hstep : allocSlotStep sortSlice c' = allocSlotStep sortSlice c := by
    funext st i
    unfold allocSlotStep
    rw [hcluster]
  unfold checkAllocSlots stagedSlots isLeader
  rw [hstep, hcluster, hpeer, hcount, hleader]

/-! ## C21: applying the AllocateSlotSet -/

/-- C21: if the executor applies AddSlot for every entry of the AllocateSlotSet emitted by
checkAllocSlots (one slot per entry, with the id and the peers of the entry), then the next
checkAllocSlots on the resulting cluster emits nothing; and if the set is not applied, the
next checkAllocSlots on a manager with the same cluster, options and leader emits the same
set again. -/
theorem checkAllocSlots_converges (sortSlice sortSlice2 : SortSlice) (c : ClusterManager)
    (allocs : List AllocateSlot) (slots : List Slot)
    (hready : (checkAllocSlots sortSlice c).AllocateSlotSet = some allocs)
    (hslots : slots.map (fun s => (s.Slot, s.Peers)) = allocs.map (fun a => (a.Slot, a.Peers))) :
    checkAllocSlots sortSlice2 (slots.foldl AddSlot c) = EmptyClusterReady ∧
      ∀ c2 : ClusterManager, c2.cluster = c.cluster → c2.opts.PeerID = c.opts.PeerID →
        c2.opts.SlotCount = c.opts.SlotCount → c2.leaderID = c.leaderID →
        (checkAllocSlots sortSlice c2).AllocateSlotSet = some allocs := by
  refine ⟨?_, ?_⟩
  · apply checkAllocSlots_of_staged_nil
    have hids : slots.map (fun s => s.Slot) = allocs.map (fun a => a.Slot) := by
      have := congrArg (List.map Prod.fst) hslots
      simpa [List.map_map] using this
    have hstaged := stagedSlots_slots sortSlice c
    rw [← checkAllocSlots_some sortSlice c allocs hready] at hstaged
    have hmap := stagedSlots_slots sortSlice2 (slots.foldl AddSlot c)
    have hnil : (List.range (slots.foldl AddSlot c).cluster.SlotCount).filter
        (slotAbsent (slots.foldl AddSlot c)) = [] := by
      rw [List.filter_eq_nil_iff]
      intro i hi
      rw [slotAbsent_iff, AddSlot_fold_ids]
      intro hnot
      rw [(AddSlot_fold_frame slots c).2.2.2] at hi
      apply hnot
      by_cases hp : slotAbsent c i = true
      · right
        rw [hids, hstaged]
        exact List.mem_filter.2 ⟨hi, hp⟩
      · left
        rw [slotAbsent_iff] at hp
        exact not_not.1 hp
    rw [hnil] at hmap
    exact List.map_eq_nil_iff.1 hmap
  · intro c2 h1 h2 h3 h4
    rw [checkAllocSlots_congr sortSlice c c2 h1 h2 h3 h4]
    exact hready

/-- Witness for C21: the leader of the sample cluster with the slots 0 and 1 emits the
slots 2 to 5; once they are added the next check emits nothing. -/
theorem checkAllocSlots_converges_witness :
    checkAllocSlots reversingSlice
        ([({ Slot := 2, Leader := 0, Peers := [2, 3] } : Slot),
          { Slot := 3, Leader := 0, Peers := [1, 2] }, { Slot := 4, Leader := 0, Peers := [3, 1] },
          { Slot := 5, Leader := 0, Peers := [2, 3] }].foldl AddSlot samplePartial)
        = EmptyClusterReady ∧
      ∀ c2 : ClusterManager, c2.cluster = samplePartial.cluster →
        c2.opts.PeerID = samplePartial.opts.PeerID →
        c2.opts.SlotCount = samplePartial.opts.SlotCount →
        c2.leaderID = samplePartial.leaderID →
        (checkAllocSlots stableSlice c2).AllocateSlotSet
          = some [{ Slot := 2, Peers := [2, 3] }, { Slot := 3, Peers := [1, 2] },
                  { Slot := 4, Peers := [3, 1] }, { Slot := 5, Peers := [2, 3] }] :=
  checkAllocSlots_converges stableSlice reversingSlice samplePartial _ _ (by decide) (by decide)

/-! ## checkClusterConfig -/

theorem IsEmptyClusterReady_iff (r : ClusterReady) :
    IsEmptyClusterReady r = true ↔ r = EmptyClusterReady := by
  obtain ⟨a, b, c, d⟩ := r
  unfold IsEmptyClusterReady EmptyClusterReady
  cases a <;> cases b <;> cases c <;> cases d <;> simp

theorem checkClusterConfig_spec (sortSlice : SortSlice) (c : ClusterManager) :
    (checkClusterConfig sortSlice c).1 = firstNonEmpty (tickResults sortSlice c) ∧
      (checkClusterConfig sortSlice c).2.1 = (checkPeers c).2 ∧
      (checkClusterConfig sortSlice c).2.2 = checksUpToFirst (tickResults sortSlice c) := by
  unfold checkClusterConfig firstNonEmpty checksUpToFirst tickResults
  simp only []
  cases h1 : IsEmptyClusterReady (checkPeers c).1 <;>
  cases h2 : IsEmptyClusterReady (checkAllocSlots sortSlice (checkPeers c).2) <;>
  cases h3 : IsEmptyClusterReady (checkSlotStates (checkPeers c).2) <;>
  cases h4 : IsEmptyClusterReady (checkSlotLeaders (checkPeers c).2) <;>
  simp [h1, h2, h3, h4, List.find?_cons, List.findIdx_cons]

/-! ## C22: the first non-empty check -/

/-- C22: for every coordinator state, checkClusterConfig returns the result of the first of
checkPeers, checkAllocSlots, checkSlotStates, checkSlotLeaders (evaluated in that order,
the last three on the state that checkPeers leaves) that is non-empty, calls the checks up
to that one and none of the later ones, and returns the empty ClusterReady exactly when all
four are empty. -/
theorem checkClusterConfig_first (sortSlice : SortSlice) (c : ClusterManager) :
    (checkClusterConfig sortSlice c).1 = firstNonEmpty (tickResults sortSlice c) ∧
      (checkClusterConfig sortSlice c).2.2 = checksUpToFirst (tickResults sortSlice c) ∧
      ((checkClusterConfig sortSlice c).1 = EmptyClusterReady ↔
        ∀ r ∈ tickResults sortSlice c, r = EmptyClusterReady) := by
  have h := checkClusterConfig_spec sortSlice c
  refine ⟨h.1, h.2.2, ?_⟩
  rw [h.1]
  unfold firstNonEmpty
  cases hf : (tickResults sortSlice c).find? (fun r => !IsEmptyClusterReady r) with
  | none =>
    simp only [Option.getD_none, true_iff]
    intro r hr
    have := List.find?_eq_none.1 hf r hr
    rw [← IsEmptyClusterReady_iff]
    simpa using this
  | some r =>
    simp only [Option.getD_some]
    have hr := List.find?_some hf
    have hmem := List.mem_of_find?_eq_some hf
    have hne : r ≠ EmptyClusterReady := by
      intro he
      rw [← IsEmptyClusterReady_iff] at he
      simp [he] at hr
    constructor
    · intro he
      exact absurd he hne
    · intro hall
      exact absurd (hall r hmem) hne

/-- Witness for C22: in the sample manager checkPeers and checkAllocSlots are empty and
checkSlotStates is not; its start actions are returned and checkSlotLeaders, which has a
pending relation to emit, is not called. -/
theorem checkClusterConfig_first_witness :
    (checkClusterConfig stableSlice sampleTicking).1 = firstNonEmpty (tickResults stableSlice sampleTicking) ∧
      (checkClusterConfig stableSlice sampleTicking).1
        = { EmptyClusterReady with
            SlotActions := some [{ SlotID := 0, Action := SlotActionStart },
                                 { SlotID := 1, Action := SlotActionStart }] } ∧
      (checkClusterConfig stableSlice sampleTicking).2.2
        = [Check.peers, Check.allocSlots, Check.slotStates] ∧
      checkSlotLeaders sampleTicking ≠ EmptyClusterReady :=
  ⟨(checkClusterConfig_first stableSlice sampleTicking).1, by decide, by decide, by decide⟩

/-! ## C23: checkPeers and the leader of the record -/

theorem checkPeers_snd (c : ClusterManager) :
    (checkPeers c).2
      = if c.cluster.Peers.length = 0 then c
        else if c.leaderID ≠ 0 ∧ c.cluster.Leader ≠ c.leaderID then
          (save { c with cluster := { c.cluster with Leader := c.leaderID } }).2
        else c := by
  unfold checkPeers
  split
  · rfl
  · simp only []
    split <;> rfl

/-- Counterexample to C23 as stated: the manager knows the leader 1 and its cluster record,
which has no peer, holds the leader 0; after checkPeers the record still holds 0.  And on a
file system where the write fails, the record is changed and the config file is not. -/
theorem checkPeers_leader_counterexample :
    (sampleNoPeers.leaderID = 1 ∧ (checkPeers sampleNoPeers).2.cluster.Leader = 0) ∧
      (sampleReadOnly.leaderID = 2 ∧ sampleReadOnly.cluster.Leader = 1 ∧
        (checkPeers sampleReadOnly).2.cluster.Leader = 2 ∧
        (checkPeers sampleReadOnly).2.configFile = none) := by
  decide

/-- C23 (amended): for every coordinator state whose cluster has at least one peer, after
checkPeers returns, if leaderId is known (non-zero) then the leader of the cluster record
equals leaderId, the rest of the record being as before (and, when it was different before
and the write of the config file succeeds, the record has been persisted). -/
theorem checkPeers_leader (c : ClusterManager) (hpeers : c.cluster.Peers ≠ [])
    (hleader : c.leaderID ≠ 0) :
    (checkPeers c).2.cluster = { c.cluster with Leader := c.leaderID } ∧
      (checkPeers c).2.leaderID = c.leaderID ∧
      (c.cluster.Leader ≠ c.leaderID → c.writeErr = false →
        (checkPeers c).2.configFile = some (checkPeers c).2.cluster) := by
  have hlen : c.cluster.Peers.length ≠ 0 := by
    intro h
    exact hpeers (List.length_eq_zero.1 h)
  rw [checkPeers_snd]
  simp only [hlen, if_false, hleader, ne_eq, not_false_eq_true, true_and]
  by_cases hsame : c.cluster.Leader = c.leaderID
  · simp only [hsame, not_true_eq_false, if_false]
    rw [← hsame]
    exact ⟨rfl, trivial, fun h => absurd h id⟩
  · simp only [hsame, not_false_eq_true, if_true]
    unfold save
    by_cases hw : c.writeErr = true
    · simp [hw]
    · have hw2 : c.writeErr = false := by simpa using hw
      simp [hw2]

/-- Witness for C23: the sample manager with three peers learns the leader 2 and writes
the record to the config file. -/
theorem checkPeers_leader_witness :
    (checkPeers sampleNewLeader).2.cluster = { sampleNewLeader.cluster with Leader := 2 } ∧
      (checkPeers sampleNewLeader).2.leaderID = 2 ∧
      (checkPeers sampleNewLeader).2.configFile = some (checkPeers sampleNewLeader).2.cluster :=
  ⟨(checkPeers_leader sampleNewLeader (by decide) (by decide)).1,
    (checkPeers_leader sampleNewLeader (by decide) (by decide)).2.1,
    (checkPeers_leader sampleNewLeader (by decide) (by decide)).2.2 (by decide) (by decide)⟩

/-! ## C24: the start actions of checkSlotStates -/

theorem slotStateActions_spec (c : ClusterManager) (probe : Nat → Nat) (slots : List Slot) :
    ∀ actions : List SlotAction,
      slotStateActions c probe slots actions
        = actions ++ (slots.filter
            (fun slot => decide (c.opts.PeerID ∈ slot.Peers) &&
              decide (probe slot.Slot = SlotStateNotStart))).map
          (fun slot => { SlotID := slot.Slot, Action := SlotActionStart }) := by
  induction slots with
  | nil => intro actions; simp [slotStateActions]
  | cons slot rest ih =>
    intro actions
    unfold slotStateActions
    simp only []
    have hany : slot.Peers.any (fun peeID => peeID == c.opts.PeerID)
        = decide (c.opts.PeerID ∈ slot.Peers) := by
      rw [Bool.eq_iff_iff]
      simp only [List.any_eq_true, beq_iff_eq, decide_eq_true_eq]
      constructor
      · rintro ⟨x, hx, rfl⟩; exact hx
      · intro h; exact ⟨_, h, rfl⟩
    rw [hany]
    by_cases h1 : c.opts.PeerID ∈ slot.Peers
    · by_cases h2 : probe slot.Slot = SlotStateNotStart
      · simp [h1, h2, ih, List.filter_cons]
      · simp [h1, h2, ih, List.filter_cons]
    · simp [h1, ih, List.filter_cons]

theorem checkSlotStates_spec (c : ClusterManager) (probe : Nat → Nat)
    (hleader : c.leaderID ≠ 0) (hprobe : c.opts.GetSlotState = some probe) :
    checkSlotStates c
      = if startActions c probe = [] then EmptyClusterReady
        else { EmptyClusterReady with SlotActions := some (startActions c probe) } := by
  unfold checkSlotStates
  simp only [hleader, if_false, hprobe]
  rw [slotStateActions_spec]
  simp only [List.nil_append]
  unfold startActions
  cases hs : (c.cluster.Slots.filter
      (fun slot => decide (c.opts.PeerID ∈ slot.Peers) &&
        decide (probe slot.Slot = SlotStateNotStart))).map
      (fun slot => ({ SlotID := slot.Slot, Action := SlotActionStart } : SlotAction)) with
  | nil => simp
  | cons a l => simp

/-- Counterexample to C24 as stated: the slots 0 and 1 list this peer, the probe tells that
they are not started, and the leader is not known (leaderId = 0); checkSlotStates emits no
action. -/
theorem checkSlotStates_counterexample :
    sampleLeaderless.leaderID = 0 ∧
      startActions sampleLeaderless (fun _ => SlotStateNotStart)
        = [{ SlotID := 0, Action := SlotActionStart }, { SlotID := 1, Action := SlotActionStart }] ∧
      checkSlotStates sampleLeaderless = EmptyClusterReady := by
  decide

/-- C24 (amended): for every coordinator state in which leaderId is known (non-zero) and
every slot-state probe, checkSlotStates emits exactly one Start action for each cluster
slot that lists this peer among its replicas and whose probed state is NotStarted, in
slot-list order, and no action for any other slot; without such a slot the ready is
empty. -/
theorem checkSlotStates_actions (c : ClusterManager) (probe : Nat → Nat)
    (hleader : c.leaderID ≠ 0) (hprobe : c.opts.GetSlotState = some probe) :
    checkSlotStates c
        = (if startActions c probe = [] then EmptyClusterReady
          else { EmptyClusterReady with SlotActions := some (startActions c probe) }) ∧
      startActions c probe
        = (c.cluster.Slots.filter
            (fun slot => decide (c.opts.PeerID ∈ slot.Peers) &&
              decide (probe slot.Slot = SlotStateNotStart))).map
          (fun slot => { SlotID := slot.Slot, Action := SlotActionStart }) :=
  ⟨checkSlotStates_spec c probe hleader hprobe, rfl⟩

/-- Witness for C24: the sample manager with the known leader 1 emits the start actions of
the slots 0 and 1. -/
theorem checkSlotStates_actions_witness :
    checkSlotStates sampleTicking
        = { EmptyClusterReady with
            SlotActions := some [{ SlotID := 0, Action := SlotActionStart },
                                 { SlotID := 1, Action := SlotActionStart }] } ∧
      checkSlotStates sampleTicking
        = (if startActions sampleTicking (fun _ => SlotStateNotStart) = [] then EmptyClusterReady
          else { EmptyClusterReady with
            SlotActions := some (startActions sampleTicking (fun _ => SlotStateNotStart)) }) :=
  ⟨by decide, (checkSlotStates_actions sampleTicking (fun _ => SlotStateNotStart) (by decide)
    rfl).1⟩

/-! ## checkSlotLeaders and SetSlotLeader -/

theorem pendingRelations_spec (c : ClusterManager) (table : List SlotLeaderRelation) :
    ∀ acc : List SlotLeaderRelation,
      pendingRelations c table acc
        = acc ++ table.filter
            (fun v => v.NeedUpdate && v.Leader == c.opts.PeerID && v.Leader != 0) := by
  induction table with
  | nil => intro acc; simp [pendingRelations]
  | cons v rest ih =>
    intro acc
    unfold pendingRelations
    by_cases h : (v.NeedUpdate && v.Leader == c.opts.PeerID && v.Leader != 0) = true
    · simp only [h, if_true, ih, List.filter_cons, List.append_assoc, List.singleton_append]
    · simp only [h, if_false, ih, List.filter_cons]
      rfl

theorem checkSlotLeaders_filter (c : ClusterManager) (hleader : c.leaderID ≠ 0) :
    checkSlotLeaders c
      = if c.slotLeaderRelationSet.filter
            (fun v => v.NeedUpdate && v.Leader == c.opts.PeerID && v.Leader != 0) = []
        then EmptyClusterReady
        else { EmptyClusterReady with
          SlotLeaderRelationSet := some (c.slotLeaderRelationSet.filter
            (fun v => v.NeedUpdate && v.Leader == c.opts.PeerID && v.Leader != 0)) } := by
  unfold checkSlotLeaders
  simp only [hleader, if_false, pendingRelations_spec, List.nil_append]
  cases ht : c.slotLeaderRelationSet with
  | nil => simp
  | cons v rest =>
    simp only [List.length_cons, Nat.add_one_ne_zero, if_false]
    cases hf : (v :: rest).filter
        (fun v => v.NeedUpdate && v.Leader == c.opts.PeerID && v.Leader != 0) with
    | nil => simp
    | cons a l => simp

theorem ownPending_eq (c : ClusterManager) (hpeer : c.opts.PeerID ≠ 0) :
    c.slotLeaderRelationSet.filter
        (fun v => v.NeedUpdate && v.Leader == c.opts.PeerID && v.Leader != 0)
      = ownPending c := by
  unfold ownPending
  apply List.filter_congr
  intro v _
  by_cases h : v.Leader = c.opts.PeerID
  · have h0 : v.Leader ≠ 0 := by rw [h]; exact hpeer
    simp [h, h0, hpeer]
  · simp [h]

theorem save_frame (c : ClusterManager) :
    (save c).2.cluster = c.cluster ∧ (save c).2.opts = c.opts ∧
      (save c).2.leaderID = c.leaderID ∧
      (save c).2.slotLeaderRelationSet = c.slotLeaderRelationSet ∧
      (save c).2.writeErr = c.writeErr := by
  unfold save
  split <;> simp

theorem SetSlotLeader_frame (c : ClusterManager) (slot leaderID : Nat) :
    (SetSlotLeader c slot leaderID).opts = c.opts ∧
      (SetSlotLeader c slot leaderID).leaderID = c.leaderID ∧
      (SetSlotLeader c slot leaderID).slotLeaderRelationSet
        = (if c.slotLeaderRelationSet.any (fun v => v.Slot == slot) then
            setRelationLeader slot leaderID c.slotLeaderRelationSet
          else c.slotLeaderRelationSet ++ [{ Slot := slot, Leader := leaderID, NeedUpdate := true }]) ∧
      (SetSlotLeader c slot leaderID).cluster
        = { c.cluster with Slots := setLeader slot leaderID c.cluster.Slots } := by
  unfold SetSlotLeader
  simp only []
  split <;> split <;> simp [save_frame]

/-! ## C25: the relations that checkSlotLeaders emits -/

/-- Counterexample to C25 as stated: the leader is known (5), this peer has the id 0,
and the table holds a pending relation with leader = 0, the id of this peer, and
needUpdate = true; checkSlotLeaders emits nothing, since it leaves out a relation whose
leader is 0.  The table is the one that SetSlotLeader(2, 0) makes of the empty table. -/
theorem checkSlotLeaders_counterexample :
    sampleZeroPeer.leaderID = 5 ∧ sampleZeroPeer.opts.PeerID = 0 ∧
      ownPending sampleZeroPeer = [{ Slot := 2, Leader := 0, NeedUpdate := true }] ∧
      (SetSlotLeader { sampleZeroPeer with slotLeaderRelationSet := [] } 2 0).slotLeaderRelationSet
        = sampleZeroPeer.slotLeaderRelationSet ∧
      checkSlotLeaders sampleZeroPeer = EmptyClusterReady := by
  decide

/-- C25 (amended): when leaderId is known and the id of this peer is non-zero,
checkSlotLeaders emits a SlotLeaderRelationSet consisting of exactly the pending relations
with leader = the id of this peer and needUpdate = true, in table order, and emits nothing
when there is none; so after SetSlotLeader(slot, thisPeer) on a table without an entry for
that slot the emitted set contains {slot, thisPeer, needUpdate: true}. -/
theorem checkSlotLeaders_pending (c : ClusterManager) (hleader : c.leaderID ≠ 0)
    (hpeer : c.opts.PeerID ≠ 0) :
    checkSlotLeaders c
        = (if ownPending c = [] then EmptyClusterReady
          else { EmptyClusterReady with SlotLeaderRelationSet := some (ownPending c) }) ∧
      ∀ slot, (∀ v ∈ c.slotLeaderRelationSet, v.Slot ≠ slot) →
        ∃ set, (checkSlotLeaders (SetSlotLeader c slot c.opts.PeerID)).SlotLeaderRelationSet
            = some set ∧
          { Slot := slot, Leader := c.opts.PeerID, NeedUpdate := true } ∈ set := by
  refine ⟨?_, ?_⟩
  · rw [checkSlotLeaders_filter c hleader, ownPending_eq c hpeer]
  · intro slot hnone
    have hf := SetSlotLeader_frame c slot c.opts.PeerID
    have hany : c.slotLeaderRelationSet.any (fun v => v.Slot == slot) = false := by
      rw [List.any_eq_false]
      intro v hv
      simpa using hnone v hv
    rw [hany] at hf
    simp only [Bool.false_eq_true, if_false] at hf
    have hl : (SetSlotLeader c slot c.opts.PeerID).leaderID ≠ 0 := by rw [hf.2.1]; exact hleader
    have hp : (SetSlotLeader c slot c.opts.PeerID).opts.PeerID ≠ 0 := by rw [hf.1]; exact hpeer
    have hmem : ({ Slot := slot, Leader := c.opts.PeerID, NeedUpdate := true } : SlotLeaderRelation)
        ∈ ownPending (SetSlotLeader c slot c.opts.PeerID) := by
      unfold ownPending
      rw [hf.2.2.1, hf.1]
      simp
    rw [checkSlotLeaders_filter _ hl, ownPending_eq _ hp]
    have hne : ownPending (SetSlotLeader c slot c.opts.PeerID) ≠ [] := List.ne_nil_of_mem hmem
    simp only [hne, if_false]
    exact ⟨_, rfl, hmem⟩

/-- Witness for C25: peer 1 emits the one relation of its table that names it as the
leader and is pending, and after SetSlotLeader(4, 1) also the relation of slot 4. -/
theorem checkSlotLeaders_pending_witness :
    checkSlotLeaders sampleRelations
        = { EmptyClusterReady with
            SlotLeaderRelationSet := some [{ Slot := 0, Leader := 1, NeedUpdate := true }] } ∧
      (checkSlotLeaders (SetSlotLeader sampleRelations 4 1)).SlotLeaderRelationSet
        = some [{ Slot := 0, Leader := 1, NeedUpdate := true },
                { Slot := 4, Leader := 1, NeedUpdate := true }] ∧
      (checkSlotLeaders sampleRelations
        = (if ownPending sampleRelations = [] then EmptyClusterReady
          else { EmptyClusterReady with
            SlotLeaderRelationSet := some (ownPending sampleRelations) })) :=
  ⟨by decide, by decide,
    (checkSlotLeaders_pending sampleRelations (by decide) (by decide)).1⟩

/-! ## UpdatedSlotLeaderRelations -/

theorem confirmAll_single_of_absent (s : SlotLeaderRelation) (table : List SlotLeaderRelation)
    (h : s.Slot ∉ table.map (fun v => v.Slot)) : confirmAll [s] table = table := by
  unfold confirmAll confirmedBy
  have hid : ∀ x ∈ table,
      (if [s].any (fun s => x.Slot == s.Slot && x.Leader == s.Leader) then
        { x with NeedUpdate := false } else x) = x := by
    intro x hx
    have hne : x.Slot ≠ s.Slot := fun he => h (he ▸ List.mem_map.2 ⟨x, hx, rfl⟩)
    simp [hne]
  rw [List.map_congr_left hid, List.map_id']

theorem confirmRelation_spec (s : SlotLeaderRelation) (table : List SlotLeaderRelation)
    (hnodup : (table.map (fun v => v.Slot)).Nodup) :
    confirmRelation s table = confirmAll [s] table := by
  induction table with
  | nil => rfl
  | cons v rest ih =>
    have hnd := List.nodup_cons.1 hnodup
    by_cases h : v.Slot = s.Slot ∧ v.Leader = s.Leader
    · have hrest := confirmAll_single_of_absent s rest (by rw [← h.1]; exact hnd.1)
      unfold confirmRelation
      simp only [h, and_self, if_true]
      unfold confirmAll at hrest ⊢
      rw [List.map_cons, hrest]
      simp [confirmedBy, h]
    · unfold confirmRelation
      simp only [h, if_false]
      rw [ih hnd.2]
      unfold confirmAll
      rw [List.map_cons]
      have hb : confirmedBy [s] v = false := by
        unfold confirmedBy
        simp only [List.any_cons, List.any_nil, Bool.or_false, Bool.and_eq_false_imp, beq_iff_eq]
        intro h1
        simpa using fun h2 => h ⟨h1, h2⟩
      simp [hb]

theorem confirmAll_slots (set table : List SlotLeaderRelation) :
    (confirmAll set table).map (fun v => v.Slot) = table.map (fun v => v.Slot) := by
  unfold confirmAll
  rw [List.map_map]
  apply List.map_congr_left
  intro v _
  simp only [Function.comp]
  split <;> rfl

theorem confirmedBy_confirm (set set2 : List SlotLeaderRelation) (v : SlotLeaderRelation) :
    confirmedBy set (if confirmedBy set2 v then { v with NeedUpdate := false } else v)
      = confirmedBy set v := by
  split <;> rfl

theorem confirmAll_cons (s : SlotLeaderRelation) (set table : List SlotLeaderRelation) :
    confirmAll set (confirmAll [s] table) = confirmAll (s :: set) table := by
  unfold confirmAll
  rw [List.map_map]
  apply List.map_congr_left
  intro v _
  simp only [Function.comp, confirmedBy_confirm]
  have hc : confirmedBy (s :: set) v = (confirmedBy [s] v || confirmedBy set v) := by
    simp [confirmedBy]
  rw [hc]
  cases h1 : confirmedBy [s] v <;> cases h2 : confirmedBy set v <;> simp

theorem confirm_fold (set : List SlotLeaderRelation) :
    ∀ table : List SlotLeaderRelation, (table.map (fun v => v.Slot)).Nodup →
      set.foldl (fun table slotLeaderRelation => confirmRelation slotLeaderRelation table) table
        = confirmAll set table := by
  induction set with
  | nil =>
    intro table _
    unfold confirmAll confirmedBy
    simp
  | cons s set ih =>
    intro table hnodup
    rw [List.foldl_cons, confirmRelation_spec s table hnodup,
      ih _ (by rw [confirmAll_slots]; exact hnodup), confirmAll_cons]

theorem confirmAll_idem (set table : List SlotLeaderRelation) :
    confirmAll set (confirmAll set table) = confirmAll set table := by
  unfold confirmAll
  rw [List.map_map]
  apply List.map_congr_left
  intro v _
  simp only [Function.comp, confirmedBy_confirm]
  cases h : confirmedBy set v <;> simp [h]

/-! ## C26: confirming the emitted relations -/

theorem checkSlotLeaders_some (c : ClusterManager) (set : List SlotLeaderRelation)
    (h : (checkSlotLeaders c).SlotLeaderRelationSet = some set) :
    c.leaderID ≠ 0 ∧
      set = c.slotLeaderRelationSet.filter
        (fun v => v.NeedUpdate && v.Leader == c.opts.PeerID && v.Leader != 0) := by
  have hl : c.leaderID ≠ 0 := by
    intro h0
    unfold checkSlotLeaders at h
    simp [h0, EmptyClusterReady] at h
  refine ⟨hl, ?_⟩
  rw [checkSlotLeaders_filter c hl] at h
  split at h
  · simp [EmptyClusterReady] at h
  · simpa using h.symm

theorem UpdatedSlotLeaderRelations_table (c : ClusterManager) (set : List SlotLeaderRelation)
    (hnodup : (c.slotLeaderRelationSet.map (fun v => v.Slot)).Nodup) :
    UpdatedSlotLeaderRelations c set
      = { c with slotLeaderRelationSet := confirmAll set c.slotLeaderRelationSet } := by
  unfold UpdatedSlotLeaderRelations
  rw [confirm_fold set _ hnodup]

/-- C26: for a relation table with at most one entry per slot, UpdatedSlotLeaderRelations(S)
sets needUpdate = false on every table entry whose (slot, leader) matches an entry of S and
changes nothing else; hence after confirming the set emitted by checkSlotLeaders the next
checkSlotLeaders emits nothing, and confirming the same set twice yields the same table as
confirming it once. -/
theorem UpdatedSlotLeaderRelations_confirms (c : ClusterManager)
    (hnodup : (c.slotLeaderRelationSet.map (fun v => v.Slot)).Nodup) :
    (∀ set, UpdatedSlotLeaderRelations c set
        = { c with slotLeaderRelationSet :=
            c.slotLeaderRelationSet.map (fun v =>
              if set.any (fun s => v.Slot == s.Slot && v.Leader == s.Leader) then
                { v with NeedUpdate := false }
              else v) }) ∧
      (∀ set, (checkSlotLeaders c).SlotLeaderRelationSet = some set →
        checkSlotLeaders (UpdatedSlotLeaderRelations c set) = EmptyClusterReady) ∧
      (∀ set, UpdatedSlotLeaderRelations (UpdatedSlotLeaderRelations c set) set
        = UpdatedSlotLeaderRelations c set) := by
  refine ⟨?_, ?_, ?_⟩
  · intro set
    exact UpdatedSlotLeaderRelations_table c set hnodup
  · intro set hset
    obtain ⟨hl, hfilter⟩ := checkSlotLeaders_some c set hset
    rw [UpdatedSlotLeaderRelations_table c set hnodup]
    rw [checkSlotLeaders_filter
      { c with slotLeaderRelationSet := confirmAll set c.slotLeaderRelationSet } hl]
    have hnil : (confirmAll set c.slotLeaderRelationSet).filter
        (fun v => v.NeedUpdate && v.Leader == c.opts.PeerID && v.Leader != 0) = [] := by
      rw [List.filter_eq_nil_iff]
      intro v hv
      unfold confirmAll at hv
      obtain ⟨w, hw, hwv⟩ := List.mem_map.1 hv
      by_cases hc : confirmedBy set w = true
      · simp only [hc, if_true] at hwv
        rw [← hwv]
        simp
      · simp only [hc, if_false] at hwv
        rw [← hwv]
        intro hp
        apply hc
        unfold confirmedBy
        rw [List.any_eq_true]
        refine ⟨w, ?_, by simp⟩
        rw [hfilter]
        exact List.mem_filter.2 ⟨hw, hp⟩
    simp only [hnil, if_true]
  · intro set
    rw [UpdatedSlotLeaderRelations_table c set hnodup]
    rw [UpdatedSlotLeaderRelations_table _ set (by
      show ((confirmAll set c.slotLeaderRelationSet).map (fun v => v.Slot)).Nodup
      rw [confirmAll_slots]; exact hnodup)]
    simp only [confirmAll_idem]

/-- Witness for C26: peer 1 confirms the set that it emitted; the relation of slot 0 is no
longer pending, and the next check emits nothing. -/
theorem UpdatedSlotLeaderRelations_confirms_witness :
    (UpdatedSlotLeaderRelations sampleRelations
        [{ Slot := 0, Leader := 1, NeedUpdate := true }]).slotLeaderRelationSet
        = [{ Slot := 0, Leader := 1, NeedUpdate := false },
           { Slot := 1, Leader := 2, NeedUpdate := true },
           { Slot := 3, Leader := 1, NeedUpdate := false }] ∧
      checkSlotLeaders (UpdatedSlotLeaderRelations sampleRelations
        [{ Slot := 0, Leader := 1, NeedUpdate := true }]) = EmptyClusterReady :=
  ⟨by decide,
    (UpdatedSlotLeaderRelations_confirms sampleRelations (by decide)).2.1 _ (by decide)⟩

/-! ## C27: SetSlotLeader on an existing relation -/

theorem setRelationLeader_filter (slot leaderID : Nat) (v : SlotLeaderRelation)
    (table : List SlotLeaderRelation) (hnodup : (table.map (fun w => w.Slot)).Nodup)
    (hv : v ∈ table) (hslot : v.Slot = slot) :
    (setRelationLeader slot leaderID table).filter (fun w => w.Slot == slot)
      = [{ v with Leader := leaderID }] := by
  induction table with
  | nil => simp at hv
  | cons w rest ih =>
    have hnd := List.nodup_cons.1 hnodup
    unfold setRelationLeader
    by_cases hw : w.Slot = slot
    · have hvw : v = w := by
        rcases List.mem_cons.1 hv with h | h
        · exact h
        · exact absurd (List.mem_map.2 ⟨v, h, hslot.trans hw.symm⟩) hnd.1
      have hrest : rest.filter (fun x => x.Slot == slot) = [] := by
        rw [List.filter_eq_nil_iff]
        intro x hx hxs
        have hxs2 : x.Slot = slot := by simpa using hxs
        exact hnd.1 (List.mem_map.2 ⟨x, hx, hxs2.trans hw.symm⟩)
      simp only [hw, if_true, ne_eq, not_true_eq_false, if_false, List.filter_cons,
        beq_self_eq_true, hrest, hvw]
    · have hvr : v ∈ rest := by
        rcases List.mem_cons.1 hv with h | h
        · exact absurd (h ▸ hslot) hw
        · exact h
      have hb : (w.Slot == slot) = false := by simpa using hw
      simp only [hw, if_false, List.filter_cons, hb, Bool.false_eq_true]
      exact ih hnd.2 hvr

theorem SetSlotLeader_relation (c : ClusterManager) (slot leaderID : Nat)
    (v : SlotLeaderRelation)
    (hnodup : (c.slotLeaderRelationSet.map (fun w => w.Slot)).Nodup)
    (hv : v ∈ c.slotLeaderRelationSet) (hslot : v.Slot = slot) :
    (SetSlotLeader c slot leaderID).slotLeaderRelationSet.filter (fun w => w.Slot == slot)
      = [{ v with Leader := leaderID }] := by
  have hany : c.slotLeaderRelationSet.any (fun w => w.Slot == slot) = true := by
    rw [List.any_eq_true]
    exact ⟨v, hv, by simpa using hslot⟩
  rw [(SetSlotLeader_frame c slot leaderID).2.2.1, hany]
  simp only [if_true]
  exact setRelationLeader_filter slot leaderID v _ hnodup hv hslot

/-- C27 (divergence): the table of the sample manager holds for slot 3 the confirmed
relation with leader 1 (needUpdate = false); after SetSlotLeader(3, 2) the one relation of
slot 3 has the leader 2 and needUpdate = false, not true: the test `leaderID != v.Leader`
comes after the assignment `v.Leader = leaderID` and never holds. -/
theorem SetSlotLeader_confirmed_divergence :
    sampleRelations.slotLeaderRelationSet.filter (fun w => w.Slot == 3)
        = [{ Slot := 3, Leader := 1, NeedUpdate := false }] ∧
      (SetSlotLeader sampleRelations 3 2).slotLeaderRelationSet.filter (fun w => w.Slot == 3)
        = [{ Slot := 3, Leader := 2, NeedUpdate := false }] := by
  decide

/-! ## C28: AddSlot -/

/-- C28: for every cluster and every slot s whose slot id already occurs in the slot list
of the cluster, AddSlot(s) leaves the manager, and with it the cluster record (slots,
peers, leader, counts), unchanged; for a slot id not present it appends s and changes
nothing else, so slot ids that are pairwise distinct stay pairwise distinct. -/
theorem AddSlot_present_or_appended (c : ClusterManager) (s : Slot) :
    (s.Slot ∈ c.cluster.Slots.map (fun slot => slot.Slot) → AddSlot c s = c) ∧
      (s.Slot ∉ c.cluster.Slots.map (fun slot => slot.Slot) →
        AddSlot c s = { c with cluster := { c.cluster with Slots := c.cluster.Slots ++ [s] } } ∧
          ((c.cluster.Slots.map (fun slot => slot.Slot)).Nodup →
            ((AddSlot c s).cluster.Slots.map (fun slot => slot.Slot)).Nodup)) := by
  refine ⟨?_, ?_⟩
  · intro h
    obtain ⟨x, hx, hxs⟩ := List.mem_map.1 h
    have hany : c.cluster.Slots.any (fun slot => slot.Slot == s.Slot) = true := by
      rw [List.any_eq_true]
      exact ⟨x, hx, by simpa using hxs⟩
    unfold AddSlot
    simp [hany]
  · intro h
    have hany : c.cluster.Slots.any (fun slot => slot.Slot == s.Slot) = false := by
      rw [List.any_eq_false]
      intro x hx
      have : x.Slot ≠ s.Slot := fun he => h (List.mem_map.2 ⟨x, hx, he⟩)
      simpa using this
    have heq : AddSlot c s
        = { c with cluster := { c.cluster with Slots := c.cluster.Slots ++ [s] } } := by
      unfold AddSlot
      simp [hany]
    refine ⟨heq, ?_⟩
    intro hnd
    rw [heq]
    simp only [List.map_append, List.map_cons, List.map_nil]
    rw [List.nodup_append]
    refine ⟨hnd, List.nodup_singleton _, ?_⟩
    intro a ha hb
    rw [List.mem_singleton] at hb
    exact h (hb ▸ ha)

/-- Witness for C28: the sample cluster holds the slots 0 and 1; adding a slot 0 changes
nothing and adding the slot 4 appends it. -/
theorem AddSlot_present_or_appended_witness :
    AddSlot samplePartial { Slot := 0, Leader := 3, Peers := [3] } = samplePartial ∧
      (AddSlot samplePartial { Slot := 4, Leader := 0, Peers := [2, 3] }
          = { samplePartial with
              cluster := { samplePartial.cluster with
                Slots := samplePartial.cluster.Slots ++ [{ Slot := 4, Leader := 0, Peers := [2, 3] }] } } ∧
        ((samplePartial.cluster.Slots.map (fun slot => slot.Slot)).Nodup →
          ((AddSlot samplePartial { Slot := 4, Leader := 0, Peers := [2, 3] }).cluster.Slots.map
            (fun slot => slot.Slot)).Nodup)) :=
  ⟨(AddSlot_present_or_appended samplePartial { Slot := 0, Leader := 3, Peers := [3] }).1
      (by decide),
    (AddSlot_present_or_appended samplePartial { Slot := 4, Leader := 0, Peers := [2, 3] }).2
      (by decide)⟩

/-! ## The config manager: no index error -/

namespace clusterconfig

theorem existNodeByCfg_iff (nodeId : Nat) (cfg : Config) :
    existNodeByCfg nodeId cfg = true ↔ nodeId ∈ cfg.Nodes.map (fun node => node.Id) := by
  unfold existNodeByCfg
  simp only [List.any_eq_true, beq_iff_eq, List.mem_map]

theorem addOrUpdateNodesFrom_ok (orig : List Nat) (rest : List Node) :
    ∀ (done : List Node) (cfg : Config),
      ((done ++ rest).map (fun node => node.Id)).Nodup →
      (∀ n ∈ cfg.Nodes, n.Id ∈ orig ∨ n.Id ∈ done.map (fun node => node.Id)) →
      orig.length + done.length
        ≤ cfg.Nodes.length + (done.filter (fun node => decide (node.Id ∈ orig))).length →
      ∃ cfg2, addOrUpdateNodesFrom done.length rest cfg = .ok cfg2 := by
  induction rest with
  | nil => intro done cfg _ _ _; exact ⟨cfg, rfl⟩
  | cons node rest ih =>
    intro done cfg hnodup hids hlen
    have hnodup2 : (((done ++ [node]) ++ rest).map (fun node => node.Id)).Nodup := by
      simpa using hnodup
    have hnew : node.Id ∉ done.map (fun node => node.Id) := by
      intro hmem
      simp only [List.map_append, List.map_cons] at hnodup
      have := (List.nodup_append.1 hnodup).2.2
      exact this hmem (List.mem_cons_self _ _)
    unfold addOrUpdateNodesFrom
    by_cases hex : existNodeByCfg node.Id cfg = true
    · have hin : node.Id ∈ orig := by
        rw [existNodeByCfg_iff] at hex
        obtain ⟨n, hn, hne⟩ := List.mem_map.1 hex
        rcases hids n hn with h | h
        · rw [← hne]; exact h
        · rw [hne] at h; exact absurd h hnew
      have hk : ((done ++ [node]).filter (fun node => decide (node.Id ∈ orig))).length
          ≤ orig.length := by
        have hsub : ((done ++ [node]).filter (fun node => decide (node.Id ∈ orig))).map
            (fun node => node.Id) ⊆ orig := by
          intro x hx
          obtain ⟨n, hn, hnx⟩ := List.mem_map.1 hx
          have := (List.mem_filter.1 hn).2
          rw [← hnx]
          simpa using this
        have hnd : (((done ++ [node]).filter (fun node => decide (node.Id ∈ orig))).map
            (fun node => node.Id)).Nodup := by
          have h1 : ((done ++ [node]).map (fun node => node.Id)).Nodup := by
            rw [List.map_append] at hnodup2
            exact (List.nodup_append.1 hnodup2).1
          exact h1.sublist ((List.filter_sublist _).map _)
        have := (hnd.subperm hsub).length_le
        simpa using this
      have hfl : ((done ++ [node]).filter (fun node => decide (node.Id ∈ orig))).length
          = (done.filter (fun node => decide (node.Id ∈ orig))).length + 1 := by
        simp [List.filter_append, hin]
      have hlt : done.length < cfg.Nodes.length := by omega
      simp only [hex, if_true, hlt]
      have := ih (done ++ [node]) { cfg with Nodes := cfg.Nodes.set done.length node } hnodup2
        (by
          intro n hn
          rcases List.mem_or_eq_of_mem_set hn with h | h
          · rcases hids n h with h1 | h1
            · exact Or.inl h1
            · exact Or.inr (by simp only [List.map_append, List.mem_append]; exact Or.inl h1)
          · exact Or.inr (by simp [h]))
        (by
          simp only [List.length_set, List.length_append, List.length_singleton]
          omega)
      simpa using this
    · simp only [hex, Bool.false_eq_true, if_false]
      have hfl : (done.filter (fun node => decide (node.Id ∈ orig))).length
          ≤ ((done ++ [node]).filter (fun node => decide (node.Id ∈ orig))).length := by
        simp [List.filter_append]
      have := ih (done ++ [node]) { cfg with Nodes := cfg.Nodes ++ [node] } hnodup2
        (by
          intro n hn
          rcases List.mem_append.1 hn with h | h
          · rcases hids n h with h1 | h1
            · exact Or.inl h1
            · exact Or.inr (by simp only [List.map_append, List.mem_append]; exact Or.inl h1)
          · exact Or.inr (by simp only [List.mem_singleton] at h; simp [h]))
        (by
          simp only [List.length_append, List.length_singleton]
          omega)
      simpa using this

theorem AddOrUpdateNodes_no_index_error (nodes : List Node) (cfg : Config)
    (hnodes : (nodes.map (fun node => node.Id)).Nodup) :
    ∃ cfg2, AddOrUpdateNodes nodes cfg = .ok cfg2 := by
  have := addOrUpdateNodesFrom_ok (cfg.Nodes.map (fun node => node.Id)) nodes [] cfg
    (by simpa using hnodes)
    (by intro n hn; exact Or.inl (List.mem_map.2 ⟨n, hn, rfl⟩))
    (by simp)
  simpa [AddOrUpdateNodes] using this

theorem existSlotByCfg_iff (slotId : Nat) (cfg : Config) :
    existSlotByCfg slotId cfg = true ↔ slotId ∈ cfg.Slots.map (fun slot => slot.Id) := by
  unfold existSlotByCfg
  simp only [List.any_eq_true, beq_iff_eq, List.mem_map]

theorem addOrUpdateSlotsFrom_ok (orig : List Nat) (rest : List Slot) :
    ∀ (done : List Slot) (cfg : Config),
      ((done ++ rest).map (fun slot => slot.Id)).Nodup →
      (∀ n ∈ cfg.Slots, n.Id ∈ orig ∨ n.Id ∈ done.map (fun slot => slot.Id)) →
      orig.length + done.length
        ≤ cfg.Slots.length + (done.filter (fun slot => decide (slot.Id ∈ orig))).length →
      ∃ cfg2, addOrUpdateSlotsFrom done.length rest cfg = .ok cfg2 := by
  induction rest with
  | nil => intro done cfg _ _ _; exact ⟨cfg, rfl⟩
  | cons slot rest ih =>
    intro done cfg hnodup hids hlen
    have hnodup2 : (((done ++ [slot]) ++ rest).map (fun slot => slot.Id)).Nodup := by
      simpa using hnodup
    have hnew : slot.Id ∉ done.map (fun slot => slot.Id) := by
      intro hmem
      simp only [List.map_append, List.map_cons] at hnodup
      have := (List.nodup_append.1 hnodup).2.2
      exact this hmem (List.mem_cons_self _ _)
    unfold addOrUpdateSlotsFrom
    by_cases hex : existSlotByCfg slot.Id cfg = true
    · have hin : slot.Id ∈ orig := by
        rw [existSlotByCfg_iff] at hex
        obtain ⟨n, hn, hne⟩ := List.mem_map.1 hex
        rcases hids n hn with h | h
        · rw [← hne]; exact h
        · rw [hne] at h; exact absurd h hnew
      have hk : ((done ++ [slot]).filter (fun slot => decide (slot.Id ∈ orig))).length
          ≤ orig.length := by
        have hsub : ((done ++ [slot]).filter (fun slot => decide (slot.Id ∈ orig))).map
            (fun slot => slot.Id) ⊆ orig := by
          intro x hx
          obtain ⟨n, hn, hnx⟩ := List.mem_map.1 hx
          have := (List.mem_filter.1 hn).2
          rw [← hnx]
          simpa using this
        have hnd : (((done ++ [slot]).filter (fun slot => decide (slot.Id ∈ orig))).map
            (fun slot => slot.Id)).Nodup := by
          have h1 : ((done ++ [slot]).map (fun slot => slot.Id)).Nodup := by
            rw [List.map_append] at hnodup2
            exact (List.nodup_append.1 hnodup2).1
          exact h1.sublist ((List.filter_sublist _).map _)
        have := (hnd.subperm hsub).length_le
        simpa using this
      have hfl : ((done ++ [slot]).filter (fun slot => decide (slot.Id ∈ orig))).length
          = (done.filter (fun slot => decide (slot.Id ∈ orig))).length + 1 := by
        simp [List.filter_append, hin]
      have hlt : done.length < cfg.Slots.length := by omega
      simp only [hex, if_true, hlt]
      have := ih (done ++ [slot]) { cfg with Slots := cfg.Slots.set done.length slot } hnodup2
        (by
          intro n hn
          rcases List.mem_or_eq_of_mem_set hn with h | h
          · rcases hids n h with h1 | h1
            · exact Or.inl h1
            · exact Or.inr (by simp only [List.map_append, List.mem_append]; exact Or.inl h1)
          · exact Or.inr (by simp [h]))
        (by
          simp only [List.length_set, List.length_append, List.length_singleton]
          omega)
      simpa using this
    · simp only [hex, Bool.false_eq_true, if_false]
      have hfl : (done.filter (fun slot => decide (slot.Id ∈ orig))).length
          ≤ ((done ++ [slot]).filter (fun slot => decide (slot.Id ∈ orig))).length := by
        simp [List.filter_append]
      have := ih (done ++ [slot]) { cfg with Slots := cfg.Slots ++ [slot] } hnodup2
        (by
          intro n hn
          rcases List.mem_append.1 hn with h | h
          · rcases hids n h with h1 | h1
            · exact Or.inl h1
            · exact Or.inr (by simp only [List.map_append, List.mem_append]; exact Or.inl h1)
          · exact Or.inr (by simp only [List.mem_singleton] at h; simp [h]))
        (by
          simp only [List.length_append, List.length_singleton]
          omega)
      simpa using this

theorem AddOrUpdateSlots_no_index_error (slots : List Slot) (cfg : Config)
    (hslots : (slots.map (fun slot => slot.Id)).Nodup) :
    ∃ cfg2, AddOrUpdateSlots slots cfg = .ok cfg2 := by
  have := addOrUpdateSlotsFrom_ok (cfg.Slots.map (fun slot => slot.Id)) slots [] cfg
    (by simpa using hslots)
    (by intro n hn; exact Or.inl (List.mem_map.2 ⟨n, hn, rfl⟩))
    (by simp)
  simpa [AddOrUpdateSlots] using this

end clusterconfig

/-! ## C29: the mutators and the config file -/

theorem save_persisted (c : ClusterManager) (hw : c.writeErr = false) :
    (save c).2.configFile = some (save c).2.cluster := by
  unfold save
  simp [hw]

theorem mutators_persisted (c : ClusterManager) (hw : c.writeErr = false) :
    (∀ cluster, (UpdateClusterConfig c cluster).configFile
        = some (UpdateClusterConfig c cluster).cluster) ∧
      (∀ leaderID, (SetLeaderID c leaderID).configFile = some (SetLeaderID c leaderID).cluster) ∧
      (c.configFile = some c.cluster →
        (∀ peer, (UpdatePeerConfig c peer).configFile = some (UpdatePeerConfig c peer).cluster) ∧
        (∀ peerID role, (SetPeerRole c peerID role).2.configFile
          = some (SetPeerRole c peerID role).2.cluster) ∧
        (∀ slot leaderID, (SetSlotLeader c slot leaderID).configFile
          = some (SetSlotLeader c slot leaderID).cluster)) := by
  refine ⟨?_, ?_, ?_⟩
  · intro cluster
    exact save_persisted _ hw
  · intro leaderID
    exact save_persisted _ hw
  · intro hinv
    refine ⟨?_, ?_, ?_⟩
    · intro peer
      unfold UpdatePeerConfig
      split
      · exact hinv
      · exact save_persisted _ hw
    · intro peerID role
      unfold SetPeerRole
      split
      · exact hinv
      · exact save_persisted _ hw
    · intro slot leaderID
      unfold SetSlotLeader
      simp only []
      by_cases hex : c.cluster.Slots.any (fun s => s.Slot == slot) = true
      · simp only [hex, if_true]
        split <;> exact save_persisted _ hw
      · have hnone : ∀ s ∈ c.cluster.Slots, s.Slot ≠ slot := by
          intro s hs he
          apply hex
          rw [List.any_eq_true]
          exact ⟨s, hs, by simpa using he⟩
        have hsame : ∀ l : List Slot, (∀ s ∈ l, s.Slot ≠ slot) → setLeader slot leaderID l = l := by
          intro l
          induction l with
          | nil => intro _; rfl
          | cons a l ih =>
            intro h
            unfold setLeader
            simp only [h a (List.mem_cons_self _ _), if_false,
              ih (fun s hs => h s (List.mem_cons_of_mem _ hs))]
        simp only [hex, Bool.false_eq_true, if_false, hsame _ hnone]
        split <;> exact hinv

/-- C29 (divergence): the config file holds the cluster record of the sample manager and
writes succeed; after AddSlot of the slot 4 the cluster record holds the slots 0, 1 and 4
and the config file still the slots 0 and 1, since AddSlot does not call save. -/
theorem AddSlot_not_persisted :
    samplePersisted.writeErr = false ∧
      samplePersisted.configFile = some samplePersisted.cluster ∧
      ((AddSlot samplePersisted { Slot := 4, Leader := 0, Peers := [2, 3] }).cluster.Slots.map
        (fun slot => slot.Slot)) = [0, 1, 4] ∧
      ((AddSlot samplePersisted { Slot := 4, Leader := 0, Peers := [2, 3] }).configFile.map
        (fun cluster => cluster.Slots.map (fun slot => slot.Slot))) = some [0, 1] ∧
      (AddSlot samplePersisted { Slot := 4, Leader := 0, Peers := [2, 3] }).configFile
        ≠ some (AddSlot samplePersisted { Slot := 4, Leader := 0, Peers := [2, 3] }).cluster := by
  decide

/-! ## C30: AddOrUpdateNodes and AddOrUpdateSlots -/

namespace clusterconfig

/-- C30 (divergence): the config holds the nodes 1 and 2 and the input is the one node 2
with new fields; AddOrUpdateNodes writes it to the index 0, the index of the node in the
input, so the node 1, which is not in the input, is lost and the id 2 occurs twice.
AddOrUpdateSlots does the same with the slot 1. -/
theorem AddOrUpdateNodes_divergence :
    AddOrUpdateNodes [{ Id := 2, Rest := "node two, new" }] sampleConfig
        = .ok { sampleConfig with
            Nodes := [{ Id := 2, Rest := "node two, new" }, { Id := 2, Rest := "node two" }] } ∧
      AddOrUpdateSlots [{ Id := 1, Rest := "slot one, new" }] sampleConfig
        = .ok { sampleConfig with
            Slots := [{ Id := 1, Rest := "slot one, new" }, { Id := 1, Rest := "slot one" }] } := by
  exact ⟨rfl, rfl⟩

end clusterconfig

end WuKongIM
